import Mathlib

/-!
# qzip: the chunked transcode pipeline of `utils/qzip.c`

A shallow embedding of `displayStats`, `doProcessBuffer` and `doProcessFile`.

* `unsigned int` values are natural numbers reduced modulo `2 ^ 32` wherever the
  C code does arithmetic on them; `unsigned long` values are reduced modulo `2 ^ 64`.
* The codec session, the clock and `fseek` are external: they are the fields of an
  environment `Env σ`, where `σ` is the state of the outside world (the session and
  the clock).
* Loops that the C code leaves unbounded take a fuel argument; `none` means that the
  fuel ran out.
* A source file is its size together with a byte accessor, so that files larger than
  one 512 MiB slice can be evaluated.
* Assertions of the C code that concern `malloc`, `fopen` and `fwrite` are taken to
  hold; the assertions of `displayStats` are modelled (`none` is an assertion failure).
-/

namespace Qzip

/-! ## Constants -/

/-- The modulus of `unsigned int` arithmetic. -/
def U32 : Nat := 4294967296

/-- The modulus of `unsigned long` arithmetic. -/
def U64 : Nat := 18446744073709551616

/-- The largest `unsigned int`, from `limits.h`. -/
def UINT_MAX : Nat := 4294967295

/-- The number of bits of a byte, from `limits.h`. -/
def CHAR_BIT : Nat := 8

/-- Estimate of the maximum data expansion after decompression. -/
def DECOMP_BUFSZ_EXPANSION : Nat := 5

/-- Return code of qzip: success. -/
def OK : Int := 0

/-- Return code of qzip: failure. -/
def ERROR : Int := 1

/-- The maximum size of the source buffer: 512 MiB. -/
def SRC_BUFF_LEN : Nat := 512 * 1024 * 1024

/-- Modelled from the spec: the codec statuses are declared in `qatzip.h`, which is not
under `src/`; the spec names them Ok, BufferTooSmall, DataError and OtherFailure. This
is Ok, with the value of the QATzip header. -/
def QZ_OK : Int := 0

/-- Modelled from the spec: one of the statuses that the spec calls OtherFailure
(declared in `qatzip.h`, not under `src/`); the initial value of `ret` in
`doProcessBuffer`. -/
def QZ_FAIL : Int := -2

/-- Modelled from the spec: the status BufferTooSmall (declared in `qatzip.h`, not
under `src/`). -/
def QZ_BUF_ERROR : Int := -3

/-- Modelled from the spec: the status DataError (declared in `qatzip.h`, not under
`src/`). -/
def QZ_DATA_ERROR : Int := -4

/-- Modelled from the spec: the macro `GET_LOWER_32BITS` is declared in a header that
is not under `src/`; file sizes "must fit a 32-bit unsigned count", and the macro keeps
the low 32 bits of its argument. -/
def GET_LOWER_32BITS (v : Nat) : Nat := v % U32

/-! ## Data model -/

/-- A `struct timeval`. -/
structure Timeval where
  tv_sec : Nat
  tv_usec : Nat
deriving DecidableEq, Repr

/-- One node of the timing list, without its `next` pointer: the list itself is a
`List RunTimeList_T`, its first element being the head node. -/
structure RunTimeList_T where
  time_s : Timeval
  time_e : Timeval
deriving DecidableEq, Repr

/-- What one codec call leaves behind: its status, the consumed count it stores in
`*src_len`, and the bytes `dst[0 .. *dst_len)` (so that `*dst_len` is `dst.length`). -/
structure CodecResp where
  ret : Int
  src_len : Nat
  dst : List UInt8
deriving DecidableEq, Repr

/-- The outside world of the pipeline, over a state `σ` (codec session and clock). -/
structure Env (σ : Type) where
  /-- The call `gettimeofday(&tv, NULL)`. -/
  gettimeofday : σ → Timeval × σ
  /-- The call `qzCompress(sess, src, &src_len, dst, &dst_len, 1)`, given the bytes at
  `src`, `*src_len` and `*dst_len`. -/
  qzCompress : σ → (Nat → UInt8) → Nat → Nat → CodecResp × σ
  /-- The call `qzDecompress(sess, src, &src_len, dst, &dst_len)`. -/
  qzDecompress : σ → (Nat → UInt8) → Nat → Nat → CodecResp × σ
  /-- The call `qzMaxCompressedLength(src_sz)`. -/
  qzMaxCompressedLength : Nat → Nat
  /-- The call `fseek(src_file, offset, SEEK_SET)`: `-1` on failure. -/
  fseek : Nat → Int

/-- Record of one codec call: the offset of `src` in the source buffer, `*src_len` and
`*dst_len` on entry, and the response. -/
structure CodecCall where
  src : Nat
  src_len : Nat
  dst_len : Nat
  resp : CodecResp
deriving DecidableEq, Repr

/-! ## `displayStats` -/

/-- The figures that `displayStats` prints. -/
structure Stats where
  us_diff : Nat
  throughput : ℚ
  compressionRatio : ℚ
  spaceSavings : ℚ
deriving DecidableEq

/-- The `unsigned long` value `tv_sec * 1000000 + tv_usec`. -/
def usOf (t : Timeval) : Nat := (t.tv_sec * 1000000 + t.tv_usec) % U64

/-- The `while (time_node)` loop of `displayStats`: the sum of `us_end - us_begin`
(an `unsigned long` difference) over the nodes of the list. -/
def sumUsDiff : List RunTimeList_T → Nat
  | [] => 0
  | n :: rest => (usOf n.time_e + U64 - usOf n.time_s) % U64 + sumUsDiff rest

/-- The function `displayStats(time_list, insize, outsize, is_compress)`, over exact
rationals; `none` when one of its three assertions fails. -/
def displayStats (time_list : List RunTimeList_T) (insize outsize : Nat)
    (is_compress : Bool) : Option Stats :=
  let us_diff := sumUsDiff time_list
  if us_diff = 0 then none
  else if insize = 0 then none
  else if outsize = 0 then none
  else
    let size : ℚ := if is_compress then insize else outsize
    some
      { us_diff := us_diff
        throughput := (size * CHAR_BIT) / us_diff
        compressionRatio := (insize : ℚ) / (outsize : ℚ)
        spaceSavings := 1 - (outsize : ℚ) / (insize : ℚ) }

/-! ## `doProcessBuffer` -/

/-- The local variables of `doProcessBuffer` at the head of its loop, with the state
of the world, the destination stream and the record of the codec calls made. -/
structure BufState (σ : Type) where
  sess : σ
  ret : Int
  buf_processed : Nat
  buf_remaining : Nat
  /-- The offset of the pointer `src` in the source buffer. -/
  src : Nat
  /-- The value of `*src_len`. -/
  src_len : Nat
  dst_len : Nat
  time_list : List RunTimeList_T
  dst_file : List UInt8
  dst_file_size : Nat
  calls : List CodecCall

/-- One pass through the body of the `while (!done)` loop of `doProcessBuffer`. The
flag of the result is `true` when the loop ends after this pass, by `break` or because
`done` is set. -/
def doProcessBufferBody {σ : Type} (env : Env σ) (is_compress : Bool)
    (src_buffer : Nat → UInt8) (valid_dst_buf_len : Nat) (st : BufState σ) :
    Bool × BufState σ :=
  let t1 := env.gettimeofday st.sess
  let src : Nat → UInt8 := fun i => src_buffer (st.src + i)
  let c :=
    if is_compress then env.qzCompress t1.2 src st.src_len st.dst_len
    else env.qzDecompress t1.2 src st.src_len st.dst_len
  let call : CodecCall := ⟨st.src, st.src_len, st.dst_len, c.1⟩
  let done : Bool := !is_compress && decide (c.1.ret = QZ_DATA_ERROR)
  if c.1.ret ≠ QZ_OK ∧ c.1.ret ≠ QZ_BUF_ERROR ∧ c.1.ret ≠ QZ_DATA_ERROR then
    (true,
      { st with
        sess := c.2
        ret := c.1.ret
        src_len := c.1.src_len
        dst_len := c.1.dst.length
        time_list := st.time_list ++ [⟨t1.1, ⟨0, 0⟩⟩]
        calls := st.calls ++ [call] })
  else
    let t2 := env.gettimeofday c.2
    let bytes_written := c.1.dst.length
    let buf_processed := (st.buf_processed + c.1.src_len) % U32
    let buf_remaining := (st.buf_remaining + U32 - c.1.src_len % U32) % U32
    (done || decide (buf_remaining = 0),
      { sess := t2.2
        ret := c.1.ret
        buf_processed := buf_processed
        buf_remaining := buf_remaining
        src := st.src + c.1.src_len
        src_len := buf_remaining
        dst_len := valid_dst_buf_len
        time_list := st.time_list ++ [⟨t1.1, t2.1⟩]
        dst_file := st.dst_file ++ c.1.dst
        dst_file_size := (st.dst_file_size + bytes_written) % U32
        calls := st.calls ++ [call] })

/-- The `while (!done)` loop of `doProcessBuffer`. -/
def doProcessBufferLoop {σ : Type} (env : Env σ) (is_compress : Bool)
    (src_buffer : Nat → UInt8) (valid_dst_buf_len : Nat) :
    Nat → BufState σ → Option (BufState σ)
  | 0, _ => none
  | fuel + 1, st =>
    let r := doProcessBufferBody env is_compress src_buffer valid_dst_buf_len st
    if r.1 then some r.2
    else doProcessBufferLoop env is_compress src_buffer valid_dst_buf_len fuel r.2

/-- What `doProcessBuffer` returns and leaves behind. -/
structure BufResult (σ : Type) where
  ret : Int
  /-- The value stored back in `*src_len`. -/
  src_len : Nat
  sess : σ
  time_list : List RunTimeList_T
  dst_file : List UInt8
  dst_file_size : Nat
  calls : List CodecCall

/-- The function `doProcessBuffer(sess, src, &src_len, dst, dst_len, time_list,
dst_file, &dst_file_size, is_compress)`. -/
def doProcessBuffer {σ : Type} (env : Env σ) (fuel : Nat) (sess : σ)
    (src : Nat → UInt8) (src_len : Nat) (dst_len : Nat)
    (time_list : List RunTimeList_T) (dst_file : List UInt8) (dst_file_size : Nat)
    (is_compress : Bool) : Option (BufResult σ) :=
  let st0 : BufState σ :=
    { sess := sess
      ret := QZ_FAIL
      buf_processed := 0
      buf_remaining := src_len
      src := 0
      src_len := src_len
      dst_len := dst_len
      time_list := time_list
      dst_file := dst_file
      dst_file_size := dst_file_size
      calls := [] }
  (doProcessBufferLoop env is_compress src dst_len fuel st0).map fun st =>
    { ret := st.ret
      src_len := st.buf_processed
      sess := st.sess
      time_list := st.time_list
      dst_file := st.dst_file
      dst_file_size := st.dst_file_size
      calls := st.calls }

/-! ## `doProcessFile` -/

/-- The source file as `stat` and `fread` see it: its size and its bytes. -/
structure SrcFile where
  st_size : Nat
  data : Nat → UInt8

/-- The observable calls of `doProcessFile`, in the order they are made.
The allocation of the nodes of the timing list and the final `fclose` and `free` calls
are not recorded. -/
inductive Event where
  /-- Allocation of the source or of the destination buffer. -/
  | malloc (size : Nat)
  | fopen (name : String) (mode : String)
  /-- A call of `fread` at file position `pos` that returned `bytes_read`. -/
  | fread (pos : Nat) (bytes_read : Nat)
  /-- A call of `doProcessBuffer`: the codec calls it made, its return value and the
  value it stored back in `bytes_read`. -/
  | processBuffer (calls : List CodecCall) (ret : Int) (src_len : Nat)
  | fseek (offset : Nat) (ret : Int)
  | displayStats (insize outsize : Nat)
  | unlink (name : String)
deriving DecidableEq, Repr

/-- The local variables of `doProcessFile` at the head of its main loop, with the
state of the world, the position of `src_file`, the destination stream and the calls
made so far. -/
structure FileState (σ : Type) where
  sess : σ
  ret : Int
  src_pos : Nat
  src_buffer : Nat → UInt8
  bytes_read : Nat
  bytes_processed : Nat
  file_remaining : Nat
  time_list : List RunTimeList_T
  dst_file : List UInt8
  dst_file_size : Nat
  events : List Event

/-- The call `fread(src_buffer, 1, src_buffer_size, src_file)` on a regular file: the
number of bytes read and the buffer afterwards. -/
def fread (f : SrcFile) (pos : Nat) (src_buffer : Nat → UInt8) (src_buffer_size : Nat) :
    Nat × (Nat → UInt8) :=
  let n := min src_buffer_size (f.st_size - pos)
  (n, fun i => if i < n then f.data (pos + i) else src_buffer i)

/-- The body of the main loop `while (file_remaining)` of `doProcessFile`. The flag of
the result is `true` for `goto exit`. `bfuel` is the fuel of `doProcessBuffer`. -/
def doProcessFileStep {σ : Type} (env : Env σ) (f : SrcFile)
    (src_buffer_size dst_buffer_size : Nat) (is_compress : Bool) (bfuel : Nat)
    (st : FileState σ) : Option (Bool × FileState σ) :=
  let rd := fread f st.src_pos st.src_buffer src_buffer_size
  match doProcessBuffer env bfuel st.sess rd.2 rd.1 dst_buffer_size st.time_list
      st.dst_file st.dst_file_size is_compress with
  | none => none
  | some r =>
    let st1 : FileState σ :=
      { st with
        sess := r.sess
        ret := r.ret
        src_pos := st.src_pos + rd.1
        src_buffer := rd.2
        bytes_read := r.src_len
        time_list := r.time_list
        dst_file := r.dst_file
        dst_file_size := r.dst_file_size
        events := st.events ++ [Event.fread st.src_pos rd.1,
          Event.processBuffer r.calls r.ret r.src_len] }
    if r.ret = QZ_DATA_ERROR then
      let bytes_processed := (st.bytes_processed + r.src_len) % U32
      if r.src_len = 0 then
        some (true, { st1 with bytes_processed := bytes_processed, ret := ERROR })
      else if env.fseek bytes_processed = -1 then
        some (true,
          { st1 with
            bytes_processed := bytes_processed
            ret := ERROR
            events := st1.events ++ [Event.fseek bytes_processed (-1)] })
      else
        some (false,
          { st1 with
            bytes_processed := bytes_processed
            src_pos := bytes_processed
            file_remaining := (st.file_remaining + U32 - r.src_len % U32) % U32
            events := st1.events ++ [Event.fseek bytes_processed (env.fseek bytes_processed)] })
    else if r.ret ≠ QZ_OK then
      some (true, { st1 with ret := ERROR })
    else
      some (false,
        { st1 with file_remaining := (st.file_remaining + U32 - r.src_len % U32) % U32 })

/-- The main loop `while (file_remaining)` of `doProcessFile`. The flag of the result
is `true` when the loop was left by `goto exit`. -/
def doProcessFileLoop {σ : Type} (env : Env σ) (f : SrcFile)
    (src_buffer_size dst_buffer_size : Nat) (is_compress : Bool) (bfuel : Nat) :
    Nat → FileState σ → Option (Bool × FileState σ)
  | 0, st => if st.file_remaining = 0 then some (false, st) else none
  | fuel + 1, st =>
    if st.file_remaining = 0 then some (false, st)
    else
      match doProcessFileStep env f src_buffer_size dst_buffer_size is_compress bfuel st with
      | none => none
      | some (true, st1) => some (true, st1)
      | some (false, st1) =>
        doProcessFileLoop env f src_buffer_size dst_buffer_size is_compress bfuel fuel st1

/-- How a run of `doProcessFile` ends: it returns, it calls `exit(code)`, or an
assertion of `displayStats` fails. -/
inductive Outcome where
  | returned
  | exited (code : Int)
  | aborted
deriving DecidableEq, Repr

/-- What a run of `doProcessFile` leaves behind. `dst_file` is `none` when the
destination was never opened. -/
structure FileResult (σ : Type) where
  outcome : Outcome
  sess : σ
  dst_file : Option (List UInt8)
  events : List Event
  stats : Option Stats

/-- The code of `doProcessFile` from the label `exit:` on. -/
def doProcessFileExit {σ : Type} (src_file_name : String) (g_keep : Bool)
    (st : FileState σ) (stats : Option Stats) : FileResult σ :=
  { outcome := if st.ret ≠ 0 then Outcome.exited st.ret else Outcome.returned
    sess := st.sess
    dst_file := some st.dst_file
    events := st.events ++ (if g_keep then [] else [Event.unlink src_file_name])
    stats := stats }

/-- The size of the source buffer that `doProcessFile` allocates. -/
def srcBufferSize (src_file_size : Nat) : Nat :=
  if src_file_size > SRC_BUFF_LEN then SRC_BUFF_LEN else src_file_size

/-- The size of the destination buffer that `doProcessFile` allocates. -/
def dstBufferSize {σ : Type} (env : Env σ) (is_compress : Bool) (src_buffer_size : Nat) :
    Nat :=
  if is_compress then env.qzMaxCompressedLength src_buffer_size % U32
  else (src_buffer_size * DECOMP_BUFSZ_EXPANSION) % U32

/-- The state of `doProcessFile` when it enters its main loop: both buffers are
allocated, both files are open and `file_remaining` is the size of the source. -/
def doProcessFileInit {σ : Type} (env : Env σ) (sess : σ) (now : Timeval)
    (src_file_name dst_file_name : String) (src_file_size : Nat) (is_compress : Bool) :
    FileState σ :=
  { sess := sess
    ret := 0
    src_pos := 0
    src_buffer := fun _ => 0
    bytes_read := 0
    bytes_processed := 0
    file_remaining := src_file_size
    time_list := [⟨now, now⟩]
    dst_file := []
    dst_file_size := 0
    events := [Event.malloc (srcBufferSize src_file_size),
      Event.malloc (dstBufferSize env is_compress (srcBufferSize src_file_size)),
      Event.fopen src_file_name "r", Event.fopen dst_file_name "w"] }

/-- The function `doProcessFile(sess, src_file_name, dst_file_name, is_compress)`, with
the global `g_keep`. `src` is what `stat` finds at `src_file_name` (`none` when `stat`
fails). The fuel serves the main loop and each call of `doProcessBuffer`. -/
def doProcessFile {σ : Type} (env : Env σ) (fuel : Nat) (g_keep : Bool) (sess : σ)
    (src_file_name dst_file_name : String) (src : Option SrcFile) (is_compress : Bool) :
    Option (FileResult σ) :=
  let t := env.gettimeofday sess
  match src with
  | none => some ⟨Outcome.exited ERROR, t.2, none, [], none⟩
  | some f =>
    if f.st_size > UINT_MAX then some ⟨Outcome.exited ERROR, t.2, none, [], none⟩
    else
      let src_file_size := GET_LOWER_32BITS f.st_size
      let src_buffer_size := srcBufferSize src_file_size
      let dst_buffer_size := dstBufferSize env is_compress src_buffer_size
      match doProcessFileLoop env f src_buffer_size dst_buffer_size is_compress fuel fuel
          (doProcessFileInit env t.2 t.1 src_file_name dst_file_name src_file_size
            is_compress) with
      | none => none
      | some (true, st) => some (doProcessFileExit src_file_name g_keep st none)
      | some (false, st) =>
        let events := st.events ++ [Event.displayStats src_file_size st.dst_file_size]
        match displayStats st.time_list src_file_size st.dst_file_size is_compress with
        | none => some ⟨Outcome.aborted, st.sess, some st.dst_file, events, none⟩
        | some s =>
          some (doProcessFileExit src_file_name g_keep { st with events := events } (some s))

/-! ## Output names and paths

A C string is the list of its characters before the terminating NUL. -/

/-- The maximum pathname length: `out_name` and `path` are `char[MAX_PATH_LEN]`. -/
def MAX_PATH_LEN : Nat := 1024

/-- The suffix of compressed files. -/
def SUFFIX : List Char := ".gz".toList

/-- The length of `SUFFIX`. -/
def SFXLEN : Nat := 3

/-- The string that `snprintf(buf, size, fmt, ...)` leaves in `buf` when the formatted
text is `s`: at most `size - 1` characters of it. -/
def snprintf (size : Nat) (s : List Char) : List Char := s.take (size - 1)

/-- The function `hasSuffix(fname, is_compress)`. -/
def hasSuffix (fname : List Char) (is_compress : Bool) : Bool :=
  let len := fname.length
  if is_compress then
    if len < SFXLEN then false
    else decide (fname.drop (len - SFXLEN) = SUFFIX)
  else
    decide (len ≤ SFXLEN) || decide (fname.drop (len - SFXLEN) = SUFFIX)

/-- What a call of `makeOutName` leaves behind: its return value, the string in
`out_name` (`none` when `out_name` was not written), and the index `i` of the write
`out_name[i] = 0` when it is made. -/
structure OutName where
  ret : Int
  out_name : Option (List Char)
  terminator : Option Nat
deriving DecidableEq, Repr

/-- The function `makeOutName(in_name, out_name, is_compress)`. The index of the
terminator is the `size_t` value `strlen(in_name) - SFXLEN`; a write at an index of
`MAX_PATH_LEN` or more falls outside `out_name` and leaves its string as it is. -/
def makeOutName (in_name : List Char) (is_compress : Bool) : OutName :=
  if is_compress then
    if hasSuffix in_name is_compress then ⟨-1, none, none⟩
    else ⟨0, some (snprintf MAX_PATH_LEN (in_name ++ SUFFIX)), none⟩
  else
    if !hasSuffix in_name is_compress then ⟨-1, none, none⟩
    else
      let s := snprintf MAX_PATH_LEN in_name
      let i := (in_name.length + U64 - SFXLEN) % U64
      ⟨0, some (if i < MAX_PATH_LEN then s.take i else s), some i⟩

/-- The function `mkPath(path, dirpath, file)`: the string left in `path`, or `none`
when `assert(0)` is reached. -/
def mkPath (dirpath file : List Char) : Option (List Char) :=
  let len := dirpath.length
  if len < MAX_PATH_LEN ∧ file.length < MAX_PATH_LEN - len then
    some (snprintf MAX_PATH_LEN (dirpath ++ "/".toList ++ file))
  else none

/-! ## Scripted sessions

A session that answers the successive codec calls with the responses of a script,
whatever the request, with a clock that advances by one microsecond per reading. -/

/-- The state of a scripted session: the responses still to give, and the clock. -/
structure ScriptState where
  script : List CodecResp
  clock : Nat
deriving DecidableEq, Repr

/-- The next response of the script; `QZ_FAIL` once the script is used up. -/
def scriptCodec (s : ScriptState) : CodecResp × ScriptState :=
  match s.script with
  | [] => (⟨QZ_FAIL, 0, []⟩, s)
  | r :: rest => (r, { s with script := rest })

/-- The environment of a scripted session. -/
def scriptEnv (fseek : Nat → Int) : Env ScriptState where
  gettimeofday := fun s => (⟨0, s.clock⟩, { s with clock := s.clock + 1 })
  qzCompress := fun s _ _ _ => scriptCodec s
  qzDecompress := fun s _ _ _ => scriptCodec s
  qzMaxCompressedLength := fun n => n + 64
  fseek := fseek

/-! ## Vocabulary of the statements -/

/-- The codec call that the loop of `doProcessBuffer` makes from the state `st`. -/
def codecAt {σ : Type} (env : Env σ) (is_compress : Bool) (src_buffer : Nat → UInt8)
    (st : BufState σ) : CodecResp × σ :=
  if is_compress then
    env.qzCompress (env.gettimeofday st.sess).2 (fun i => src_buffer (st.src + i))
      st.src_len st.dst_len
  else
    env.qzDecompress (env.gettimeofday st.sess).2 (fun i => src_buffer (st.src + i))
      st.src_len st.dst_len

/-- A status that is neither `QZ_OK`, `QZ_BUF_ERROR` nor `QZ_DATA_ERROR`. -/
def fatalStatus (ret : Int) : Prop :=
  ret ≠ QZ_OK ∧ ret ≠ QZ_BUF_ERROR ∧ ret ≠ QZ_DATA_ERROR

instance fatalStatusDecidable (ret : Int) : Decidable (fatalStatus ret) := by
  unfold fatalStatus; infer_instance

/-- Every call of the codec, for a request of at least one byte, returns `QZ_OK` and
consumes at least one byte and at most the bytes it was given. -/
def wellBehaved {σ : Type} (env : Env σ) (is_compress : Bool) : Prop :=
  ∀ (s : σ) (src : Nat → UInt8) (n cap : Nat), 0 < n →
    ((if is_compress then env.qzCompress s src n cap else env.qzDecompress s src n cap).1.ret
        = QZ_OK) ∧
    1 ≤ (if is_compress then env.qzCompress s src n cap
          else env.qzDecompress s src n cap).1.src_len ∧
    (if is_compress then env.qzCompress s src n cap
      else env.qzDecompress s src n cap).1.src_len ≤ n

/-- The consumed counts that `doProcessBuffer` adds to `buf_processed`: those of the
calls that did not `break` out of the loop. -/
def consumedOf : List CodecCall → Nat
  | [] => 0
  | c :: l => (if fatalStatus c.resp.ret then 0 else c.resp.src_len) + consumedOf l

/-- The bytes that `doProcessBuffer` writes to the destination stream: those of the
calls that did not `break` out of the loop. -/
def writtenOf : List CodecCall → List UInt8
  | [] => []
  | c :: l => (if fatalStatus c.resp.ret then [] else c.resp.dst) ++ writtenOf l

/-- The totals that the calls of `doProcessBuffer` stored back in `bytes_read`, one
for each slice, in order. -/
def sliceTotals : List Event → List Nat
  | [] => []
  | Event.processBuffer _ _ n :: rest => n :: sliceTotals rest
  | _ :: rest => sliceTotals rest


/-- The events that the main loop of `doProcessFile` records. -/
def loopEvent : Event → Bool
  | Event.fread _ _ => true
  | Event.processBuffer _ _ _ => true
  | Event.fseek _ _ => true
  | _ => false

/-- A call of `doProcessBuffer` that returned a status other than `QZ_OK`,
`QZ_BUF_ERROR` and `QZ_DATA_ERROR`. -/
def fatalSlice : Event → Prop
  | Event.processBuffer _ ret _ => fatalStatus ret
  | _ => False

/-- The status of a call whose output `doProcessBuffer` writes: `QZ_OK`,
`QZ_BUF_ERROR` or `QZ_DATA_ERROR`. -/
def writtenStatus (ret : Int) : Bool :=
  decide (ret = QZ_OK ∨ ret = QZ_BUF_ERROR ∨ ret = QZ_DATA_ERROR)

/-- The state in which `doProcessBuffer` enters its loop. -/
def bufInit {σ : Type} (sess : σ) (src_len dst_len : Nat) (time_list : List RunTimeList_T)
    (dst_file : List UInt8) (dst_file_size : Nat) : BufState σ :=
  { sess := sess, ret := QZ_FAIL, buf_processed := 0, buf_remaining := src_len, src := 0,
    src_len := src_len, dst_len := dst_len, time_list := time_list, dst_file := dst_file,
    dst_file_size := dst_file_size, calls := [] }

/-- A codec call that was given `given` bytes and answered `resp` ends the loop of
`doProcessBuffer`: by `break`, by `QZ_DATA_ERROR` when decompressing, or because no byte
remains. -/
def endsLoop (is_compress : Bool) (given : Nat) (resp : CodecResp) : Prop :=
  fatalStatus resp.ret ∨ (is_compress = false ∧ resp.ret = QZ_DATA_ERROR) ∨
    (given + U32 - resp.src_len % U32) % U32 = 0

/-- Every call of the codec that does not end the loop consumes at least one byte and
at most the bytes it was given. -/
def progresses {σ : Type} (env : Env σ) (is_compress : Bool) : Prop :=
  ∀ (s : σ) (src : Nat → UInt8) (m cap : Nat),
    ¬ endsLoop is_compress m
      (if is_compress then env.qzCompress s src m cap else env.qzDecompress s src m cap).1 →
    1 ≤ (if is_compress then env.qzCompress s src m cap
          else env.qzDecompress s src m cap).1.src_len ∧
    (if is_compress then env.qzCompress s src m cap
      else env.qzDecompress s src m cap).1.src_len ≤ m

/-! ## Concrete inputs -/

/-- A source file of five bytes, all zero. -/
def file5 : SrcFile := ⟨5, fun _ => 0⟩

/-- A script: `QZ_BUF_ERROR` after three bytes. -/
def rs5 : List CodecResp := [⟨QZ_BUF_ERROR, 3, [1]⟩]

/-- A response: `QZ_OK` for two bytes. -/
def last5 : CodecResp := ⟨QZ_OK, 2, [2]⟩

/-- The state of `doProcessFile` when it enters its main loop on a file of five bytes
with a scripted session. -/
def fileState5 (script : List CodecResp) (is_compress : Bool) : FileState ScriptState :=
  doProcessFileInit (scriptEnv fun _ => 0) ⟨script, 1⟩ ⟨0, 0⟩ "a" "b" 5 is_compress

/-- The state of the loop of `doProcessBuffer` on entry, for a slice of five bytes and
a scripted session. -/
def bufState5 (script : List CodecResp) : BufState ScriptState :=
  { sess := ⟨script, 0⟩, ret := QZ_FAIL, buf_processed := 0, buf_remaining := 5, src := 0,
    src_len := 5, dst_len := 69, time_list := [], dst_file := [], dst_file_size := 0,
    calls := [] }

/-- A source file of 512 MiB + 8 bytes, all zero. -/
def bigFile : SrcFile := ⟨536870920, fun _ => 0⟩

/-- A session whose codec consumes the whole request in one call, produces one byte and
returns `QZ_OK`; its state is the clock. -/
def greedyEnv : Env Nat where
  gettimeofday := fun t => (⟨0, t⟩, t + 1)
  qzCompress := fun t _ n _ => (⟨QZ_OK, n, [0]⟩, t)
  qzDecompress := fun t _ n _ => (⟨QZ_OK, n, [0]⟩, t)
  qzMaxCompressedLength := fun n => n + 64
  fseek := fun _ => 0

/-- The ledger of two entries, one from 0 to 100 ms and one from 100 to 300 ms. -/
def ledger300 : List RunTimeList_T :=
  [⟨⟨0, 0⟩, ⟨0, 100000⟩⟩, ⟨⟨0, 100000⟩, ⟨0, 300000⟩⟩]

/-- A session whose codec answers every call with `QZ_DATA_ERROR` and a consumed count
of seven bytes. -/
def dataErrorEnv : Env Nat where
  gettimeofday := fun t => (⟨0, t⟩, t + 1)
  qzCompress := fun t _ _ _ => (⟨QZ_DATA_ERROR, 7, []⟩, t)
  qzDecompress := fun t _ _ _ => (⟨QZ_DATA_ERROR, 7, []⟩, t)
  qzMaxCompressedLength := fun n => n + 64
  fseek := fun _ => 0

/-- A session whose codec consumes one byte per call (none when none is given), produces
one byte and returns `QZ_OK`; its state is the clock. -/
def unitEnv : Env Nat where
  gettimeofday := fun t => (⟨0, t⟩, t + 1)
  qzCompress := fun t _ n _ => (⟨QZ_OK, min 1 n, [0]⟩, t)
  qzDecompress := fun t _ n _ => (⟨QZ_OK, min 1 n, [0]⟩, t)
  qzMaxCompressedLength := fun n => n + 64
  fseek := fun _ => 0

/-! ## A codec of whole frames

Each source byte `b` is compressed to one frame: the byte `b` followed by zero bytes, up
to the length `frameLen b`. Decompression gives back the byte of the frame at the start
of its input when the whole frame is there, and reports `QZ_DATA_ERROR` on a frame that
is cut short. -/

/-- The file that holds the bytes of a list. -/
def SrcFile.ofList (l : List UInt8) : SrcFile := ⟨l.length, fun i => l.getD i 0⟩

/-- The length of the frame of the byte `b`: 512 MiB for 1, 256 MiB for 2; the other
bytes have no frame. -/
def frameLen (b : UInt8) : Nat :=
  if b = 1 then 536870912 else if b = 2 then 268435456 else 0

/-- The frame of the byte `b`. -/
def frameEnc (b : UInt8) : List UInt8 := b :: List.replicate (frameLen b - 1) 0

/-- The bytes of the frames of a list of bytes, one after the other, by position. -/
def frameData : List UInt8 → Nat → UInt8
  | [], _ => 0
  | b :: bs, i =>
    if i = 0 then b else if i < frameLen b then 0 else frameData bs (i - frameLen b)

/-- The session of the codec of whole frames, over the encoding `enc` of one byte; its
state is the clock. -/
def frameCodec (enc : UInt8 → List UInt8) : Env Nat where
  gettimeofday := fun t => (⟨0, t⟩, t + 1)
  qzCompress := fun t src n cap =>
    if n = 0 then (⟨QZ_OK, 0, []⟩, t)
    else if frameLen (src 0) = 0 then (⟨QZ_FAIL, 0, []⟩, t)
    else if cap < frameLen (src 0) then (⟨QZ_BUF_ERROR, 0, []⟩, t)
    else (⟨QZ_OK, 1, enc (src 0)⟩, t)
  qzDecompress := fun t src n _ =>
    if frameLen (src 0) = 0 ∨ n < frameLen (src 0) then (⟨QZ_DATA_ERROR, 0, []⟩, t)
    else (⟨QZ_OK, frameLen (src 0), [src 0]⟩, t)
  qzMaxCompressedLength := fun n => n * 536870912
  fseek := fun _ => 0

/-- The session of the codec of whole frames. -/
def frameEnv : Env Nat := frameCodec frameEnc

end Qzip

/-! # Theorems -/

namespace Qzip

section Lemmas

variable {σ : Type} (env : Env σ) (is_compress : Bool) (src_buffer : Nat → UInt8) (v : Nat)

/-! ## The loop of `doProcessBuffer` -/

theorem body_fatal (st : BufState σ)
    (h : fatalStatus (codecAt env is_compress src_buffer st).1.ret) :
    doProcessBufferBody env is_compress src_buffer v st =
      (true,
        { st with
          sess := (codecAt env is_compress src_buffer st).2
          ret := (codecAt env is_compress src_buffer st).1.ret
          src_len := (codecAt env is_compress src_buffer st).1.src_len
          dst_len := (codecAt env is_compress src_buffer st).1.dst.length
          time_list := st.time_list ++ [⟨(env.gettimeofday st.sess).1, ⟨0, 0⟩⟩]
          calls := st.calls ++
            [⟨st.src, st.src_len, st.dst_len, (codecAt env is_compress src_buffer st).1⟩] }) := by
  unfold fatalStatus codecAt at h
  unfold doProcessBufferBody codecAt
  simp only []
  rw [if_pos h]

theorem body_nonfatal (st : BufState σ)
    (h : ¬ fatalStatus (codecAt env is_compress src_buffer st).1.ret) :
    doProcessBufferBody env is_compress src_buffer v st =
      ((!is_compress && decide ((codecAt env is_compress src_buffer st).1.ret = QZ_DATA_ERROR))
          || decide ((st.buf_remaining + U32 -
                (codecAt env is_compress src_buffer st).1.src_len % U32) % U32 = 0),
        { sess := (env.gettimeofday (codecAt env is_compress src_buffer st).2).2
          ret := (codecAt env is_compress src_buffer st).1.ret
          buf_processed :=
            (st.buf_processed + (codecAt env is_compress src_buffer st).1.src_len) % U32
          buf_remaining :=
            (st.buf_remaining + U32 -
              (codecAt env is_compress src_buffer st).1.src_len % U32) % U32
          src := st.src + (codecAt env is_compress src_buffer st).1.src_len
          src_len :=
            (st.buf_remaining + U32 -
              (codecAt env is_compress src_buffer st).1.src_len % U32) % U32
          dst_len := v
          time_list := st.time_list ++
            [⟨(env.gettimeofday st.sess).1,
              (env.gettimeofday (codecAt env is_compress src_buffer st).2).1⟩]
          dst_file := st.dst_file ++ (codecAt env is_compress src_buffer st).1.dst
          dst_file_size :=
            (st.dst_file_size + (codecAt env is_compress src_buffer st).1.dst.length) % U32
          calls := st.calls ++
            [⟨st.src, st.src_len, st.dst_len, (codecAt env is_compress src_buffer st).1⟩] }) := by
  unfold fatalStatus codecAt at h
  unfold doProcessBufferBody codecAt
  simp only []
  rw [if_neg h]

theorem body_calls (st : BufState σ) :
    (doProcessBufferBody env is_compress src_buffer v st).2.calls =
      st.calls ++
        [⟨st.src, st.src_len, st.dst_len, (codecAt env is_compress src_buffer st).1⟩] := by
  by_cases h : fatalStatus (codecAt env is_compress src_buffer st).1.ret
  · rw [body_fatal env is_compress src_buffer v st h]
  · rw [body_nonfatal env is_compress src_buffer v st h]

theorem loop_succ (fuel : Nat) (st : BufState σ) :
    doProcessBufferLoop env is_compress src_buffer v (fuel + 1) st =
      if (doProcessBufferBody env is_compress src_buffer v st).1 then
        some (doProcessBufferBody env is_compress src_buffer v st).2
      else
        doProcessBufferLoop env is_compress src_buffer v fuel
          (doProcessBufferBody env is_compress src_buffer v st).2 := rfl

theorem loop_calls_prefix : ∀ (fuel : Nat) (st r : BufState σ),
    doProcessBufferLoop env is_compress src_buffer v fuel st = some r →
    ∃ l, r.calls = st.calls ++
      ⟨st.src, st.src_len, st.dst_len, (codecAt env is_compress src_buffer st).1⟩ :: l := by
  intro fuel
  induction fuel with
  | zero => intro st r h; simp [doProcessBufferLoop] at h
  | succ k ih =>
    intro st r h
    rw [loop_succ] at h
    split at h
    · injection h with h
      refine ⟨[], ?_⟩
      rw [← h, body_calls]
    · obtain ⟨l, hl⟩ := ih _ _ h
      rw [body_calls] at hl
      exact ⟨_ :: l, by rw [hl, List.append_assoc]; rfl⟩


theorem loop_wellBehaved (hw : wellBehaved env is_compress) : ∀ (fuel : Nat) (st : BufState σ),
    st.src_len = st.buf_remaining → 0 < st.buf_remaining → st.buf_remaining ≤ fuel →
    st.buf_processed + st.buf_remaining < U32 →
    ∃ r, doProcessBufferLoop env is_compress src_buffer v fuel st = some r ∧
      r.ret = QZ_OK ∧ r.buf_processed = st.buf_processed + st.buf_remaining := by
  intro fuel
  induction fuel with
  | zero => intro st _ h0 h1; omega
  | succ k ih =>
    intro st hlen hpos hfuel hlt
    have hU : U32 = 4294967296 := rfl
    obtain ⟨h1, h2, h3⟩ := hw (env.gettimeofday st.sess).2 (fun i => src_buffer (st.src + i))
      st.src_len st.dst_len (by omega)
    have hc1 : (codecAt env is_compress src_buffer st).1.ret = QZ_OK := h1
    have hc2 : 1 ≤ (codecAt env is_compress src_buffer st).1.src_len := h2
    have hc3 : (codecAt env is_compress src_buffer st).1.src_len ≤ st.buf_remaining := by
      rw [← hlen]; exact h3
    have hf : ¬ fatalStatus (codecAt env is_compress src_buffer st).1.ret := by
      intro hf; exact hf.1 hc1
    have hB := body_nonfatal env is_compress src_buffer v st hf
    have hrem : (st.buf_remaining + U32 -
        (codecAt env is_compress src_buffer st).1.src_len % U32) % U32 =
        st.buf_remaining - (codecAt env is_compress src_buffer st).1.src_len := by
      rw [hU] at hlt ⊢; omega
    have hproc : (st.buf_processed + (codecAt env is_compress src_buffer st).1.src_len) % U32 =
        st.buf_processed + (codecAt env is_compress src_buffer st).1.src_len := by
      rw [hU] at hlt ⊢; omega
    have hne : ¬ ((codecAt env is_compress src_buffer st).1.ret = QZ_DATA_ERROR) := by
      rw [hc1]; decide
    rw [hrem, hproc] at hB
    simp only [hne, decide_False, Bool.and_false, Bool.false_or] at hB
    rw [loop_succ]
    by_cases hz : st.buf_remaining - (codecAt env is_compress src_buffer st).1.src_len = 0
    · rw [hB]
      simp only [hz, decide_True, if_true]
      refine ⟨_, rfl, hc1, ?_⟩
      simp only
      omega
    · obtain ⟨r, hr, hr1, hr2⟩ := ih (doProcessBufferBody env is_compress src_buffer v st).2
        (by rw [hB]) (by rw [hB]; simp only; omega) (by rw [hB]; simp only; omega)
        (by rw [hB]; simp only; omega)
      have h1 : (doProcessBufferBody env is_compress src_buffer v st).1 = false := by
        rw [hB]; simp only [hz, decide_False]
      rw [h1]
      refine ⟨r, hr, hr1, ?_⟩
      rw [hr2, hB]
      simp only
      omega

theorem consumedOf_append (l₁ l₂ : List CodecCall) :
    consumedOf (l₁ ++ l₂) = consumedOf l₁ + consumedOf l₂ := by
  induction l₁ with
  | nil => simp [consumedOf]
  | cons c l ih => simp [consumedOf, ih, Nat.add_assoc]

theorem writtenOf_append (l₁ l₂ : List CodecCall) :
    writtenOf (l₁ ++ l₂) = writtenOf l₁ ++ writtenOf l₂ := by
  induction l₁ with
  | nil => simp [writtenOf]
  | cons c l ih => simp [writtenOf, ih]

theorem consumedOf_nonfatal (l : List CodecCall) (h : ∀ c ∈ l, ¬ fatalStatus c.resp.ret) :
    consumedOf l = (l.map (·.resp.src_len)).sum := by
  induction l with
  | nil => rfl
  | cons c l ih =>
    have h1 := h c (List.mem_cons_self _ _)
    simp [consumedOf, h1, ih (fun x hx => h x (List.mem_cons_of_mem _ hx))]

theorem writtenOf_nonfatal (l : List CodecCall) (h : ∀ c ∈ l, ¬ fatalStatus c.resp.ret) :
    writtenOf l = l.flatMap (·.resp.dst) := by
  induction l with
  | nil => rfl
  | cons c l ih =>
    have h1 := h c (List.mem_cons_self _ _)
    simp [writtenOf, h1, ih (fun x hx => h x (List.mem_cons_of_mem _ hx))]

/-- When no call reports more consumed bytes than it was given, the counters of
`doProcessBuffer` do not wrap. -/
theorem loop_exact (n : Nat) (hn : n < U32) : ∀ (fuel : Nat) (st r : BufState σ),
    doProcessBufferLoop env is_compress src_buffer v fuel st = some r →
    st.src_len = st.buf_remaining →
    st.buf_processed + st.buf_remaining = n →
    (∀ c ∈ r.calls, c.resp.src_len ≤ c.src_len) →
    ∃ l, r.calls = st.calls ++ l ∧ r.buf_processed = st.buf_processed + consumedOf l ∧
      r.buf_processed ≤ n ∧ (r.ret = QZ_OK → r.buf_processed = n) := by
  intro fuel
  induction fuel with
  | zero => intro st r h; simp [doProcessBufferLoop] at h
  | succ k ih =>
    intro st r h hlen hinv hcalls
    have hc : (codecAt env is_compress src_buffer st).1.src_len ≤ st.buf_remaining := by
      obtain ⟨l, hl⟩ := loop_calls_prefix env is_compress src_buffer v _ _ _ h
      have := hcalls ⟨st.src, st.src_len, st.dst_len, (codecAt env is_compress src_buffer st).1⟩
        (by rw [hl]; simp)
      simpa [hlen] using this
    rw [loop_succ] at h
    by_cases hf : fatalStatus (codecAt env is_compress src_buffer st).1.ret
    · rw [body_fatal env is_compress src_buffer v st hf] at h
      simp only [if_true] at h
      injection h with h
      subst h
      refine ⟨[⟨st.src, st.src_len, st.dst_len, (codecAt env is_compress src_buffer st).1⟩],
        rfl, ?_, ?_, ?_⟩
      · simp [consumedOf, hf]
      · simp only; omega
      · intro hret; exact absurd hret hf.1
    · have hB := body_nonfatal env is_compress src_buffer v st hf
      have hU : U32 = 4294967296 := rfl
      have hrem : (st.buf_remaining + U32 -
          (codecAt env is_compress src_buffer st).1.src_len % U32) % U32 =
          st.buf_remaining - (codecAt env is_compress src_buffer st).1.src_len := by
        rw [hU] at hn ⊢; omega
      have hproc : (st.buf_processed + (codecAt env is_compress src_buffer st).1.src_len) % U32 =
          st.buf_processed + (codecAt env is_compress src_buffer st).1.src_len := by
        rw [hU] at hn ⊢; omega
      rw [hrem, hproc] at hB
      split at h
      · rename_i hdone
        injection h with h
        subst h
        rw [hB] at hdone ⊢
        refine ⟨[⟨st.src, st.src_len, st.dst_len, (codecAt env is_compress src_buffer st).1⟩],
          rfl, ?_, ?_, ?_⟩
        · simp [consumedOf, hf]
        · simp only; omega
        · intro hret
          simp only at hret ⊢
          have hne : ¬ ((codecAt env is_compress src_buffer st).1.ret = QZ_DATA_ERROR) := by
            rw [hret]; decide
          simp [hne] at hdone
          omega
      · obtain ⟨l, h1, h2, h3, h4⟩ := ih _ _ h (by rw [hB]) (by rw [hB]; simp only; omega) hcalls
        rw [hB] at h1 h2
        simp only at h1 h2
        refine ⟨⟨st.src, st.src_len, st.dst_len, (codecAt env is_compress src_buffer st).1⟩ :: l,
          ?_, ?_, h3, h4⟩
        · rw [h1]; simp
        · rw [h2, consumedOf, if_neg hf, Nat.add_assoc]

/-- The shape of every run of the loop of `doProcessBuffer`: the calls made are a
sequence of calls that let the loop go on, followed by one last call; the totals are
those of the calls that did not `break` out of the loop. -/
theorem loop_trace : ∀ (fuel : Nat) (st r : BufState σ),
    doProcessBufferLoop env is_compress src_buffer v fuel st = some r →
    ∃ l c, r.calls = st.calls ++ (l ++ [c]) ∧
      (∀ x ∈ l, ¬ fatalStatus x.resp.ret ∧ (is_compress = false → x.resp.ret ≠ QZ_DATA_ERROR)) ∧
      r.ret = c.resp.ret ∧
      r.dst_file = st.dst_file ++ writtenOf (l ++ [c]) ∧
      (st.buf_processed < U32 →
        r.buf_processed = (st.buf_processed + consumedOf (l ++ [c])) % U32) ∧
      (st.dst_file_size < U32 →
        r.dst_file_size = (st.dst_file_size + (writtenOf (l ++ [c])).length) % U32) := by
  intro fuel
  induction fuel with
  | zero => intro st r h; simp [doProcessBufferLoop] at h
  | succ k ih =>
    intro st r h
    rw [loop_succ] at h
    by_cases hf : fatalStatus (codecAt env is_compress src_buffer st).1.ret
    · rw [body_fatal env is_compress src_buffer v st hf] at h
      simp only [if_true] at h
      injection h with h
      subst h
      refine ⟨[], ⟨st.src, st.src_len, st.dst_len, (codecAt env is_compress src_buffer st).1⟩,
        rfl, by simp, rfl, ?_, ?_, ?_⟩
      · simp [writtenOf, hf]
      · intro hbp; simp [consumedOf, hf, Nat.mod_eq_of_lt hbp]
      · intro hfs; simp [writtenOf, hf, Nat.mod_eq_of_lt hfs]
    · have hB := body_nonfatal env is_compress src_buffer v st hf
      split at h
      · injection h with h
        subst h
        rw [hB]
        refine ⟨[], ⟨st.src, st.src_len, st.dst_len, (codecAt env is_compress src_buffer st).1⟩,
          rfl, by simp, rfl, ?_, ?_, ?_⟩
        · simp [writtenOf, hf]
        · intro _; simp [consumedOf, hf]
        · intro _; simp [writtenOf, hf]
      · rename_i hd
        obtain ⟨l, c, h1, h2, h3, h5, h4, h6⟩ := ih _ _ h
        have h4 := h4 (by rw [hB]; exact Nat.mod_lt _ (by decide))
        have h6 := h6 (by rw [hB]; exact Nat.mod_lt _ (by decide))
        rw [hB] at h1 h4 h5 h6 hd
        simp only at h1 h4 h5 h6 hd
        refine ⟨⟨st.src, st.src_len, st.dst_len, (codecAt env is_compress src_buffer st).1⟩ :: l,
          c, ?_, ?_, h3, ?_, ?_, ?_⟩
        · rw [h1]; simp
        · intro x hx
          rcases List.mem_cons.1 hx with hx | hx
          · subst hx
            refine ⟨hf, ?_⟩
            intro hc hde
            rw [hc] at hd hde
            simp only [Bool.not_false, Bool.true_and, Bool.or_eq_true, decide_eq_true_eq,
              not_or] at hd
            exact hd.1 hde
          · exact h2 x hx
        · rw [h5, List.cons_append, writtenOf, if_neg hf, List.append_assoc]
        · intro _
          rw [h4, List.cons_append, consumedOf, if_neg hf, Nat.add_mod, Nat.mod_mod,
            ← Nat.add_mod, Nat.add_assoc]
        · intro _
          rw [h6, List.cons_append, writtenOf, if_neg hf, List.length_append, Nat.add_mod,
            Nat.mod_mod, ← Nat.add_mod, Nat.add_assoc]

/-! ## The main loop of `doProcessFile` -/

theorem doProcessBuffer_wellBehaved (hw : wellBehaved env is_compress) (fuel : Nat) (sess : σ)
    (n dst_len : Nat) (time_list : List RunTimeList_T) (dst_file : List UInt8)
    (dst_file_size : Nat) (hpos : 0 < n) (hfuel : n ≤ fuel) (hn : n < U32) :
    ∃ r, doProcessBuffer env fuel sess src_buffer n dst_len time_list dst_file dst_file_size
        is_compress = some r ∧ r.ret = QZ_OK ∧ r.src_len = n := by
  obtain ⟨r, hr, hr1, hr2⟩ := loop_wellBehaved env is_compress src_buffer dst_len hw fuel
    { sess := sess, ret := QZ_FAIL, buf_processed := 0, buf_remaining := n, src := 0,
      src_len := n, dst_len := dst_len, time_list := time_list, dst_file := dst_file,
      dst_file_size := dst_file_size, calls := [] } rfl hpos hfuel (by simpa using hn)
  refine ⟨_, by unfold doProcessBuffer; simp only [hr]; rfl, hr1, ?_⟩
  simp only [hr2]
  omega

theorem sliceTotals_append (l₁ l₂ : List Event) :
    sliceTotals (l₁ ++ l₂) = sliceTotals l₁ ++ sliceTotals l₂ := by
  induction l₁ with
  | nil => rfl
  | cons e l ih => cases e <;> simp [sliceTotals, ih]

theorem fileStep_wellBehaved (hw : wellBehaved env is_compress) (f : SrcFile)
    (B D bfuel : Nat) (st : FileState σ)
    (hpos : 0 < min B (f.st_size - st.src_pos)) (hfuel : min B (f.st_size - st.src_pos) ≤ bfuel)
    (hn : min B (f.st_size - st.src_pos) < U32)
    (hrem : min B (f.st_size - st.src_pos) ≤ st.file_remaining) (hlt : st.file_remaining < U32) :
    ∃ st1, doProcessFileStep env f B D is_compress bfuel st = some (false, st1) ∧
      st1.src_pos = st.src_pos + min B (f.st_size - st.src_pos) ∧
      st1.file_remaining = st.file_remaining - min B (f.st_size - st.src_pos) ∧
      sliceTotals st1.events = sliceTotals st.events ++ [min B (f.st_size - st.src_pos)] := by
  obtain ⟨r, hr, hr1, hr2⟩ := doProcessBuffer_wellBehaved env is_compress
    (fread f st.src_pos st.src_buffer B).2 hw bfuel st.sess (min B (f.st_size - st.src_pos)) D
    st.time_list st.dst_file st.dst_file_size hpos hfuel hn
  have hU : U32 = 4294967296 := rfl
  have hne : ¬ (r.ret = QZ_DATA_ERROR) := by rw [hr1]; decide
  unfold doProcessFileStep
  simp only [fread] at hr ⊢
  rw [hr]
  simp only [hne, if_false, hr1, ne_eq, not_true_eq_false]
  refine ⟨_, rfl, rfl, ?_, ?_⟩
  · simp only [hr2]
    rw [hU] at hn hlt ⊢; omega
  · simp only [sliceTotals_append, sliceTotals, hr2]

theorem fileLoop_wellBehaved (hw : wellBehaved env is_compress) (f : SrcFile)
    (B D bfuel : Nat) (hB : 0 < B) (hBf : B ≤ bfuel) (hBU : B < U32)
    (hsz : f.st_size < U32) :
    ∀ (fuel : Nat) (st : FileState σ),
      st.src_pos + st.file_remaining = f.st_size → st.file_remaining ≤ fuel →
      ∃ st1, doProcessFileLoop env f B D is_compress bfuel fuel st = some (false, st1) ∧
        st1.file_remaining = 0 ∧
        (∃ l, sliceTotals st1.events = sliceTotals st.events ++ l ∧
          l.sum = st.file_remaining ∧ ∀ n ∈ l, n ≤ B) := by
  intro fuel
  induction fuel with
  | zero =>
    intro st _ h0
    have : st.file_remaining = 0 := by omega
    exact ⟨st, by simp [doProcessFileLoop, this], this, [], by simp, by simp [this], by simp⟩
  | succ k ih =>
    intro st hinv hfuel
    by_cases h0 : st.file_remaining = 0
    · exact ⟨st, by simp [doProcessFileLoop, h0], h0, [], by simp, by simp [h0], by simp⟩
    · have hU : U32 = 4294967296 := rfl
      obtain ⟨st1, hs, hs1, hs2, hs3⟩ := fileStep_wellBehaved env is_compress hw f B D bfuel st
        (by omega) (by omega) (by omega) (by omega) (by omega)
      obtain ⟨st2, ht, ht1, l, hl1, hl2, hl3⟩ := ih st1 (by omega) (by omega)
      refine ⟨st2, ?_, ht1, min B (f.st_size - st.src_pos) :: l, ?_, ?_, ?_⟩
      · simp only [doProcessFileLoop, h0, if_false, hs]
        exact ht
      · rw [hl1, hs3]; simp
      · simp only [List.sum_cons, hl2, hs2]; omega
      · intro n hn
        rcases List.mem_cons.1 hn with h | h
        · rw [h]; omega
        · exact hl3 n h

/-- The five ways through the body of the main loop of `doProcessFile`. -/
theorem fileStep_spec (f : SrcFile) (B D bfuel : Nat) (st : FileState σ) (r : BufResult σ)
    (hr : doProcessBuffer env bfuel st.sess (fread f st.src_pos st.src_buffer B).2
      (fread f st.src_pos st.src_buffer B).1 D st.time_list st.dst_file st.dst_file_size
      is_compress = some r) :
    ∃ flag st1, doProcessFileStep env f B D is_compress bfuel st = some (flag, st1) ∧
      st1.sess = r.sess ∧ st1.time_list = r.time_list ∧ st1.dst_file = r.dst_file ∧
      st1.dst_file_size = r.dst_file_size ∧ st1.bytes_read = r.src_len ∧
      (st1.ret = ERROR ∨ st1.ret = r.ret) ∧
      ((r.ret = QZ_DATA_ERROR ∧ r.src_len = 0 ∧ flag = true ∧ st1.ret = ERROR ∧
          st1.events = st.events ++ [Event.fread st.src_pos (fread f st.src_pos st.src_buffer B).1,
            Event.processBuffer r.calls r.ret r.src_len]) ∨
        (r.ret = QZ_DATA_ERROR ∧ r.src_len ≠ 0 ∧
          env.fseek ((st.bytes_processed + r.src_len) % U32) = -1 ∧ flag = true ∧
          st1.ret = ERROR ∧
          st1.events = st.events ++ [Event.fread st.src_pos (fread f st.src_pos st.src_buffer B).1,
            Event.processBuffer r.calls r.ret r.src_len,
            Event.fseek ((st.bytes_processed + r.src_len) % U32) (-1)]) ∨
        (r.ret = QZ_DATA_ERROR ∧ r.src_len ≠ 0 ∧
          env.fseek ((st.bytes_processed + r.src_len) % U32) ≠ -1 ∧ flag = false ∧
          st1.ret = r.ret ∧
          st1.src_pos = (st.bytes_processed + r.src_len) % U32 ∧
          st1.bytes_processed = (st.bytes_processed + r.src_len) % U32 ∧
          st1.file_remaining = (st.file_remaining + U32 - r.src_len % U32) % U32 ∧
          st1.events = st.events ++ [Event.fread st.src_pos (fread f st.src_pos st.src_buffer B).1,
            Event.processBuffer r.calls r.ret r.src_len,
            Event.fseek ((st.bytes_processed + r.src_len) % U32)
              (env.fseek ((st.bytes_processed + r.src_len) % U32))]) ∨
        (r.ret ≠ QZ_DATA_ERROR ∧ r.ret ≠ QZ_OK ∧ flag = true ∧ st1.ret = ERROR ∧
          st1.events = st.events ++ [Event.fread st.src_pos (fread f st.src_pos st.src_buffer B).1,
            Event.processBuffer r.calls r.ret r.src_len]) ∨
        (r.ret = QZ_OK ∧ flag = false ∧ st1.ret = r.ret ∧
          st1.src_pos = st.src_pos + (fread f st.src_pos st.src_buffer B).1 ∧
          st1.bytes_processed = st.bytes_processed ∧
          st1.file_remaining = (st.file_remaining + U32 - r.src_len % U32) % U32 ∧
          st1.events = st.events ++ [Event.fread st.src_pos (fread f st.src_pos st.src_buffer B).1,
            Event.processBuffer r.calls r.ret r.src_len])) := by
  unfold doProcessFileStep
  simp only [hr]
  by_cases h1 : r.ret = QZ_DATA_ERROR
  · rw [if_pos h1]
    by_cases h2 : r.src_len = 0
    · rw [if_pos h2]
      exact ⟨_, _, rfl, rfl, rfl, rfl, rfl, rfl, Or.inl rfl, Or.inl ⟨h1, h2, rfl, rfl, rfl⟩⟩
    · rw [if_neg h2]
      by_cases h3 : env.fseek ((st.bytes_processed + r.src_len) % U32) = -1
      · rw [if_pos h3]
        exact ⟨_, _, rfl, rfl, rfl, rfl, rfl, rfl, Or.inl rfl,
          Or.inr (Or.inl ⟨h1, h2, h3, rfl, rfl, by simp⟩)⟩
      · rw [if_neg h3]
        exact ⟨_, _, rfl, rfl, rfl, rfl, rfl, rfl, Or.inr rfl,
          Or.inr (Or.inr (Or.inl ⟨h1, h2, h3, rfl, rfl, rfl, rfl, rfl, by simp⟩))⟩
  · rw [if_neg h1]
    by_cases h2 : r.ret = QZ_OK
    · rw [if_neg (not_not.2 h2)]
      exact ⟨_, _, rfl, rfl, rfl, rfl, rfl, rfl, Or.inr rfl,
        Or.inr (Or.inr (Or.inr (Or.inr ⟨h2, rfl, rfl, rfl, rfl, rfl, rfl⟩)))⟩
    · rw [if_pos h2]
      exact ⟨_, _, rfl, rfl, rfl, rfl, rfl, rfl, Or.inl rfl,
        Or.inr (Or.inr (Or.inr (Or.inl ⟨h1, h2, rfl, rfl, rfl⟩)))⟩

theorem fileStep_some_inv (f : SrcFile) (B D bfuel : Nat) (st : FileState σ)
    (p : Bool × FileState σ)
    (h : doProcessFileStep env f B D is_compress bfuel st = some p) :
    ∃ r, doProcessBuffer env bfuel st.sess (fread f st.src_pos st.src_buffer B).2
      (fread f st.src_pos st.src_buffer B).1 D st.time_list st.dst_file st.dst_file_size
      is_compress = some r := by
  unfold doProcessFileStep at h
  simp only [] at h
  split at h
  · exact absurd h (by simp)
  · rename_i r hr
    exact ⟨r, hr⟩

/-- What one pass through the body of the main loop adds to the events. -/
theorem fileStep_events (f : SrcFile) (B D bfuel : Nat) (st st1 : FileState σ) (flag : Bool)
    (h : doProcessFileStep env f B D is_compress bfuel st = some (flag, st1)) :
    ∃ new, st1.events = st.events ++ new ∧ (∀ e ∈ new, loopEvent e = true) ∧
      (flag = true → st1.ret = ERROR) ∧
      ((∀ e ∈ new, ¬ fatalSlice e) ∨
        (flag = true ∧ ∃ evs e, new = evs ++ [e] ∧ fatalSlice e ∧ ∀ x ∈ evs, ¬ fatalSlice x)) := by
  obtain ⟨r, hr⟩ := fileStep_some_inv env is_compress f B D bfuel st _ h
  obtain ⟨flag', st', h', -, -, -, -, -, -, hc⟩ := fileStep_spec env is_compress f B D bfuel st r hr
  rw [h] at h'
  injection h' with h'
  injection h' with hf hs
  subst hf hs
  have hD : ¬ fatalStatus QZ_DATA_ERROR := by intro h; exact h.2.2 rfl
  have hO : ¬ fatalStatus QZ_OK := by intro h; exact h.1 rfl
  rcases hc with g | g | g | g | g
  · obtain ⟨g1, -, g3, g4, g5⟩ := g
    refine ⟨_, g5, ?_, fun _ => g4, Or.inl ?_⟩
    · intro e he; simp at he; rcases he with he | he <;> rw [he] <;> rfl
    · intro e he; simp at he
      rcases he with he | he <;> rw [he] <;> simp [fatalSlice, g1, hD]
  · obtain ⟨g1, -, -, g3, g4, g5⟩ := g
    refine ⟨_, g5, ?_, fun _ => g4, Or.inl ?_⟩
    · intro e he; simp at he; rcases he with he | he | he <;> rw [he] <;> rfl
    · intro e he; simp at he
      rcases he with he | he | he <;> rw [he] <;> simp [fatalSlice, g1, hD]
  · obtain ⟨g1, -, -, g3, -, -, -, -, g5⟩ := g
    refine ⟨_, g5, ?_, fun h => by rw [g3] at h; exact absurd h (by decide), Or.inl ?_⟩
    · intro e he; simp at he; rcases he with he | he | he <;> rw [he] <;> rfl
    · intro e he; simp at he
      rcases he with he | he | he <;> rw [he] <;> simp [fatalSlice, g1, hD]
  · obtain ⟨g1, g2, g3, g4, g5⟩ := g
    refine ⟨_, g5, ?_, fun _ => g4, ?_⟩
    · intro e he; simp at he; rcases he with he | he <;> rw [he] <;> rfl
    · by_cases hb : r.ret = QZ_BUF_ERROR
      · left
        intro e he; simp at he
        rcases he with he | he <;> rw [he] <;> simp [fatalSlice, fatalStatus, hb]
      · right
        refine ⟨g3, [Event.fread st.src_pos (fread f st.src_pos st.src_buffer B).1],
          Event.processBuffer r.calls r.ret r.src_len, rfl, ⟨g2, hb, g1⟩, ?_⟩
        intro x hx; simp at hx; rw [hx]; simp [fatalSlice]
  · obtain ⟨g1, g3, -, -, -, -, g5⟩ := g
    refine ⟨_, g5, ?_, fun h => by rw [g3] at h; exact absurd h (by decide), Or.inl ?_⟩
    · intro e he; simp at he; rcases he with he | he <;> rw [he] <;> rfl
    · intro e he; simp at he
      rcases he with he | he <;> rw [he] <;> simp [fatalSlice, g1, hO]

/-- What the main loop adds to the events. -/
theorem fileLoop_events (f : SrcFile) (B D bfuel : Nat) :
    ∀ (fuel : Nat) (st st1 : FileState σ) (flag : Bool),
      doProcessFileLoop env f B D is_compress bfuel fuel st = some (flag, st1) →
      ∃ new, st1.events = st.events ++ new ∧ (∀ e ∈ new, loopEvent e = true) ∧
        (flag = true → st1.ret = ERROR) ∧
        ((∀ e ∈ new, ¬ fatalSlice e) ∨
          (flag = true ∧
            ∃ evs e, new = evs ++ [e] ∧ fatalSlice e ∧ ∀ x ∈ evs, ¬ fatalSlice x)) := by
  intro fuel
  induction fuel with
  | zero =>
    intro st st1 flag h
    simp only [doProcessFileLoop] at h
    split at h
    · injection h with h; injection h with h1 h2; subst h1 h2
      exact ⟨[], by simp, by simp, by simp, Or.inl (by simp)⟩
    · exact absurd h (by simp)
  | succ k ih =>
    intro st st1 flag h
    simp only [doProcessFileLoop] at h
    split at h
    · injection h with h; injection h with h1 h2; subst h1 h2
      exact ⟨[], by simp, by simp, by simp, Or.inl (by simp)⟩
    · split at h
      · exact absurd h (by simp)
      · rename_i st2 hs
        injection h with h; injection h with h1 h2; subst h1 h2
        exact fileStep_events env is_compress f B D bfuel st _ _ hs
      · rename_i st2 hs
        obtain ⟨n1, a1, a2, -, a4⟩ := fileStep_events env is_compress f B D bfuel st _ _ hs
        obtain ⟨n2, b1, b2, b3, b4⟩ := ih _ _ _ h
        have a4 : ∀ e ∈ n1, ¬ fatalSlice e := by
          rcases a4 with a | a
          · exact a
          · exact absurd a.1 (by simp)
        refine ⟨n1 ++ n2, by rw [b1, a1, List.append_assoc], ?_, b3, ?_⟩
        · intro e he
          rcases List.mem_append.1 he with he | he
          · exact a2 e he
          · exact b2 e he
        · rcases b4 with b | ⟨b5, evs, e, b6, b7, b8⟩
          · left
            intro e he
            rcases List.mem_append.1 he with he | he
            · exact a4 e he
            · exact b e he
          · right
            refine ⟨b5, n1 ++ evs, e, by rw [b6, List.append_assoc], b7, ?_⟩
            intro x hx
            rcases List.mem_append.1 hx with hx | hx
            · exact a4 x hx
            · exact b8 x hx

end Lemmas

/-! ## Scripted sessions -/

theorem body_script_cons (fk : Nat → Int) (is_compress : Bool) (src_buffer : Nat → UInt8)
    (v : Nat) (st : BufState ScriptState) (r : CodecResp) (rest : List CodecResp)
    (hs : st.sess.script = r :: rest) (hr : r.ret = QZ_OK ∨ r.ret = QZ_BUF_ERROR) :
    doProcessBufferBody (scriptEnv fk) is_compress src_buffer v st =
      (decide ((st.buf_remaining + U32 - r.src_len % U32) % U32 = 0),
        { sess := ⟨rest, st.sess.clock + 2⟩
          ret := r.ret
          buf_processed := (st.buf_processed + r.src_len) % U32
          buf_remaining := (st.buf_remaining + U32 - r.src_len % U32) % U32
          src := st.src + r.src_len
          src_len := (st.buf_remaining + U32 - r.src_len % U32) % U32
          dst_len := v
          time_list := st.time_list ++ [⟨⟨0, st.sess.clock⟩, ⟨0, st.sess.clock + 1⟩⟩]
          dst_file := st.dst_file ++ r.dst
          dst_file_size := (st.dst_file_size + r.dst.length) % U32
          calls := st.calls ++ [⟨st.src, st.src_len, st.dst_len, r⟩] }) := by
  have hne : ¬ (r.ret ≠ QZ_OK ∧ r.ret ≠ QZ_BUF_ERROR ∧ r.ret ≠ QZ_DATA_ERROR) := by
    rcases hr with h | h <;> simp [h]
  have hd : ¬ (r.ret = QZ_DATA_ERROR) := by
    rcases hr with h | h <;> rw [h] <;> decide
  unfold doProcessBufferBody
  simp only [scriptEnv, scriptCodec, hs, ite_self, hne, if_false, hd, decide_False,
    Bool.and_false, Bool.false_or]

theorem loop_script (fk : Nat → Int) (is_compress : Bool) (src_buffer : Nat → UInt8) (v : Nat)
    (last : CodecResp) (extra : List CodecResp)
    (hlast : last.ret = QZ_OK ∨ last.ret = QZ_BUF_ERROR) :
    ∀ (rs : List CodecResp) (fuel : Nat) (st : BufState ScriptState),
      st.sess.script = rs ++ last :: extra →
      (∀ r ∈ rs, r.ret = QZ_OK ∨ r.ret = QZ_BUF_ERROR) →
      (rs.map (·.src_len)).sum + last.src_len = st.buf_remaining →
      (rs ≠ [] → 0 < last.src_len) →
      st.buf_processed + st.buf_remaining < U32 →
      rs.length < fuel →
      ∃ r, doProcessBufferLoop (scriptEnv fk) is_compress src_buffer v fuel st = some r ∧
        r.ret = last.ret ∧
        r.buf_processed = st.buf_processed + st.buf_remaining ∧
        r.dst_file = st.dst_file ++ (rs ++ [last]).flatMap (·.dst) ∧
        r.dst_file_size =
          (st.dst_file_size + (((rs ++ [last]).map (·.dst.length)).sum)) % U32 ∧
        r.calls.map (·.resp) = st.calls.map (·.resp) ++ (rs ++ [last]) ∧
        r.sess.script = extra := by
  have hU : U32 = 4294967296 := rfl
  intro rs
  induction rs with
  | nil =>
    intro fuel st hs _ hsum _ hlt hfuel
    obtain ⟨k, rfl⟩ : ∃ k, fuel = k + 1 := ⟨fuel - 1, by simp at hfuel; omega⟩
    simp only [List.map_nil, List.sum_nil, Nat.zero_add, List.nil_append] at hsum hs
    have hB := body_script_cons fk is_compress src_buffer v st last extra hs hlast
    have h0 : (st.buf_remaining + U32 - last.src_len % U32) % U32 = 0 := by
      rw [hU] at hlt ⊢; omega
    have hp : (st.buf_processed + last.src_len) % U32 = st.buf_processed + st.buf_remaining := by
      rw [hU] at hlt ⊢; omega
    rw [h0, hp] at hB
    simp only [doProcessBufferLoop, hB, decide_True, if_true]
    refine ⟨_, rfl, rfl, rfl, ?_, ?_, ?_, rfl⟩
    · simp
    · simp
    · simp
  | cons r rs ih =>
    intro fuel st hs hall hsum hpre hlt hfuel
    obtain ⟨k, rfl⟩ : ∃ k, fuel = k + 1 := ⟨fuel - 1, by simp at hfuel; omega⟩
    have hr := hall r (List.mem_cons_self _ _)
    have hl := hpre (List.cons_ne_nil _ _)
    simp only [List.map_cons, List.sum_cons] at hsum
    have hB := body_script_cons fk is_compress src_buffer v st r (rs ++ last :: extra)
      (by simpa using hs) hr
    have h0 : (st.buf_remaining + U32 - r.src_len % U32) % U32 = st.buf_remaining - r.src_len := by
      rw [hU] at hlt ⊢; omega
    have hp : (st.buf_processed + r.src_len) % U32 = st.buf_processed + r.src_len := by
      rw [hU] at hlt ⊢; omega
    have hnz : ¬ (st.buf_remaining - r.src_len = 0) := by omega
    rw [h0, hp] at hB
    obtain ⟨res, h1, h2, h3, h4, h5, h6, h7⟩ :=
      ih k (doProcessBufferBody (scriptEnv fk) is_compress src_buffer v st).2
        (by rw [hB]) (fun x hx => hall x (List.mem_cons_of_mem _ hx))
        (by rw [hB]; simp only; omega) (fun _ => hl) (by rw [hB]; simp only; omega)
        (by simp at hfuel; omega)
    refine ⟨res, ?_, h2, ?_, ?_, ?_, ?_, h7⟩
    · rw [doProcessBufferLoop]
      simp only [hB, hnz, decide_False] at h1 ⊢
      exact h1
    · rw [h3, hB]; simp only; omega
    · rw [h4, hB]; simp
    · rw [h5, hB]
      simp only [List.cons_append, List.map_cons, List.sum_cons]
      rw [Nat.add_mod, Nat.mod_mod, ← Nat.add_mod, Nat.add_assoc]
    · rw [h6, hB]; simp

/-! ## `displayStats` -/

theorem usOf_lt (t : Timeval) : usOf t < U64 := Nat.mod_lt _ (by decide)

theorem sumUsDiff_head (t : Timeval) : sumUsDiff [⟨t, t⟩] = 0 := by
  have h := usOf_lt t
  have hU : U64 = 18446744073709551616 := rfl
  simp only [sumUsDiff]
  rw [hU] at h ⊢
  omega


/-! ## Whole runs of `doProcessFile` -/

/-- Uniqueness of the decomposition of a list around its only element with a property. -/
theorem split_unique {α : Type} (P : α → Prop) :
    ∀ (evs pre : List α) (e e' : α) (tail post : List α),
      evs ++ e :: tail = pre ++ e' :: post →
      (∀ x ∈ evs, ¬ P x) → (∀ x ∈ tail, ¬ P x) → P e' →
      pre = evs ∧ e' = e ∧ post = tail := by
  intro evs
  induction evs with
  | nil =>
    intro pre e e' tail post h _ ht he'
    cases pre with
    | nil =>
      simp only [List.nil_append, List.cons.injEq] at h
      exact ⟨rfl, h.1.symm, h.2.symm⟩
    | cons p ps =>
      simp only [List.nil_append, List.cons_append, List.cons.injEq] at h
      exact absurd he' (ht e' (by rw [h.2]; simp))
  | cons a evs ih =>
    intro pre e e' tail post h hevs ht he'
    cases pre with
    | nil =>
      simp only [List.nil_append, List.cons_append, List.cons.injEq] at h
      exact absurd (h.1 ▸ he') (hevs a (List.mem_cons_self _ _))
    | cons p ps =>
      simp only [List.cons_append, List.cons.injEq] at h
      obtain ⟨h1, h2, h3⟩ := ih ps e e' tail post h.2
        (fun x hx => hevs x (List.mem_cons_of_mem _ hx)) ht he'
      exact ⟨by rw [h.1, h1], h2, h3⟩

theorem not_mem_of_no_fatalSlice {l : List Event} (h : ∀ e ∈ l, ¬ fatalSlice e)
    (pre post : List Event) (calls : List CodecCall) (ret : Int) (n : Nat)
    (hret : fatalStatus ret) : l ≠ pre ++ Event.processBuffer calls ret n :: post := by
  intro hl
  exact h (Event.processBuffer calls ret n) (by rw [hl]; simp) hret

/-- The shape of every run of `doProcessBuffer`. -/
theorem doProcessBuffer_trace {σ : Type} (env : Env σ) (fuel : Nat) (sess : σ)
    (src : Nat → UInt8) (n dst_len : Nat) (time_list : List RunTimeList_T)
    (dst_file : List UInt8) (dst_file_size : Nat) (is_compress : Bool) (r : BufResult σ)
    (hrun : doProcessBuffer env fuel sess src n dst_len time_list dst_file dst_file_size
      is_compress = some r) :
    ∃ l c, r.calls = l ++ [c] ∧
      (∀ x ∈ l, ¬ fatalStatus x.resp.ret ∧ (is_compress = false → x.resp.ret ≠ QZ_DATA_ERROR)) ∧
      r.ret = c.resp.ret ∧
      r.dst_file = dst_file ++ writtenOf (l ++ [c]) ∧
      r.src_len = consumedOf (l ++ [c]) % U32 ∧
      (dst_file_size < U32 →
        r.dst_file_size = (dst_file_size + (writtenOf (l ++ [c])).length) % U32) := by
  unfold doProcessBuffer at hrun
  simp only [Option.map_eq_some'] at hrun
  obtain ⟨fin, hfin, rfl⟩ := hrun
  obtain ⟨l, c, g1, g2, g3, g4, g5, g6⟩ := loop_trace env is_compress src dst_len fuel _ fin hfin
  have g5 := g5 (by show (0 : Nat) < U32; decide)
  simp only [List.nil_append, Nat.zero_add] at g1 g5
  exact ⟨l, c, g1, g2, g3, g4, g5, g6⟩

theorem consumedOf_append_fatal (l : List CodecCall) (c : CodecCall)
    (hl : ∀ x ∈ l, ¬ fatalStatus x.resp.ret) (hc : fatalStatus c.resp.ret) :
    consumedOf (l ++ [c]) = (l.map (·.resp.src_len)).sum := by
  rw [consumedOf_append, consumedOf_nonfatal l hl]
  simp [consumedOf, hc]

theorem writtenOf_append_fatal (l : List CodecCall) (c : CodecCall)
    (hl : ∀ x ∈ l, ¬ fatalStatus x.resp.ret) (hc : fatalStatus c.resp.ret) :
    writtenOf (l ++ [c]) = l.flatMap (·.resp.dst) := by
  rw [writtenOf_append, writtenOf_nonfatal l hl]
  simp [writtenOf, hc]

theorem length_flatMap_dst (l : List CodecCall) :
    (l.flatMap (·.resp.dst)).length = (l.map (·.resp.dst.length)).sum := by
  induction l with
  | nil => rfl
  | cons c l ih => simp [ih]

/-- The shape of the events of every run of `doProcessFile`. -/
theorem doProcessFile_events {σ : Type} (env : Env σ) (fuel : Nat) (g_keep : Bool) (sess : σ)
    (src_file_name dst_file_name : String) (src : Option SrcFile) (is_compress : Bool)
    (res : FileResult σ)
    (hrun : doProcessFile env fuel g_keep sess src_file_name dst_file_name src is_compress =
      some res) :
    (res = ⟨Outcome.exited ERROR, (env.gettimeofday sess).2, none, [], none⟩ ∧
      (src = none ∨ ∃ f, src = some f ∧ UINT_MAX < f.st_size)) ∨
    ∃ f new tail, src = some f ∧ f.st_size ≤ UINT_MAX ∧
      res.events =
        (doProcessFileInit env (env.gettimeofday sess).2 (env.gettimeofday sess).1
          src_file_name dst_file_name (GET_LOWER_32BITS f.st_size) is_compress).events ++
          new ++ tail ∧
      (∀ e ∈ new, loopEvent e = true) ∧ res.dst_file ≠ none ∧
      ((tail = (if g_keep then [] else [Event.unlink src_file_name]) ∧
          res.outcome = Outcome.exited ERROR ∧ res.stats = none) ∨
        ((∃ a b, tail = [Event.displayStats a b]) ∧ res.outcome = Outcome.aborted) ∨
        ((∃ a b, tail = Event.displayStats a b ::
            (if g_keep then [] else [Event.unlink src_file_name])) ∧
          res.outcome ≠ Outcome.aborted)) := by
  unfold doProcessFile at hrun
  simp only [] at hrun
  split at hrun
  · injection hrun with hrun
    exact Or.inl ⟨hrun.symm, Or.inl rfl⟩
  · rename_i f
    split at hrun
    · rename_i hbig
      injection hrun with hrun
      exact Or.inl ⟨hrun.symm, Or.inr ⟨f, rfl, hbig⟩⟩
    · rename_i hsmall
      right
      split at hrun
      · exact absurd hrun (by simp)
      · rename_i st1 hloop
        injection hrun with hrun; subst hrun
        obtain ⟨new, h1, h2, h3, -⟩ := fileLoop_events env is_compress f _ _ _ _ _ _ _ hloop
        refine ⟨f, new, (if g_keep then [] else [Event.unlink src_file_name]), rfl, by omega,
          ?_, h2, by simp [doProcessFileExit], Or.inl ⟨rfl, ?_, rfl⟩⟩
        · simp only [doProcessFileExit, h1]
        · simp only [doProcessFileExit, h3 rfl]; rfl
      · rename_i st1 hloop
        obtain ⟨new, h1, h2, -, -⟩ := fileLoop_events env is_compress f _ _ _ _ _ _ _ hloop
        split at hrun
        · injection hrun with hrun; subst hrun
          refine ⟨f, new, [Event.displayStats (GET_LOWER_32BITS f.st_size) st1.dst_file_size],
            rfl, by omega, ?_, h2, by simp, Or.inr (Or.inl ⟨⟨_, _, rfl⟩, rfl⟩)⟩
          simp only [h1]
        · injection hrun with hrun; subst hrun
          refine ⟨f, new, Event.displayStats (GET_LOWER_32BITS f.st_size) st1.dst_file_size ::
            (if g_keep then [] else [Event.unlink src_file_name]),
            rfl, by omega, ?_, h2, by simp [doProcessFileExit],
            Or.inr (Or.inr ⟨⟨_, _, rfl⟩, ?_⟩)⟩
          · simp only [doProcessFileExit, h1, List.append_assoc, List.singleton_append]
          · simp only [doProcessFileExit]
            split <;> simp

/-! ## Concrete sessions -/

theorem greedyEnv_wellBehaved (is_compress : Bool) : wellBehaved greedyEnv is_compress := by
  intro s src n cap hn
  cases is_compress <;> exact ⟨rfl, hn, Nat.le_refl _⟩

/-! # Properties of the pipeline -/

/-- C1: for a source file of size `S` with `0 < S ≤ 2^32 - 1` and a codec all of whose
calls return `QZ_OK` and consume at least one byte and at most the bytes they were given,
the main loop of `doProcessFile`, with fuel at least `S`, ends normally with
`file_remaining = 0`; the totals that `doProcessBuffer` stored back in `bytes_read` sum
to `S` over the slices, and each slice is at most 512 MiB. -/
theorem C1_whole_file_consumed {σ : Type} (env : Env σ) (is_compress : Bool) (f : SrcFile)
    (sess : σ) (now : Timeval) (src_file_name dst_file_name : String) (fuel : Nat)
    (hpos : 0 < f.st_size) (hmax : f.st_size ≤ UINT_MAX)
    (hcodec : wellBehaved env is_compress) (hfuel : f.st_size ≤ fuel) :
    ∃ st,
      doProcessFileLoop env f (srcBufferSize (GET_LOWER_32BITS f.st_size))
          (dstBufferSize env is_compress (srcBufferSize (GET_LOWER_32BITS f.st_size)))
          is_compress fuel fuel
          (doProcessFileInit env sess now src_file_name dst_file_name
            (GET_LOWER_32BITS f.st_size) is_compress) = some (false, st) ∧
      st.file_remaining = 0 ∧
      (sliceTotals st.events).sum = f.st_size ∧
      ∀ n ∈ sliceTotals st.events, n ≤ SRC_BUFF_LEN := by
  have hU : U32 = 4294967296 := rfl
  have hM : UINT_MAX = 4294967295 := rfl
  have hS : SRC_BUFF_LEN = 536870912 := rfl
  have hg : GET_LOWER_32BITS f.st_size = f.st_size := by
    unfold GET_LOWER_32BITS; rw [hU]; omega
  rw [hg]
  have hB1 : 0 < srcBufferSize f.st_size := by unfold srcBufferSize; split <;> omega
  have hB2 : srcBufferSize f.st_size ≤ f.st_size := by unfold srcBufferSize; split <;> omega
  have hB3 : srcBufferSize f.st_size ≤ SRC_BUFF_LEN := by unfold srcBufferSize; split <;> omega
  obtain ⟨st, h1, h2, l, h3, h4, h5⟩ := fileLoop_wellBehaved env is_compress hcodec f
    (srcBufferSize f.st_size) (dstBufferSize env is_compress (srcBufferSize f.st_size)) fuel
    hB1 (by omega) (by omega) (by omega) fuel
    (doProcessFileInit env sess now src_file_name dst_file_name f.st_size is_compress)
    (by simp [doProcessFileInit]) (by simpa [doProcessFileInit] using hfuel)
  have hinit : sliceTotals (doProcessFileInit env sess now src_file_name dst_file_name
      f.st_size is_compress).events = [] := rfl
  rw [hinit, List.nil_append] at h3
  refine ⟨st, h1, h2, ?_, ?_⟩
  · rw [h3, h4]; rfl
  · intro n hn
    rw [h3] at hn
    exact Nat.le_trans (h5 n hn) hB3

theorem C1_whole_file_consumed_witness :
    0 < file5.st_size ∧ file5.st_size ≤ UINT_MAX ∧
    wellBehaved greedyEnv true ∧ file5.st_size ≤ 5 ∧
    ∃ st,
      doProcessFileLoop greedyEnv file5
          (srcBufferSize (GET_LOWER_32BITS file5.st_size))
          (dstBufferSize greedyEnv true
            (srcBufferSize (GET_LOWER_32BITS file5.st_size)))
          true 5 5
          (doProcessFileInit greedyEnv 0 ⟨0, 0⟩ "a" "a.gz"
            (GET_LOWER_32BITS file5.st_size) true) = some (false, st) ∧
      st.file_remaining = 0 ∧
      (sliceTotals st.events).sum = file5.st_size ∧
      ∀ n ∈ sliceTotals st.events, n ≤ SRC_BUFF_LEN :=
  ⟨by decide, by decide, greedyEnv_wellBehaved true, by decide,
    C1_whole_file_consumed greedyEnv true file5 0 ⟨0, 0⟩ "a" "a.gz" 5 (by decide)
      (by decide) (greedyEnv_wellBehaved true) (by decide)⟩

/-- C2: for a slice of length `n` (an `unsigned int`), if `doProcessBuffer` returns
`QZ_OK` and no codec call reported more consumed bytes than it was given, then the total
stored back in `*src_len` is `n`, and it is the sum of the consumed counts of all the
codec calls made on the slice. -/
theorem C2_ok_slice_fully_consumed {σ : Type} (env : Env σ) (fuel : Nat) (sess : σ)
    (src : Nat → UInt8) (n dst_len : Nat) (time_list : List RunTimeList_T)
    (dst_file : List UInt8) (dst_file_size : Nat) (is_compress : Bool) (r : BufResult σ)
    (hn : n < U32)
    (hrun : doProcessBuffer env fuel sess src n dst_len time_list dst_file dst_file_size
      is_compress = some r)
    (hcalls : ∀ c ∈ r.calls, c.resp.src_len ≤ c.src_len)
    (hret : r.ret = QZ_OK) :
    r.src_len = n ∧ (r.calls.map (·.resp.src_len)).sum = n := by
  unfold doProcessBuffer at hrun
  simp only [Option.map_eq_some'] at hrun
  obtain ⟨st, hst, rfl⟩ := hrun
  simp only at hcalls hret ⊢
  obtain ⟨l, h1, h2, _, h4⟩ := loop_exact env is_compress src dst_len n hn fuel _ st hst rfl
    (by simp) hcalls
  obtain ⟨l', c, g1, g2, g3, -⟩ := loop_trace env is_compress src dst_len fuel _ st hst
  simp only [List.nil_append, Nat.zero_add] at h1 h2 g1
  have hnf : ∀ x ∈ st.calls, ¬ fatalStatus x.resp.ret := by
    intro x hx
    rw [g1] at hx
    rcases List.mem_append.1 hx with hx | hx
    · exact (g2 x hx).1
    · rw [List.mem_singleton.1 hx, ← g3, hret]
      intro hf; exact hf.1 rfl
  refine ⟨h4 hret, ?_⟩
  rw [← consumedOf_nonfatal _ hnf, h1, ← h2]
  exact h4 hret


theorem C2_ok_slice_fully_consumed_witness :
    5 < U32 ∧
    ∃ r : BufResult ScriptState,
      doProcessBuffer (scriptEnv fun _ => 0) 2
        ⟨[⟨QZ_BUF_ERROR, 3, [1]⟩, ⟨QZ_OK, 2, [2]⟩], 0⟩ (fun _ => 0) 5 16 [] [] 0 true = some r ∧
      (∀ c ∈ r.calls, c.resp.src_len ≤ c.src_len) ∧ r.ret = QZ_OK ∧
      r.src_len = 5 ∧ (r.calls.map (·.resp.src_len)).sum = 5 :=
  ⟨by decide, _, rfl, by decide, rfl,
    C2_ok_slice_fully_consumed (scriptEnv fun _ => 0) 2
      ⟨[⟨QZ_BUF_ERROR, 3, [1]⟩, ⟨QZ_OK, 2, [2]⟩], 0⟩ (fun _ => 0) 5 16 [] [] 0 true _
      (by decide) rfl (by decide) rfl⟩


/-- C3: the code at a failing input. The source has 512 MiB + 8 bytes; the first slice
(512 MiB) is decompressed with `QZ_OK`, the second slice (8 bytes) ends with
`QZ_DATA_ERROR` after 4 bytes. `doProcessFile` repositions the source at offset 4, not
at offset 512 MiB + 4, and reads the next slice from there. -/
theorem C3_resume_point_ignores_ok_slices :
    (doProcessFile (scriptEnv fun _ => 0) 3 true 
      ⟨[⟨QZ_OK, 536870912, [1]⟩, ⟨QZ_DATA_ERROR, 4, [2]⟩], 0⟩ "a.gz" "a" (some bigFile) false).map
        (fun r => (r.outcome, r.events)) =
    some (Outcome.exited ERROR, 
 [Event.malloc 536870912,
  Event.malloc 2684354560,
  Event.fopen "a.gz" "r",
  Event.fopen "a" "w",
  Event.fread 0 536870912,
  Event.processBuffer
    [{ src := 0, src_len := 536870912, dst_len := 2684354560, resp := { ret := 0, src_len := 536870912, dst := [1] } }]
    0
    536870912,
  Event.fread 536870912 8,
  Event.processBuffer
    [{ src := 0, src_len := 8, dst_len := 2684354560, resp := { ret := -4, src_len := 4, dst := [2] } }]
    (-4)
    4,
  Event.fseek 4 0,
  Event.fread 4 536870912,
  Event.processBuffer
    [{ src := 0, src_len := 536870912, dst_len := 2684354560, resp := { ret := -2, src_len := 0, dst := [] } }]
    (-2)
    0]) := by decide

/-- C4: the code at a zero-length source file. `doProcessFile` skips its main loop and
calls `displayStats` with `insize = 0`, `outsize = 0` and a timing list that holds only
the head node, whose elapsed time is zero: the first assertion of `displayStats` fails
and the run aborts. -/
theorem C4_zero_length_file_aborts {σ : Type} (env : Env σ) (fuel : Nat) (g_keep : Bool)
    (sess : σ) (src_file_name dst_file_name : String) (data : Nat → UInt8)
    (is_compress : Bool) :
    doProcessFile env fuel g_keep sess src_file_name dst_file_name (some ⟨0, data⟩) is_compress =
      some
        { outcome := Outcome.aborted
          sess := (env.gettimeofday sess).2
          dst_file := some []
          events :=
            [Event.malloc 0, Event.malloc (dstBufferSize env is_compress 0),
              Event.fopen src_file_name "r", Event.fopen dst_file_name "w",
              Event.displayStats 0 0]
          stats := none } := by
  have hloop : ∀ (st : FileState σ), st.file_remaining = 0 →
      doProcessFileLoop env ⟨0, data⟩ (srcBufferSize 0) (dstBufferSize env is_compress (srcBufferSize 0))
        is_compress fuel fuel st = some (false, st) := by
    intro st h
    cases fuel <;> simp [doProcessFileLoop, h]
  unfold doProcessFile
  simp only [show ¬ ((0 : Nat) > UINT_MAX) by decide, if_false,
    show GET_LOWER_32BITS 0 = 0 by rfl]
  rw [hloop _ rfl]
  simp only [doProcessFileInit, displayStats, sumUsDiff_head, if_true]
  rfl

/-- C5, amended: for a slice of length `n < 2^32` and a session that answers with the
responses `rs` followed by `last`, all of status `QZ_OK` or `QZ_BUF_ERROR`, whose
consumed counts sum to `n` and reach `n` only with `last`, `doProcessBuffer` returns
after these calls; the totals it reports are the sum of the consumed counts and the sum
of the produced counts, the bytes written are the produced bytes in order, and it
returns the status of `last`. `doProcessFile` goes on with its loop when that status is
`QZ_OK`, and leaves it with `ERROR` when it is `QZ_BUF_ERROR`. -/
theorem C5_buf_error_totals (fk : Nat → Int) (is_compress : Bool) (rs : List CodecResp)
    (last : CodecResp) (extra : List CodecResp) (clock : Nat) (f : SrcFile) (B D : Nat)
    (st : FileState ScriptState)
    (hsess : st.sess = ⟨rs ++ last :: extra, clock⟩)
    (hall : ∀ r ∈ rs ++ [last], r.ret = QZ_OK ∨ r.ret = QZ_BUF_ERROR)
    (hsum : ((rs ++ [last]).map (·.src_len)).sum = (fread f st.src_pos st.src_buffer B).1)
    (hpre : rs ≠ [] → (rs.map (·.src_len)).sum < (fread f st.src_pos st.src_buffer B).1)
    (hn : (fread f st.src_pos st.src_buffer B).1 < U32) :
    ∃ r st1,
      doProcessBuffer (scriptEnv fk) (rs.length + 1) st.sess
          (fread f st.src_pos st.src_buffer B).2 (fread f st.src_pos st.src_buffer B).1 D
          st.time_list st.dst_file st.dst_file_size is_compress = some r ∧
      r.calls.map (·.resp) = rs ++ [last] ∧
      r.src_len = ((rs ++ [last]).map (·.src_len)).sum ∧
      r.dst_file = st.dst_file ++ (rs ++ [last]).flatMap (·.dst) ∧
      r.dst_file_size = (st.dst_file_size + ((rs ++ [last]).map (·.dst.length)).sum) % U32 ∧
      r.ret = last.ret ∧
      doProcessFileStep (scriptEnv fk) f B D is_compress (rs.length + 1) st =
        some (decide (last.ret = QZ_BUF_ERROR), st1) ∧
      st1.bytes_read = r.src_len ∧ st1.dst_file = r.dst_file ∧
      (last.ret = QZ_BUF_ERROR → st1.ret = ERROR) := by
  have hlast := hall last (by simp)
  have hsum' : (rs.map (·.src_len)).sum + last.src_len =
      (fread f st.src_pos st.src_buffer B).1 := by
    rw [← hsum]; simp
  obtain ⟨res, h1, h2, h3, h4, h5, h6, -⟩ := loop_script fk is_compress
    (fread f st.src_pos st.src_buffer B).2 D last extra hlast rs (rs.length + 1)
    { sess := st.sess, ret := QZ_FAIL, buf_processed := 0,
      buf_remaining := (fread f st.src_pos st.src_buffer B).1, src := 0,
      src_len := (fread f st.src_pos st.src_buffer B).1, dst_len := D,
      time_list := st.time_list, dst_file := st.dst_file,
      dst_file_size := st.dst_file_size, calls := [] }
    (by rw [hsess]) (fun r hr => hall r (List.mem_append_left _ hr)) hsum'
    (fun h => by have := hpre h; omega) (by simpa using hn) (Nat.lt_succ_self _)
  have hrun : doProcessBuffer (scriptEnv fk) (rs.length + 1) st.sess
      (fread f st.src_pos st.src_buffer B).2 (fread f st.src_pos st.src_buffer B).1 D
      st.time_list st.dst_file st.dst_file_size is_compress =
      some ⟨res.ret, res.buf_processed, res.sess, res.time_list, res.dst_file,
        res.dst_file_size, res.calls⟩ := by
    unfold doProcessBuffer
    simp only [h1]
    rfl
  obtain ⟨flag, st1, g1, -, -, g2, -, g3, -, g4⟩ :=
    fileStep_spec (scriptEnv fk) is_compress f B D (rs.length + 1) st _ hrun
  have hne : ¬ (res.ret = QZ_DATA_ERROR) := by
    rw [h2]; rcases hlast with h | h <;> rw [h] <;> decide
  have hflag : flag = decide (last.ret = QZ_BUF_ERROR) ∧
      (last.ret = QZ_BUF_ERROR → st1.ret = ERROR) := by
    rcases g4 with g | g | g | g | g
    · exact absurd g.1 hne
    · exact absurd g.1 hne
    · exact absurd g.1 hne
    · obtain ⟨-, g5, g6, g7, -⟩ := g
      simp only at g5
      have : last.ret = QZ_BUF_ERROR := by
        rcases hlast with h | h
        · rw [h2] at g5; exact absurd h g5
        · exact h
      exact ⟨by rw [g6]; simp [this], fun _ => g7⟩
    · obtain ⟨g5, g6, -⟩ := g
      simp only at g5
      rw [h2] at g5
      have : ¬ (last.ret = QZ_BUF_ERROR) := by rw [g5]; decide
      exact ⟨by rw [g6]; simp [this], fun h => absurd h this⟩
  refine ⟨_, st1, hrun, ?_, ?_, ?_, ?_, h2, ?_, g3, g2, hflag.2⟩
  · simpa using h6
  · simp only [h3, ← hsum]; omega
  · simpa using h4
  · simpa using h5
  · rw [g1, hflag.1]

theorem C5_buf_error_totals_witness :
    (fileState5 (rs5 ++ last5 :: []) true).sess = ⟨rs5 ++ last5 :: [], 1⟩ ∧
    (∀ r ∈ rs5 ++ [last5], r.ret = QZ_OK ∨ r.ret = QZ_BUF_ERROR) ∧
    ((rs5 ++ [last5]).map (·.src_len)).sum =
      (fread file5 (fileState5 (rs5 ++ last5 :: []) true).src_pos
        (fileState5 (rs5 ++ last5 :: []) true).src_buffer 5).1 ∧
    ∃ r st1,
      doProcessBuffer (scriptEnv fun _ => 0) (rs5.length + 1)
          (fileState5 (rs5 ++ last5 :: []) true).sess
          (fread file5 (fileState5 (rs5 ++ last5 :: []) true).src_pos
            (fileState5 (rs5 ++ last5 :: []) true).src_buffer 5).2
          (fread file5 (fileState5 (rs5 ++ last5 :: []) true).src_pos
            (fileState5 (rs5 ++ last5 :: []) true).src_buffer 5).1 69
          (fileState5 (rs5 ++ last5 :: []) true).time_list
          (fileState5 (rs5 ++ last5 :: []) true).dst_file
          (fileState5 (rs5 ++ last5 :: []) true).dst_file_size true = some r ∧
      r.calls.map (·.resp) = rs5 ++ [last5] ∧
      r.src_len = ((rs5 ++ [last5]).map (·.src_len)).sum ∧
      r.dst_file = (fileState5 (rs5 ++ last5 :: []) true).dst_file ++
        (rs5 ++ [last5]).flatMap (·.dst) ∧
      r.dst_file_size =
        ((fileState5 (rs5 ++ last5 :: []) true).dst_file_size +
          ((rs5 ++ [last5]).map (·.dst.length)).sum) % U32 ∧
      r.ret = last5.ret ∧
      doProcessFileStep (scriptEnv fun _ => 0) file5 5 69 true (rs5.length + 1)
          (fileState5 (rs5 ++ last5 :: []) true) =
        some (decide (last5.ret = QZ_BUF_ERROR), st1) ∧
      st1.bytes_read = r.src_len ∧ st1.dst_file = r.dst_file ∧
      (last5.ret = QZ_BUF_ERROR → st1.ret = ERROR) :=
  ⟨rfl, by decide, by decide,
    C5_buf_error_totals (fun _ => 0) true rs5 last5 [] 1 file5 5 69
      (fileState5 (rs5 ++ last5 :: []) true) rfl (by decide) (by decide)
      (by decide) (by decide)⟩

theorem C5_counterexample :
    (∀ r ∈ [(⟨QZ_BUF_ERROR, 4, [1, 2]⟩ : CodecResp)], r.ret = QZ_OK ∨ r.ret = QZ_BUF_ERROR) ∧
    ([(⟨QZ_BUF_ERROR, 4, [1, 2]⟩ : CodecResp)].map (·.src_len)).sum = 4 ∧
    (doProcessFile (scriptEnv fun _ => 0) 1 true ⟨[⟨QZ_BUF_ERROR, 4, [1, 2]⟩], 0⟩ "a" "a.gz"
        (some ⟨4, fun _ => 0⟩) true).map (fun r => (r.outcome, r.events, r.dst_file)) =
      some (Outcome.exited ERROR,
        [Event.malloc 4, Event.malloc 68, Event.fopen "a" "r", Event.fopen "a.gz" "w",
          Event.fread 0 4,
          Event.processBuffer [⟨0, 4, 68, ⟨QZ_BUF_ERROR, 4, [1, 2]⟩⟩] QZ_BUF_ERROR 4],
        some [1, 2]) := by
  decide

/-- C6: when a codec call returns a status other than `QZ_OK`, `QZ_BUF_ERROR` and
`QZ_DATA_ERROR`, the loop of `doProcessBuffer` ends with that call: one more unit of
fuel gives the result, in which the destination stream, `dst_file_size` and
`buf_processed` are those before the call and `ret` is that status. In every run of
`doProcessBuffer`, a call with such a status is the last call; the function returns that
status; the destination stream, the total stored back in `*src_len` and
`*dst_file_size` hold the output, the consumed counts and the produced counts of the
earlier calls only. In every run of `doProcessFile`, a call of `doProcessBuffer` that
returned such a status is followed by nothing but the `unlink` of the source (when
`g_keep` is clear): no other slice is read, no statistics are reported, and the run ends
with `exit(ERROR)`. -/
theorem C6_fatal_status_aborts {σ : Type} (env : Env σ) (is_compress : Bool)
    (src_buffer : Nat → UInt8) (v k : Nat) (st : BufState σ)
    (bfuel : Nat) (bsess : σ) (bsrc : Nat → UInt8) (bn dst_len : Nat)
    (time_list : List RunTimeList_T) (dst_file : List UInt8) (dst_file_size : Nat)
    (r : BufResult σ) (cpre cpost : List CodecCall) (c : CodecCall)
    (fuel : Nat) (g_keep : Bool) (sess : σ) (src_file_name dst_file_name : String)
    (src : Option SrcFile) (is_compress' : Bool) (res : FileResult σ)
    (pre post : List Event) (calls : List CodecCall) (ret : Int) (n : Nat)
    (hcall : fatalStatus (codecAt env is_compress src_buffer st).1.ret)
    (hbuf : doProcessBuffer env bfuel bsess bsrc bn dst_len time_list dst_file dst_file_size
      is_compress = some r)
    (hsplit : r.calls = cpre ++ c :: cpost)
    (hfatal : fatalStatus c.resp.ret)
    (hsize : dst_file_size < U32)
    (hrun : doProcessFile env fuel g_keep sess src_file_name dst_file_name src is_compress' =
      some res)
    (hev : res.events = pre ++ Event.processBuffer calls ret n :: post)
    (hret : fatalStatus ret) :
    doProcessBufferLoop env is_compress src_buffer v (k + 1) st =
      some
        { st with
          sess := (codecAt env is_compress src_buffer st).2
          ret := (codecAt env is_compress src_buffer st).1.ret
          src_len := (codecAt env is_compress src_buffer st).1.src_len
          dst_len := (codecAt env is_compress src_buffer st).1.dst.length
          time_list := st.time_list ++ [⟨(env.gettimeofday st.sess).1, ⟨0, 0⟩⟩]
          calls := st.calls ++
            [⟨st.src, st.src_len, st.dst_len, (codecAt env is_compress src_buffer st).1⟩] } ∧
    (cpost = [] ∧ r.ret = c.resp.ret ∧
      r.dst_file = dst_file ++ cpre.flatMap (·.resp.dst) ∧
      r.src_len = (cpre.map (·.resp.src_len)).sum % U32 ∧
      r.dst_file_size = (dst_file_size + (cpre.map (·.resp.dst.length)).sum) % U32) ∧
    res.outcome = Outcome.exited ERROR ∧ res.stats = none ∧
    post = (if g_keep then [] else [Event.unlink src_file_name]) ∧
    (∀ e ∈ pre, ¬ fatalSlice e) := by
  refine ⟨?_, ?_, ?_⟩
  · rw [loop_succ, body_fatal env is_compress src_buffer v st hcall]
    rfl
  · obtain ⟨l, c', g1, g2, g3, g4, g5, g6⟩ := doProcessBuffer_trace env bfuel bsess bsrc bn
      dst_len time_list dst_file dst_file_size is_compress r hbuf
    have hsp : l ++ c' :: [] = cpre ++ c :: cpost := by rw [← hsplit, g1]
    obtain ⟨e1, e2, e3⟩ := split_unique (fun x : CodecCall => fatalStatus x.resp.ret)
      l cpre c' c [] cpost hsp (fun x hx => (g2 x hx).1) (by simp) hfatal
    subst e1 e2 e3
    have hl : ∀ x ∈ cpre, ¬ fatalStatus x.resp.ret := fun x hx => (g2 x hx).1
    refine ⟨rfl, g3, ?_, ?_, ?_⟩
    · rw [g4, writtenOf_append_fatal _ _ hl hfatal]
    · rw [g5, consumedOf_append_fatal _ _ hl hfatal]
    · rw [g6 hsize, writtenOf_append_fatal _ _ hl hfatal, length_flatMap_dst]
  · unfold doProcessFile at hrun
    simp only [] at hrun
    split at hrun
    · injection hrun with hrun; subst hrun
      exact absurd hev (by simp)
    · rename_i f
      split at hrun
      · injection hrun with hrun; subst hrun
        exact absurd hev (by simp)
      · split at hrun
        · exact absurd hrun (by simp)
        · rename_i st1 hloop
          injection hrun with hrun; subst hrun
          obtain ⟨new, h1, h2, h3, h4⟩ := fileLoop_events env is_compress' f _ _ _ _ _ _ _ hloop
          have hinit : ∀ e ∈ (doProcessFileInit env (env.gettimeofday sess).2
              (env.gettimeofday sess).1 src_file_name dst_file_name
              (GET_LOWER_32BITS f.st_size) is_compress').events, ¬ fatalSlice e := by
            intro e he
            simp only [doProcessFileInit, List.mem_cons, List.mem_singleton, List.not_mem_nil,
              or_false] at he
            rcases he with he | he | he | he <;> rw [he] <;> simp [fatalSlice]
          have hunl : ∀ e ∈ (if g_keep then [] else [Event.unlink src_file_name]),
              ¬ fatalSlice e := by
            intro e he
            cases g_keep <;> simp at he
            rw [he]; simp [fatalSlice]
          simp only [doProcessFileExit] at hev
          rw [h1] at hev
          rcases h4 with h4 | ⟨-, evs, e, h5, h6, h7⟩
          · exfalso
            refine not_mem_of_no_fatalSlice ?_ pre post calls ret n hret hev
            intro x hx
            rcases List.mem_append.1 hx with hx | hx
            · rcases List.mem_append.1 hx with hx | hx
              · exact hinit x hx
              · exact h4 x hx
            · exact hunl x hx
          · rw [h5] at hev
            have hev' : (doProcessFileInit env (env.gettimeofday sess).2
                (env.gettimeofday sess).1 src_file_name dst_file_name
                (GET_LOWER_32BITS f.st_size) is_compress').events ++ evs ++
                e :: (if g_keep then [] else [Event.unlink src_file_name]) =
                pre ++ Event.processBuffer calls ret n :: post := by
              rw [← hev]; simp
            have hpre : ∀ x ∈ (doProcessFileInit env (env.gettimeofday sess).2
                (env.gettimeofday sess).1 src_file_name dst_file_name
                (GET_LOWER_32BITS f.st_size) is_compress').events ++ evs, ¬ fatalSlice x := by
              intro x hx
              rcases List.mem_append.1 hx with hx | hx
              · exact hinit x hx
              · exact h7 x hx
            obtain ⟨g1, -, g3⟩ := split_unique fatalSlice _ _ _ _ _ _ hev' hpre hunl hret
            refine ⟨?_, rfl, g3, ?_⟩
            · simp only [doProcessFileExit, h3 rfl]; rfl
            · rw [g1]; exact hpre
        · rename_i st1 hloop
          exfalso
          obtain ⟨new, h1, h2, h3, h4⟩ := fileLoop_events env is_compress' f _ _ _ _ _ _ _ hloop
          have hinit : ∀ e ∈ (doProcessFileInit env (env.gettimeofday sess).2
              (env.gettimeofday sess).1 src_file_name dst_file_name
              (GET_LOWER_32BITS f.st_size) is_compress').events, ¬ fatalSlice e := by
            intro e he
            simp only [doProcessFileInit, List.mem_cons, List.mem_singleton, List.not_mem_nil,
              or_false] at he
            rcases he with he | he | he | he <;> rw [he] <;> simp [fatalSlice]
          have hunl : ∀ e ∈ (if g_keep then [] else [Event.unlink src_file_name]),
              ¬ fatalSlice e := by
            intro e he
            cases g_keep <;> simp at he
            rw [he]; simp [fatalSlice]
          have h4 : ∀ e ∈ new, ¬ fatalSlice e := by
            rcases h4 with h4 | h4
            · exact h4
            · exact absurd h4.1 (by simp)
          have hst1 : ∀ e ∈ st1.events ++
              [Event.displayStats (GET_LOWER_32BITS f.st_size) st1.dst_file_size],
              ¬ fatalSlice e := by
            intro x hx
            rw [h1] at hx
            rcases List.mem_append.1 hx with hx | hx
            · rcases List.mem_append.1 hx with hx | hx
              · exact hinit x hx
              · exact h4 x hx
            · rw [List.mem_singleton.1 hx]; simp [fatalSlice]
          split at hrun
          · injection hrun with hrun; subst hrun
            exact not_mem_of_no_fatalSlice hst1 pre post calls ret n hret hev
          · injection hrun with hrun; subst hrun
            simp only [doProcessFileExit] at hev
            refine not_mem_of_no_fatalSlice ?_ pre post calls ret n hret hev
            intro x hx
            rcases List.mem_append.1 hx with hx | hx
            · exact hst1 x hx
            · exact hunl x hx
theorem C6_fatal_status_aborts_witness :
    fatalStatus (codecAt (scriptEnv fun _ => 0) true (fun _ => 0)
      (bufState5 [⟨QZ_FAIL, 1, [9]⟩])).1.ret ∧
    fatalStatus (⟨2, 3, 69, ⟨QZ_FAIL, 1, [9]⟩⟩ : CodecCall).resp.ret ∧
    (0 : Nat) < U32 ∧ fatalStatus QZ_FAIL ∧
    ∃ (r : BufResult ScriptState) (res : FileResult ScriptState),
      doProcessBuffer (scriptEnv fun _ => 0) 2 ⟨[⟨QZ_OK, 2, [1]⟩, ⟨QZ_FAIL, 1, [9]⟩], 0⟩
        (fun _ => 0) 5 69 [] [] 0 true = some r ∧
      r.calls = [⟨0, 5, 69, ⟨QZ_OK, 2, [1]⟩⟩] ++ ⟨2, 3, 69, ⟨QZ_FAIL, 1, [9]⟩⟩ :: [] ∧
      doProcessFile (scriptEnv fun _ => 0) 2 false ⟨[⟨QZ_OK, 2, [1]⟩, ⟨QZ_FAIL, 1, [9]⟩], 0⟩
        "a" "b" (some file5) true = some res ∧
      res.events =
        [Event.malloc 5, Event.malloc 69, Event.fopen "a" "r", Event.fopen "b" "w",
          Event.fread 0 5] ++
        Event.processBuffer
          [⟨0, 5, 69, ⟨QZ_OK, 2, [1]⟩⟩, ⟨2, 3, 69, ⟨QZ_FAIL, 1, [9]⟩⟩] QZ_FAIL 2 ::
          [Event.unlink "a"] ∧
      (([] : List CodecCall) = [] ∧
        r.ret = (⟨2, 3, 69, ⟨QZ_FAIL, 1, [9]⟩⟩ : CodecCall).resp.ret ∧
        r.dst_file = [] ++ [(⟨0, 5, 69, ⟨QZ_OK, 2, [1]⟩⟩ : CodecCall)].flatMap (·.resp.dst) ∧
        r.src_len =
          ([(⟨0, 5, 69, ⟨QZ_OK, 2, [1]⟩⟩ : CodecCall)].map (·.resp.src_len)).sum % U32 ∧
        r.dst_file_size =
          (0 + ([(⟨0, 5, 69, ⟨QZ_OK, 2, [1]⟩⟩ : CodecCall)].map (·.resp.dst.length)).sum) %
            U32) ∧
      res.outcome = Outcome.exited ERROR ∧ res.stats = none ∧
      [Event.unlink "a"] = (if false then [] else [Event.unlink "a"]) ∧
      (∀ e ∈ [Event.malloc 5, Event.malloc 69, Event.fopen "a" "r", Event.fopen "b" "w",
          Event.fread 0 5], ¬ fatalSlice e) :=
  ⟨by decide, by decide, by decide, by decide, _, _, rfl, by decide, rfl, by decide,
    (C6_fatal_status_aborts (scriptEnv fun _ => 0) true (fun _ => 0) 69 0
      (bufState5 [⟨QZ_FAIL, 1, [9]⟩])
      2 ⟨[⟨QZ_OK, 2, [1]⟩, ⟨QZ_FAIL, 1, [9]⟩], 0⟩ (fun _ => 0) 5 69 [] [] 0 _
      [⟨0, 5, 69, ⟨QZ_OK, 2, [1]⟩⟩] [] ⟨2, 3, 69, ⟨QZ_FAIL, 1, [9]⟩⟩
      2 false ⟨[⟨QZ_OK, 2, [1]⟩, ⟨QZ_FAIL, 1, [9]⟩], 0⟩
      "a" "b" (some file5) true _
      [Event.malloc 5, Event.malloc 69, Event.fopen "a" "r", Event.fopen "b" "w",
        Event.fread 0 5]
      [Event.unlink "a"] [⟨0, 5, 69, ⟨QZ_OK, 2, [1]⟩⟩, ⟨2, 3, 69, ⟨QZ_FAIL, 1, [9]⟩⟩] QZ_FAIL 2
      (by decide) rfl (by decide) (by decide) (by decide) rfl (by decide) (by decide)).2⟩

/-- C7: in decompress mode, when a codec call returns `QZ_DATA_ERROR` the loop of
`doProcessBuffer` ends with that call (one more unit of fuel gives the result), after
writing its output and counting its consumed bytes. In every run of `doProcessBuffer`, a
call that returned `QZ_DATA_ERROR` is the last one; the function returns
`QZ_DATA_ERROR`; the total stored back in `*src_len` is the sum of the consumed counts
of all the calls made, in 32-bit arithmetic, and exactly that sum when no call reported
more than it was given; the destination stream is what it was, followed by the output
of the earlier calls and of the faulting call. -/
theorem C7_data_error_ends_slice {σ : Type} (env : Env σ) (src_buffer : Nat → UInt8)
    (v bfuel : Nat) (st : BufState σ) (fuel : Nat) (sess : σ) (src : Nat → UInt8)
    (n dst_len : Nat) (time_list : List RunTimeList_T) (dst_file : List UInt8)
    (dst_file_size : Nat) (r : BufResult σ) (cpre cpost : List CodecCall) (c : CodecCall)
    (hcall : (codecAt env false src_buffer st).1.ret = QZ_DATA_ERROR)
    (hrun : doProcessBuffer env fuel sess src n dst_len time_list dst_file dst_file_size
      false = some r)
    (hsplit : r.calls = cpre ++ c :: cpost)
    (hde : c.resp.ret = QZ_DATA_ERROR) :
    doProcessBufferLoop env false src_buffer v (bfuel + 1) st =
      some
        { sess := (env.gettimeofday (codecAt env false src_buffer st).2).2
          ret := QZ_DATA_ERROR
          buf_processed := (st.buf_processed + (codecAt env false src_buffer st).1.src_len) % U32
          buf_remaining :=
            (st.buf_remaining + U32 - (codecAt env false src_buffer st).1.src_len % U32) % U32
          src := st.src + (codecAt env false src_buffer st).1.src_len
          src_len :=
            (st.buf_remaining + U32 - (codecAt env false src_buffer st).1.src_len % U32) % U32
          dst_len := v
          time_list := st.time_list ++
            [⟨(env.gettimeofday st.sess).1,
              (env.gettimeofday (codecAt env false src_buffer st).2).1⟩]
          dst_file := st.dst_file ++ (codecAt env false src_buffer st).1.dst
          dst_file_size :=
            (st.dst_file_size + (codecAt env false src_buffer st).1.dst.length) % U32
          calls := st.calls ++
            [⟨st.src, st.src_len, st.dst_len, (codecAt env false src_buffer st).1⟩] } ∧
    cpost = [] ∧ r.ret = QZ_DATA_ERROR ∧
    r.src_len = (r.calls.map (·.resp.src_len)).sum % U32 ∧
    ((∀ x ∈ r.calls, x.resp.src_len ≤ x.src_len) → n < U32 →
      r.src_len = (r.calls.map (·.resp.src_len)).sum) ∧
    r.dst_file = dst_file ++ cpre.flatMap (·.resp.dst) ++ c.resp.dst := by
  have hD : ¬ fatalStatus QZ_DATA_ERROR := by intro h; exact h.2.2 rfl
  constructor
  · have hf : ¬ fatalStatus (codecAt env false src_buffer st).1.ret := by rw [hcall]; exact hD
    rw [loop_succ, body_nonfatal env false src_buffer v st hf]
    simp only [hcall, Bool.not_false, Bool.true_and, decide_True, Bool.true_or, if_true]
  · unfold doProcessBuffer at hrun
    simp only [Option.map_eq_some'] at hrun
    obtain ⟨fin, hfin, rfl⟩ := hrun
    simp only at hsplit ⊢
    obtain ⟨l, c', g1, g2, g3, g4, g5, -⟩ := loop_trace env false src dst_len fuel _ fin hfin
    have g5 := g5 (by show (0 : Nat) < U32; decide)
    simp only [List.nil_append, Nat.zero_add] at g1 g5
    have hsp : l ++ c' :: [] = cpre ++ c :: cpost := by rw [← hsplit, g1]
    obtain ⟨e1, e2, e3⟩ := split_unique (fun x : CodecCall => x.resp.ret = QZ_DATA_ERROR)
      l cpre c' c [] cpost hsp (fun x hx => (g2 x hx).2 rfl) (by simp) hde
    subst e1 e2 e3
    have hnf : ∀ x ∈ cpre ++ [c], ¬ fatalStatus x.resp.ret := by
      intro x hx
      rcases List.mem_append.1 hx with hx | hx
      · exact (g2 x hx).1
      · rw [List.mem_singleton.1 hx, hde]; exact hD
    refine ⟨rfl, by rw [g3, hde], ?_, ?_, ?_⟩
    · rw [g5, consumedOf_nonfatal _ hnf, g1]
    · intro hcalls hn
      obtain ⟨l', k1, k2, -, -⟩ := loop_exact env false src dst_len n hn fuel _ fin hfin rfl
        (by simp) hcalls
      simp only [List.nil_append, Nat.zero_add] at k1 k2
      rw [k2, ← k1, g1, consumedOf_nonfatal _ hnf]
    · rw [g4, writtenOf_nonfatal _ hnf]
      simp

theorem C7_data_error_ends_slice_witness :
    (codecAt (scriptEnv fun _ => 0) false (fun _ => 0)
      (bufState5 [⟨QZ_DATA_ERROR, 1, [9]⟩])).1.ret = QZ_DATA_ERROR ∧
    ∃ r : BufResult ScriptState,
      doProcessBuffer (scriptEnv fun _ => 0) 2
        ⟨[⟨QZ_OK, 2, [1]⟩, ⟨QZ_DATA_ERROR, 1, [9]⟩], 0⟩ (fun _ => 0) 5 69 [] [] 0 false =
        some r ∧
      r.calls = [⟨0, 5, 69, ⟨QZ_OK, 2, [1]⟩⟩] ++ ⟨2, 3, 69, ⟨QZ_DATA_ERROR, 1, [9]⟩⟩ :: [] ∧
      ([] : List CodecCall) = [] ∧ r.ret = QZ_DATA_ERROR ∧
      r.src_len = (r.calls.map (·.resp.src_len)).sum % U32 ∧
      ((∀ x ∈ r.calls, x.resp.src_len ≤ x.src_len) → 5 < U32 →
        r.src_len = (r.calls.map (·.resp.src_len)).sum) ∧
      r.dst_file = [] ++ [(⟨0, 5, 69, ⟨QZ_OK, 2, [1]⟩⟩ : CodecCall)].flatMap (·.resp.dst) ++
        (⟨2, 3, 69, ⟨QZ_DATA_ERROR, 1, [9]⟩⟩ : CodecCall).resp.dst :=
  ⟨by decide, _, rfl, by decide,
    (C7_data_error_ends_slice (scriptEnv fun _ => 0) (fun _ => 0) 69 0
      (bufState5 [⟨QZ_DATA_ERROR, 1, [9]⟩]) 2 ⟨[⟨QZ_OK, 2, [1]⟩, ⟨QZ_DATA_ERROR, 1, [9]⟩], 0⟩
      (fun _ => 0) 5 69 [] [] 0 _ [⟨0, 5, 69, ⟨QZ_OK, 2, [1]⟩⟩] []
      ⟨2, 3, 69, ⟨QZ_DATA_ERROR, 1, [9]⟩⟩ (by decide) rfl (by decide) (by decide)).2⟩

/-- Every pass through the body of the main loop starts by reading at the position of
the source. -/
theorem fileStep_reads_at {σ : Type} (env : Env σ) (is_compress : Bool) (f : SrcFile)
    (B D bfuel : Nat) (st st1 : FileState σ) (flag : Bool)
    (h : doProcessFileStep env f B D is_compress bfuel st = some (flag, st1)) :
    ∃ tail, st1.events = st.events ++
      Event.fread st.src_pos (fread f st.src_pos st.src_buffer B).1 :: tail := by
  obtain ⟨r, hr⟩ := fileStep_some_inv env is_compress f B D bfuel st _ h
  obtain ⟨flag', st', h', -, -, -, -, -, -, hc⟩ :=
    fileStep_spec env is_compress f B D bfuel st r hr
  rw [h] at h'
  injection h' with h'
  injection h' with hf hs
  subst hf hs
  rcases hc with g | g | g | g | g
  · exact ⟨_, g.2.2.2.2⟩
  · exact ⟨_, g.2.2.2.2.2⟩
  · exact ⟨_, g.2.2.2.2.2.2.2.2⟩
  · exact ⟨_, g.2.2.2.2⟩
  · exact ⟨_, g.2.2.2.2.2.2⟩

/-- C8, amended: when `doProcessBuffer` returns `QZ_DATA_ERROR` in the main loop of
`doProcessFile`: if the slice consumed zero bytes or `fseek` fails, the loop is left by
`goto exit` with `ret = ERROR` and the run ends with `exit(ERROR)`; otherwise the source
is repositioned at `bytes_processed`, `file_remaining` is reduced by the consumed amount
and `ret` keeps `QZ_DATA_ERROR`. Then, if bytes remain, the loop goes on with the next
slice, which it reads at the new position; if no byte remains, the loop ends and, once
`displayStats` has returned, the code from the label `exit` on ends the run with
`exit(QZ_DATA_ERROR)`. -/
theorem C8_data_error_resume_or_abort {σ : Type} (env : Env σ) (is_compress : Bool)
    (f : SrcFile) (B D bfuel k : Nat) (st : FileState σ) (r : BufResult σ)
    (hrem : st.file_remaining ≠ 0)
    (hbuf : doProcessBuffer env bfuel st.sess (fread f st.src_pos st.src_buffer B).2
      (fread f st.src_pos st.src_buffer B).1 D st.time_list st.dst_file st.dst_file_size
      is_compress = some r)
    (hret : r.ret = QZ_DATA_ERROR) :
    ((r.src_len = 0 ∨ env.fseek ((st.bytes_processed + r.src_len) % U32) = -1) →
      ∃ st1, doProcessFileLoop env f B D is_compress bfuel (k + 1) st = some (true, st1) ∧
        st1.ret = ERROR ∧
        ∀ name g_keep, (doProcessFileExit name g_keep st1 none).outcome =
          Outcome.exited ERROR) ∧
    ((r.src_len ≠ 0 ∧ env.fseek ((st.bytes_processed + r.src_len) % U32) ≠ -1) →
      ∃ st1, doProcessFileStep env f B D is_compress bfuel st = some (false, st1) ∧
        doProcessFileLoop env f B D is_compress bfuel (k + 1) st =
          doProcessFileLoop env f B D is_compress bfuel k st1 ∧
        st1.src_pos = (st.bytes_processed + r.src_len) % U32 ∧
        st1.bytes_processed = (st.bytes_processed + r.src_len) % U32 ∧
        st1.file_remaining = (st.file_remaining + U32 - r.src_len % U32) % U32 ∧
        (r.src_len ≤ st.file_remaining → st.file_remaining < U32 →
          st1.file_remaining = st.file_remaining - r.src_len) ∧
        st1.events = st.events ++
          [Event.fread st.src_pos (fread f st.src_pos st.src_buffer B).1,
            Event.processBuffer r.calls r.ret r.src_len,
            Event.fseek ((st.bytes_processed + r.src_len) % U32)
              (env.fseek ((st.bytes_processed + r.src_len) % U32))] ∧
        st1.ret = QZ_DATA_ERROR ∧
        (st1.file_remaining ≠ 0 →
          doProcessFileLoop env f B D is_compress bfuel (k + 2) st =
            (doProcessFileStep env f B D is_compress bfuel st1).bind
              (fun p => if p.1 then some p
                else doProcessFileLoop env f B D is_compress bfuel k p.2) ∧
          ∀ flag st2, doProcessFileStep env f B D is_compress bfuel st1 = some (flag, st2) →
            ∃ tail, st2.events = st1.events ++
              Event.fread ((st.bytes_processed + r.src_len) % U32)
                (fread f st1.src_pos st1.src_buffer B).1 :: tail) ∧
        (st1.file_remaining = 0 →
          doProcessFileLoop env f B D is_compress bfuel (k + 1) st = some (false, st1) ∧
          ∀ name g_keep events stats,
            (doProcessFileExit name g_keep { st1 with events := events } stats).outcome =
              Outcome.exited QZ_DATA_ERROR)) := by
  obtain ⟨flag, st1, h1, -, -, -, -, -, -, hc⟩ :=
    fileStep_spec env is_compress f B D bfuel st r hbuf
  have hne : ¬ (r.ret = QZ_OK) := by rw [hret]; decide
  have hloopT : ∀ s1, doProcessFileStep env f B D is_compress bfuel st = some (true, s1) →
      doProcessFileLoop env f B D is_compress bfuel (k + 1) st = some (true, s1) := by
    intro s1 hs
    simp only [doProcessFileLoop, if_neg hrem, hs]
  have hloopF : ∀ (j : Nat) s1,
      doProcessFileStep env f B D is_compress bfuel st = some (false, s1) →
      doProcessFileLoop env f B D is_compress bfuel (j + 1) st =
        doProcessFileLoop env f B D is_compress bfuel j s1 := by
    intro j s1 hs
    simp only [doProcessFileLoop, if_neg hrem, hs]
  constructor
  · intro hfail
    rcases hc with g | g | g | g | g
    · obtain ⟨-, -, g3, g4, -⟩ := g
      subst g3
      refine ⟨st1, hloopT st1 h1, g4, ?_⟩
      intro name g_keep
      simp only [doProcessFileExit, g4]; rfl
    · obtain ⟨-, -, -, g3, g4, -⟩ := g
      subst g3
      refine ⟨st1, hloopT st1 h1, g4, ?_⟩
      intro name g_keep
      simp only [doProcessFileExit, g4]; rfl
    · obtain ⟨-, g2, g3, -⟩ := g
      rcases hfail with h | h
      · exact absurd h g2
      · exact absurd h g3
    · exact absurd hret g.1
    · exact absurd g.1 hne
  · intro hok
    rcases hc with g | g | g | g | g
    · exact absurd g.2.1 hok.1
    · exact absurd g.2.2.1 hok.2
    · obtain ⟨-, -, -, g3, g4, g5, g6, g7, g8⟩ := g
      subst g3
      have hr1 : st1.ret = QZ_DATA_ERROR := by rw [g4, hret]
      refine ⟨st1, h1, hloopF k st1 h1, g5, g6, g7, ?_, g8, hr1, ?_, ?_⟩
      · intro ha hb
        have hU : U32 = 4294967296 := rfl
        rw [g7]
        rw [hU] at hb ⊢
        omega
      · intro hmore
        constructor
        · rw [hloopF (k + 1) st1 h1]
          cases hs : doProcessFileStep env f B D is_compress bfuel st1 with
          | none => simp only [doProcessFileLoop, if_neg hmore, hs, Option.none_bind]
          | some p =>
            rcases p with ⟨_ | _, s2⟩
            · simp only [doProcessFileLoop, if_neg hmore, hs, Option.some_bind,
                Bool.false_eq_true, if_false]
            · simp only [doProcessFileLoop, if_neg hmore, hs, Option.some_bind, if_true]
        · intro flag st2 hs
          rw [← g5]
          exact fileStep_reads_at env is_compress f B D bfuel st1 st2 flag hs
      · intro hdone
        refine ⟨?_, ?_⟩
        · rw [hloopF k st1 h1]
          cases k with
          | zero => simp only [doProcessFileLoop, if_pos hdone]
          | succ j => simp only [doProcessFileLoop, if_pos hdone]
        · intro name g_keep events stats
          simp only [doProcessFileExit, hr1]
          rfl
    · exact absurd hret g.1
    · exact absurd g.1 hne

theorem C8_data_error_resume_or_abort_witness :
    (∃ (r : BufResult ScriptState) (st1 : FileState ScriptState),
      (fileState5 [⟨QZ_DATA_ERROR, 2, [7]⟩] false).file_remaining ≠ 0 ∧
      doProcessBuffer (scriptEnv fun _ => 0) 1 (fileState5 [⟨QZ_DATA_ERROR, 2, [7]⟩] false).sess
        (fread file5 (fileState5 [⟨QZ_DATA_ERROR, 2, [7]⟩] false).src_pos
          (fileState5 [⟨QZ_DATA_ERROR, 2, [7]⟩] false).src_buffer 5).2
        (fread file5 (fileState5 [⟨QZ_DATA_ERROR, 2, [7]⟩] false).src_pos
          (fileState5 [⟨QZ_DATA_ERROR, 2, [7]⟩] false).src_buffer 5).1 25
        (fileState5 [⟨QZ_DATA_ERROR, 2, [7]⟩] false).time_list
        (fileState5 [⟨QZ_DATA_ERROR, 2, [7]⟩] false).dst_file
        (fileState5 [⟨QZ_DATA_ERROR, 2, [7]⟩] false).dst_file_size false = some r ∧
      r.ret = QZ_DATA_ERROR ∧ r.src_len = 2 ∧
      doProcessFileStep (scriptEnv fun _ => 0) file5 5 25 false 1
        (fileState5 [⟨QZ_DATA_ERROR, 2, [7]⟩] false) = some (false, st1) ∧
      st1.src_pos = 2 ∧ st1.file_remaining = 3 ∧ st1.ret = QZ_DATA_ERROR ∧
      doProcessFileLoop (scriptEnv fun _ => 0) file5 5 25 false 1 (0 + 2)
          (fileState5 [⟨QZ_DATA_ERROR, 2, [7]⟩] false) =
        (doProcessFileStep (scriptEnv fun _ => 0) file5 5 25 false 1 st1).bind
          (fun p => if p.1 then some p
            else doProcessFileLoop (scriptEnv fun _ => 0) file5 5 25 false 1 0 p.2)) ∧
    (∃ (r : BufResult ScriptState) (st1 : FileState ScriptState),
      (fileState5 [⟨QZ_DATA_ERROR, 5, [1]⟩] false).file_remaining ≠ 0 ∧
      doProcessBuffer (scriptEnv fun _ => 0) 1 (fileState5 [⟨QZ_DATA_ERROR, 5, [1]⟩] false).sess
        (fread file5 (fileState5 [⟨QZ_DATA_ERROR, 5, [1]⟩] false).src_pos
          (fileState5 [⟨QZ_DATA_ERROR, 5, [1]⟩] false).src_buffer 5).2
        (fread file5 (fileState5 [⟨QZ_DATA_ERROR, 5, [1]⟩] false).src_pos
          (fileState5 [⟨QZ_DATA_ERROR, 5, [1]⟩] false).src_buffer 5).1 25
        (fileState5 [⟨QZ_DATA_ERROR, 5, [1]⟩] false).time_list
        (fileState5 [⟨QZ_DATA_ERROR, 5, [1]⟩] false).dst_file
        (fileState5 [⟨QZ_DATA_ERROR, 5, [1]⟩] false).dst_file_size false = some r ∧
      r.ret = QZ_DATA_ERROR ∧ r.src_len = 5 ∧
      st1.src_pos = 5 ∧ st1.file_remaining = 0 ∧
      doProcessFileLoop (scriptEnv fun _ => 0) file5 5 25 false 1 (0 + 1)
          (fileState5 [⟨QZ_DATA_ERROR, 5, [1]⟩] false) = some (false, st1) ∧
      (doProcessFileExit "a" false { st1 with events := [] } none).outcome =
        Outcome.exited QZ_DATA_ERROR) := by
  constructor
  · obtain ⟨st1, h1, -, h3, -, h5, -, -, h8, h9, -⟩ :=
      (C8_data_error_resume_or_abort (scriptEnv fun _ => 0) false file5 5 25 1 0
        (fileState5 [⟨QZ_DATA_ERROR, 2, [7]⟩] false) _ (by decide) rfl rfl).2
        ⟨by decide, by decide⟩
    exact ⟨_, st1, by decide, rfl, rfl, by decide, h1, h3.trans (by decide),
      h5.trans (by decide), h8, (h9 (by rw [h5]; decide)).1⟩
  · obtain ⟨st1, -, -, h3, -, h5, -, -, -, -, h10⟩ :=
      (C8_data_error_resume_or_abort (scriptEnv fun _ => 0) false file5 5 25 1 0
        (fileState5 [⟨QZ_DATA_ERROR, 5, [1]⟩] false) _ (by decide) rfl rfl).2
        ⟨by decide, by decide⟩
    have h0 : st1.file_remaining = 0 := h5.trans (by decide)
    exact ⟨_, st1, by decide, rfl, rfl, by decide, h3.trans (by decide), h0, (h10 h0).1,
      (h10 h0).2 "a" false [] none⟩

/-- C8, counterexample: decompressing a file of five bytes whose only slice ends with
`QZ_DATA_ERROR` after all five bytes were consumed, with a successful `fseek`: no next
slice is read, the statistics are displayed and the run ends with `exit(QZ_DATA_ERROR)`,
a status other than `ERROR`. -/
theorem C8_counterexample :
    (doProcessFile (scriptEnv fun _ => 0) 1 false ⟨[⟨QZ_DATA_ERROR, 5, [1]⟩], 0⟩ "a" "b"
        (some file5) false).map (fun res => (res.outcome, res.dst_file, res.events)) =
      some (Outcome.exited QZ_DATA_ERROR, some [1],
        [Event.malloc 5, Event.malloc 25, Event.fopen "a" "r", Event.fopen "b" "w",
          Event.fread 0 5,
          Event.processBuffer [⟨0, 5, 25, ⟨QZ_DATA_ERROR, 5, [1]⟩⟩] QZ_DATA_ERROR 5,
          Event.fseek 5 0, Event.displayStats 5 1, Event.unlink "a"]) ∧
    QZ_DATA_ERROR ≠ ERROR := by
  decide

/-- C9: for a source larger than `UINT_MAX` bytes `doProcessFile` ends with
`exit(ERROR)` without any recorded call (no buffer allocated, no file opened, no codec
call, nothing written, no `unlink`) and with the destination untouched; a size up to
`UINT_MAX` is kept whole by `GET_LOWER_32BITS`, and every run on such a file opens the
destination after allocating both buffers. -/
theorem C9_oversized_file_rejected {σ : Type} (env : Env σ) (fuel : Nat) (g_keep : Bool)
    (sess : σ) (src_file_name dst_file_name : String) (f : SrcFile) (is_compress : Bool) :
    (UINT_MAX < f.st_size →
      doProcessFile env fuel g_keep sess src_file_name dst_file_name (some f) is_compress =
        some ⟨Outcome.exited ERROR, (env.gettimeofday sess).2, none, [], none⟩) ∧
    (f.st_size ≤ UINT_MAX →
      GET_LOWER_32BITS f.st_size = f.st_size ∧
      ∀ res,
        doProcessFile env fuel g_keep sess src_file_name dst_file_name (some f) is_compress =
          some res →
        res.dst_file ≠ none ∧
        ∃ rest, res.events =
          [Event.malloc (srcBufferSize f.st_size),
            Event.malloc (dstBufferSize env is_compress (srcBufferSize f.st_size)),
            Event.fopen src_file_name "r", Event.fopen dst_file_name "w"] ++ rest) := by
  constructor
  · intro h
    unfold doProcessFile
    simp only [gt_iff_lt, h, if_true]
  · intro h
    have hg : GET_LOWER_32BITS f.st_size = f.st_size := by
      have hU : U32 = 4294967296 := rfl
      have hM : UINT_MAX = 4294967295 := rfl
      unfold GET_LOWER_32BITS; rw [hU]; omega
    refine ⟨hg, ?_⟩
    intro res hrun
    rcases doProcessFile_events env fuel g_keep sess src_file_name dst_file_name (some f)
      is_compress res hrun with ⟨-, h1 | ⟨f', h1, h2⟩⟩ | ⟨f', new, tail, h1, -, h3, -, h5, -⟩
    · exact absurd h1 (by simp)
    · injection h1 with h1; subst h1; omega
    · injection h1 with h1; subst h1
      refine ⟨h5, new ++ tail, ?_⟩
      rw [h3, hg, List.append_assoc]
      rfl

theorem C9_oversized_file_rejected_witness :
    (UINT_MAX < (⟨4294967296, fun _ => 0⟩ : SrcFile).st_size ∧
      doProcessFile greedyEnv 1 false 0 "a" "b" (some ⟨4294967296, fun _ => 0⟩) true =
        some ⟨Outcome.exited ERROR, (greedyEnv.gettimeofday 0).2, none, [], none⟩) ∧
    (file5.st_size ≤ UINT_MAX ∧
      GET_LOWER_32BITS file5.st_size = file5.st_size ∧
      ∀ res,
        doProcessFile greedyEnv 5 false 0 "a" "b" (some file5) true = some res →
        res.dst_file ≠ none ∧
        ∃ rest, res.events =
          [Event.malloc (srcBufferSize file5.st_size),
            Event.malloc (dstBufferSize greedyEnv true (srcBufferSize file5.st_size)),
            Event.fopen "a" "r", Event.fopen "b" "w"] ++ rest) :=
  ⟨⟨by decide,
      (C9_oversized_file_rejected greedyEnv 1 false 0 "a" "b" ⟨4294967296, fun _ => 0⟩
        true).1 (by decide)⟩,
    ⟨by decide,
      (C9_oversized_file_rejected greedyEnv 5 false 0 "a" "b" file5 true).2 (by decide)⟩⟩

/-- C10: in every run of `doProcessFile`, with `g_keep` set nothing is unlinked; for a
run that gets past the size check and does not abort on an assertion, the source is
unlinked if and only if `g_keep` is clear, and then the `unlink` of the source is the
last recorded call and the only `unlink`. -/
theorem C10_unlink_iff_not_keep {σ : Type} (env : Env σ) (fuel : Nat) (g_keep : Bool)
    (sess : σ) (src_file_name dst_file_name : String) (src : Option SrcFile)
    (is_compress : Bool) (res : FileResult σ)
    (hrun : doProcessFile env fuel g_keep sess src_file_name dst_file_name src is_compress =
      some res) :
    (g_keep = true → ∀ name, Event.unlink name ∉ res.events) ∧
    (∀ f, src = some f → f.st_size ≤ UINT_MAX → res.outcome ≠ Outcome.aborted →
      ((Event.unlink src_file_name ∈ res.events ↔ g_keep = false) ∧
        (g_keep = false →
          ∃ pre, res.events = pre ++ [Event.unlink src_file_name] ∧
            ∀ name, Event.unlink name ∉ pre))) := by
  have hloopEv : ∀ (l : List Event), (∀ e ∈ l, loopEvent e = true) →
      ∀ name, Event.unlink name ∉ l := by
    intro l hl name hmem
    have := hl _ hmem
    simp [loopEvent] at this
  have hinit : ∀ (S : Nat) name, Event.unlink name ∉
      (doProcessFileInit env (env.gettimeofday sess).2 (env.gettimeofday sess).1
        src_file_name dst_file_name S is_compress).events := by
    intro S name
    simp [doProcessFileInit]
  rcases doProcessFile_events env fuel g_keep sess src_file_name dst_file_name src
    is_compress res hrun with ⟨h0, h1⟩ | ⟨f', new, tail, h1, h2, h3, h4, -, h6⟩
  · subst h0
    refine ⟨fun _ name => by simp, ?_⟩
    intro f hf hsz
    rcases h1 with h1 | ⟨f', h1, h2⟩
    · rw [h1] at hf; exact absurd hf (by simp)
    · rw [h1] at hf; injection hf with hf; subst hf; omega
  · have hpre : ∀ name, Event.unlink name ∉
        (doProcessFileInit env (env.gettimeofday sess).2 (env.gettimeofday sess).1
          src_file_name dst_file_name (GET_LOWER_32BITS f'.st_size) is_compress).events ++ new := by
      intro name hmem
      rcases List.mem_append.1 hmem with hm | hm
      · exact hinit _ name hm
      · exact hloopEv new h4 name hm
    have hpre' : ∀ a b name, Event.unlink name ∉
        (doProcessFileInit env (env.gettimeofday sess).2 (env.gettimeofday sess).1
          src_file_name dst_file_name (GET_LOWER_32BITS f'.st_size) is_compress).events ++ new ++
          [Event.displayStats a b] := by
      intro a b name hmem
      rcases List.mem_append.1 hmem with hm | hm
      · exact hpre name hm
      · simp at hm
    constructor
    · intro hk name hmem
      rw [h3] at hmem
      rcases List.mem_append.1 hmem with hm | hm
      · exact hpre name hm
      · rcases h6 with ⟨h7, -⟩ | ⟨⟨a, b, h7⟩, -⟩ | ⟨⟨a, b, h7⟩, -⟩
        · rw [h7, hk] at hm; simp at hm
        · rw [h7] at hm; simp at hm
        · rw [h7, hk] at hm; simp at hm
    · intro f _ _ hout
      rcases h6 with ⟨h7, -⟩ | ⟨-, h8⟩ | ⟨⟨a, b, h7⟩, -⟩
      · rw [h3, h7]
        cases g_keep
        · refine ⟨by simp, fun _ => ⟨_, rfl, hpre⟩⟩
        · refine ⟨?_, fun h => absurd h (by simp)⟩
          simp only [if_true, List.append_nil]
          constructor
          · intro hm; exact absurd hm (hpre _)
          · intro h; exact absurd h (by simp)
      · exact absurd h8 hout
      · rw [h3, h7]
        cases g_keep
        · refine ⟨by simp, fun _ => ⟨_, ?_, hpre' a b⟩⟩
          simp
        · refine ⟨?_, fun h => absurd h (by simp)⟩
          simp only [if_true]
          constructor
          · intro hm; exact absurd hm (hpre' a b _)
          · intro h; exact absurd h (by simp)

theorem C10_unlink_iff_not_keep_witness :
    ∃ res,
      doProcessFile (scriptEnv fun _ => 0) 1 false ⟨[⟨QZ_OK, 5, [1, 2]⟩], 0⟩ "a" "b"
        (some file5) true = some res ∧
      file5.st_size ≤ UINT_MAX ∧ res.outcome ≠ Outcome.aborted ∧
      (Event.unlink "a" ∈ res.events ↔ false = false) ∧
      (false = false →
        ∃ pre, res.events = pre ++ [Event.unlink "a"] ∧ ∀ name, Event.unlink name ∉ pre) :=
  ⟨_, rfl, by decide, by decide,
    (C10_unlink_iff_not_keep (scriptEnv fun _ => 0) 1 false ⟨[⟨QZ_OK, 5, [1, 2]⟩], 0⟩ "a" "b"
      (some file5) true _ rfl).2 file5 rfl (by decide) (by decide)⟩

/-! ## Statistics, output, capacity and ledger -/

theorem sumUsDiff_eq (l : List RunTimeList_T) (h : ∀ e ∈ l, usOf e.time_s ≤ usOf e.time_e) :
    sumUsDiff l = (l.map (fun e => usOf e.time_e - usOf e.time_s)).sum := by
  induction l with
  | nil => rfl
  | cons e l ih =>
    have h1 := h e (List.mem_cons_self _ _)
    have h2 := usOf_lt e.time_e
    have hU : U64 = 18446744073709551616 := rfl
    rw [sumUsDiff, ih (fun x hx => h x (List.mem_cons_of_mem _ hx)), List.map_cons,
      List.sum_cons]
    congr 1
    rw [hU] at h2 ⊢
    omega

theorem writtenStatus_iff (ret : Int) : writtenStatus ret = true ↔ ¬ fatalStatus ret := by
  unfold writtenStatus fatalStatus
  rw [decide_eq_true_iff]
  constructor
  · rintro (h | h | h) ⟨h1, h2, h3⟩
    · exact h1 h
    · exact h2 h
    · exact h3 h
  · intro h
    by_cases h1 : ret = QZ_OK
    · exact Or.inl h1
    · by_cases h2 : ret = QZ_BUF_ERROR
      · exact Or.inr (Or.inl h2)
      · by_cases h3 : ret = QZ_DATA_ERROR
        · exact Or.inr (Or.inr h3)
        · exact absurd ⟨h1, h2, h3⟩ h

theorem writtenOf_eq_filter (l : List CodecCall) :
    writtenOf l = (l.filter (fun c => writtenStatus c.resp.ret)).flatMap (·.resp.dst) := by
  induction l with
  | nil => rfl
  | cons c l ih =>
    by_cases hf : fatalStatus c.resp.ret
    · have hw : writtenStatus c.resp.ret = false := by
        rw [Bool.eq_false_iff]; intro h; exact (writtenStatus_iff _).1 h hf
      rw [writtenOf, if_pos hf, List.filter_cons_of_neg (by simp [hw]), ih, List.nil_append]
    · have hw : writtenStatus c.resp.ret = true := (writtenStatus_iff _).2 hf
      rw [writtenOf, if_neg hf, List.filter_cons_of_pos (by simp [hw]), ih, List.flatMap_cons]

theorem body_dst_file {σ : Type} (env : Env σ) (is_compress : Bool)
    (src_buffer : Nat → UInt8) (v : Nat) (st : BufState σ) :
    (doProcessBufferBody env is_compress src_buffer v st).2.dst_file =
      st.dst_file ++
        (if writtenStatus (codecAt env is_compress src_buffer st).1.ret then
          (codecAt env is_compress src_buffer st).1.dst else []) := by
  by_cases hf : fatalStatus (codecAt env is_compress src_buffer st).1.ret
  · have hw : writtenStatus (codecAt env is_compress src_buffer st).1.ret = false := by
      rw [Bool.eq_false_iff]; intro h; exact (writtenStatus_iff _).1 h hf
    rw [body_fatal env is_compress src_buffer v st hf, hw]
    simp
  · have hw := (writtenStatus_iff _).2 hf
    rw [body_nonfatal env is_compress src_buffer v st hf, hw]
    simp

theorem loop_dst_len {σ : Type} (env : Env σ) (is_compress : Bool) (src_buffer : Nat → UInt8)
    (v : Nat) : ∀ (fuel : Nat) (st r : BufState σ),
    doProcessBufferLoop env is_compress src_buffer v fuel st = some r →
    st.dst_len = v → (∀ c ∈ st.calls, c.dst_len = v) → ∀ c ∈ r.calls, c.dst_len = v := by
  intro fuel
  induction fuel with
  | zero => intro st r h; simp [doProcessBufferLoop] at h
  | succ k ih =>
    intro st r h hd hc
    have hcalls : ∀ c ∈ (doProcessBufferBody env is_compress src_buffer v st).2.calls,
        c.dst_len = v := by
      intro c hm
      rw [body_calls] at hm
      rcases List.mem_append.1 hm with hm | hm
      · exact hc c hm
      · rw [List.mem_singleton.1 hm]; exact hd
    rw [loop_succ] at h
    split at h
    · injection h with h; subst h; exact hcalls
    · rename_i hflag
      refine ih _ _ h ?_ hcalls
      by_cases hf : fatalStatus (codecAt env is_compress src_buffer st).1.ret
      · rw [body_fatal env is_compress src_buffer v st hf] at hflag
        exact absurd rfl hflag
      · rw [body_nonfatal env is_compress src_buffer v st hf]

theorem body_time_list {σ : Type} (env : Env σ) (is_compress : Bool)
    (src_buffer : Nat → UInt8) (v : Nat) (st : BufState σ) :
    ∃ e, (doProcessBufferBody env is_compress src_buffer v st).2.time_list =
        st.time_list ++ [e] ∧ e.time_s = (env.gettimeofday st.sess).1 := by
  by_cases hf : fatalStatus (codecAt env is_compress src_buffer st).1.ret
  · rw [body_fatal env is_compress src_buffer v st hf]; exact ⟨_, rfl, rfl⟩
  · rw [body_nonfatal env is_compress src_buffer v st hf]; exact ⟨_, rfl, rfl⟩

theorem loop_time_list {σ : Type} (env : Env σ) (is_compress : Bool)
    (src_buffer : Nat → UInt8) (v : Nat) : ∀ (fuel : Nat) (st r : BufState σ),
    doProcessBufferLoop env is_compress src_buffer v fuel st = some r →
    ∃ new l, r.time_list = st.time_list ++ new ∧ r.calls = st.calls ++ l ∧
      new.length = l.length := by
  intro fuel
  induction fuel with
  | zero => intro st r h; simp [doProcessBufferLoop] at h
  | succ k ih =>
    intro st r h
    obtain ⟨e, he, -⟩ := body_time_list env is_compress src_buffer v st
    rw [loop_succ] at h
    split at h
    · injection h with h; subst h
      exact ⟨[e], _, he, body_calls env is_compress src_buffer v st, rfl⟩
    · obtain ⟨new, l, h1, h2, h3⟩ := ih _ _ h
      rw [he] at h1
      rw [body_calls] at h2
      exact ⟨e :: new,
        ⟨st.src, st.src_len, st.dst_len, (codecAt env is_compress src_buffer st).1⟩ :: l,
        by rw [h1]; simp, by rw [h2]; simp, by simp [h3]⟩

/-! ## Termination of the loop of `doProcessBuffer` -/

section Termination
variable {σ : Type} (env : Env σ) (is_compress : Bool) (src_buffer : Nat → UInt8) (v : Nat)

theorem body_flag (st : BufState σ) :
    (doProcessBufferBody env is_compress src_buffer v st).1 = true ↔
      endsLoop is_compress st.buf_remaining (codecAt env is_compress src_buffer st).1 := by
  by_cases hf : fatalStatus (codecAt env is_compress src_buffer st).1.ret
  · rw [body_fatal env is_compress src_buffer v st hf]
    exact ⟨fun _ => Or.inl hf, fun _ => rfl⟩
  · rw [body_nonfatal env is_compress src_buffer v st hf]
    unfold endsLoop
    simp only [Bool.or_eq_true, Bool.and_eq_true, Bool.not_eq_true', decide_eq_true_eq]
    constructor
    · rintro (h | h)
      · exact Or.inr (Or.inl h)
      · exact Or.inr (Or.inr h)
    · rintro (h | h | h)
      · exact absurd h hf
      · exact Or.inl h
      · exact Or.inr h

theorem loop_progress (hp : progresses env is_compress) : ∀ (fuel : Nat) (st : BufState σ),
    st.src_len = st.buf_remaining → st.buf_processed + st.buf_remaining < U32 →
    max 1 st.buf_remaining ≤ fuel →
    ∃ r l, doProcessBufferLoop env is_compress src_buffer v fuel st = some r ∧
      r.calls = st.calls ++ l ∧ 1 ≤ l.length ∧ l.length ≤ max 1 st.buf_remaining ∧
      (∀ c ∈ l.dropLast, 1 ≤ c.resp.src_len ∧ c.resp.src_len ≤ c.src_len) ∧
      ((∀ c, l.getLast? = some c → c.resp.src_len ≤ c.src_len) →
        r.buf_processed + r.buf_remaining = st.buf_processed + st.buf_remaining) := by
  have hU : U32 = 4294967296 := rfl
  intro fuel
  induction fuel with
  | zero => intro st _ _ h; omega
  | succ k ih =>
    intro st hlen hlt hfuel
    rw [loop_succ]
    by_cases hflag : (doProcessBufferBody env is_compress src_buffer v st).1 = true
    · rw [if_pos hflag]
      refine ⟨_, [⟨st.src, st.src_len, st.dst_len, (codecAt env is_compress src_buffer st).1⟩],
        rfl, body_calls env is_compress src_buffer v st, by simp, by simp, by simp, ?_⟩
      intro hl
      have hc : (codecAt env is_compress src_buffer st).1.src_len ≤ st.src_len :=
        hl ⟨st.src, st.src_len, st.dst_len, (codecAt env is_compress src_buffer st).1⟩ rfl
      rw [hlen] at hc
      by_cases hf : fatalStatus (codecAt env is_compress src_buffer st).1.ret
      · rw [body_fatal env is_compress src_buffer v st hf]
      · rw [body_nonfatal env is_compress src_buffer v st hf]
        simp only
        rw [hU] at hlt ⊢
        omega
    · rw [if_neg hflag]
      have hne : ¬ endsLoop is_compress st.buf_remaining
          (codecAt env is_compress src_buffer st).1 :=
        fun h => hflag ((body_flag env is_compress src_buffer v st).2 h)
      have hf : ¬ fatalStatus (codecAt env is_compress src_buffer st).1.ret :=
        fun h => hne (Or.inl h)
      have hz : ¬ (st.buf_remaining + U32 -
          (codecAt env is_compress src_buffer st).1.src_len % U32) % U32 = 0 :=
        fun h => hne (Or.inr (Or.inr h))
      have hne' : ¬ endsLoop is_compress st.src_len
          (codecAt env is_compress src_buffer st).1 := by rw [hlen]; exact hne
      have hpr := hp (env.gettimeofday st.sess).2 (fun i => src_buffer (st.src + i))
        st.src_len st.dst_len hne'
      have hc1 : 1 ≤ (codecAt env is_compress src_buffer st).1.src_len := hpr.1
      have hc2 : (codecAt env is_compress src_buffer st).1.src_len ≤ st.buf_remaining := by
        rw [← hlen]; exact hpr.2
      have hB := body_nonfatal env is_compress src_buffer v st hf
      have hrem : (st.buf_remaining + U32 -
          (codecAt env is_compress src_buffer st).1.src_len % U32) % U32 =
          st.buf_remaining - (codecAt env is_compress src_buffer st).1.src_len := by
        rw [hU] at hlt ⊢; omega
      have hproc : (st.buf_processed + (codecAt env is_compress src_buffer st).1.src_len) % U32 =
          st.buf_processed + (codecAt env is_compress src_buffer st).1.src_len := by
        rw [hU] at hlt ⊢; omega
      rw [hrem] at hz
      rw [hrem, hproc] at hB
      obtain ⟨r, l, h1, h2, h3, h4, h5, h6⟩ :=
        ih (doProcessBufferBody env is_compress src_buffer v st).2 (by rw [hB])
          (by rw [hB]; simp only; omega) (by rw [hB]; simp only; omega)
      rw [hB] at h2 h4 h6
      simp only at h2 h4 h6
      have hlne : l ≠ [] := by intro h; rw [h] at h3; simp at h3
      refine ⟨r, ⟨st.src, st.src_len, st.dst_len,
        (codecAt env is_compress src_buffer st).1⟩ :: l, h1, by rw [h2]; simp,
        by simp, by simp only [List.length_cons]; omega, ?_, ?_⟩
      · intro c hc
        rw [List.dropLast_cons_of_ne_nil hlne] at hc
        rcases List.mem_cons.1 hc with hc | hc
        · rw [hc]; exact ⟨hc1, by rw [hlen]; exact hc2⟩
        · exact h5 c hc
      · intro hl
        have hlast : ∀ c, l.getLast? = some c → c.resp.src_len ≤ c.src_len := by
          intro c hc
          apply hl c
          cases l with
          | nil => exact absurd rfl hlne
          | cons b t => rw [List.getLast?_cons_cons]; exact hc
        rw [h6 hlast]
        omega
end Termination

theorem unitEnv_progresses (is_compress : Bool) : progresses unitEnv is_compress := by
  intro s src m cap h
  have hr : (if is_compress then unitEnv.qzCompress s src m cap
      else unitEnv.qzDecompress s src m cap).1 = ⟨QZ_OK, min 1 m, [0]⟩ := by
    cases is_compress <;> rfl
  rw [hr] at h ⊢
  simp only
  have hm : m ≠ 0 := by
    intro h0
    apply h
    right; right
    rw [h0]
    decide
  omega

theorem dataErrorEnv_progresses : progresses dataErrorEnv false := by
  intro s src m cap h
  exact absurd (Or.inr (Or.inl ⟨rfl, rfl⟩)) h

/-! ## The codec of whole frames -/

theorem getD_replicate_zero (k i : Nat) : (List.replicate k (0 : UInt8)).getD i 0 = 0 := by
  by_cases h : i < k
  · rw [List.getD_eq_getElem _ _ (by rw [List.length_replicate]; exact h), List.getElem_replicate]
  · rw [List.getD_eq_default _ _ (by rw [List.length_replicate]; omega)]

theorem frameEnc_length (b : UInt8) (h : frameLen b ≠ 0) : (frameEnc b).length = frameLen b := by
  unfold frameEnc
  rw [List.length_cons, List.length_replicate]
  omega

theorem flatMap_frameEnc_length (bs : List UInt8) (h : ∀ b ∈ bs, frameLen b ≠ 0) :
    (bs.flatMap frameEnc).length = (bs.map frameLen).sum := by
  induction bs with
  | nil => rfl
  | cons b bs ih =>
    rw [List.flatMap_cons, List.length_append, frameEnc_length b (h b (List.mem_cons_self _ _)),
      ih (fun x hx => h x (List.mem_cons_of_mem _ hx)), List.map_cons, List.sum_cons]

theorem flatMap_frameEnc_getD (bs : List UInt8) (h : ∀ b ∈ bs, frameLen b ≠ 0) :
    ∀ i, (bs.flatMap frameEnc).getD i 0 = frameData bs i := by
  induction bs with
  | nil => intro i; rfl
  | cons b bs ih =>
    intro i
    have hb := h b (List.mem_cons_self _ _)
    have hlen := frameEnc_length b hb
    rw [List.flatMap_cons, frameData]
    by_cases h0 : i = 0
    · rw [if_pos h0, h0]; rfl
    · rw [if_neg h0]
      by_cases h1 : i < frameLen b
      · rw [if_pos h1, List.getD_append _ _ _ _ (by rw [hlen]; exact h1)]
        obtain ⟨j, rfl⟩ : ∃ j, i = j + 1 := ⟨i - 1, by omega⟩
        unfold frameEnc
        rw [List.getD_cons_succ, getD_replicate_zero]
      · rw [if_neg h1, List.getD_append_right _ _ _ _ (by rw [hlen]; omega), hlen]
        exact ih (fun x hx => h x (List.mem_cons_of_mem _ hx)) _

theorem ofList_frames :
    SrcFile.ofList ([1, 2, 1].flatMap frameEnc) = ⟨1342177280, frameData [1, 2, 1]⟩ := by
  have hv : ∀ b ∈ ([1, 2, 1] : List UInt8), frameLen b ≠ 0 := by decide
  unfold SrcFile.ofList
  rw [flatMap_frameEnc_length _ hv]
  congr 1
  funext i
  exact flatMap_frameEnc_getD _ hv i

theorem frameEnc_one_length : (frameEnc 1).length = 536870912 :=
  frameEnc_length 1 (by decide)

theorem frameEnc_two_length : (frameEnc 2).length = 268435456 :=
  frameEnc_length 2 (by decide)

theorem frame_qzCompress (b : UInt8) (t : Nat) (src : Nat → UInt8) (n cap : Nat) :
    frameEnv.qzCompress t (fun i => if i = 0 then b else src i) (n + 1) (frameLen b + cap) =
      if frameLen b = 0 then (⟨QZ_FAIL, 0, []⟩, t) else (⟨QZ_OK, 1, frameEnc b⟩, t) := by
  have hc : frameEnv.qzCompress t (fun i => if i = 0 then b else src i) (n + 1)
      (frameLen b + cap) =
      if n + 1 = 0 then (⟨QZ_OK, 0, []⟩, t)
      else if frameLen b = 0 then (⟨QZ_FAIL, 0, []⟩, t)
      else if frameLen b + cap < frameLen b then (⟨QZ_BUF_ERROR, 0, []⟩, t)
      else (⟨QZ_OK, 1, frameEnc b⟩, t) := rfl
  rw [hc, if_neg (by omega)]
  by_cases h : frameLen b = 0
  · rw [if_pos h, if_pos h]
  · rw [if_neg h, if_neg (by omega), if_neg h]

theorem frame_qzDecompress (b : UInt8) (t : Nat) (src : Nat → UInt8) (n cap : Nat) :
    frameEnv.qzDecompress t (fun i => if i = 0 then b else src i) (frameLen b + n) cap =
      if frameLen b = 0 then (⟨QZ_DATA_ERROR, 0, []⟩, t)
      else (⟨QZ_OK, frameLen b, [b]⟩, t) := by
  have hc : frameEnv.qzDecompress t (fun i => if i = 0 then b else src i) (frameLen b + n) cap =
      if frameLen b = 0 ∨ frameLen b + n < frameLen b then (⟨QZ_DATA_ERROR, 0, []⟩, t)
      else (⟨QZ_OK, frameLen b, [b]⟩, t) := rfl
  rw [hc]
  by_cases h : frameLen b = 0
  · rw [if_pos (Or.inl h), if_pos h]
  · rw [if_neg (by omega), if_neg h]

theorem frame_codecAt (enc : UInt8 → List UInt8) (buf : Nat → UInt8)
    (st : BufState Nat) (hn : st.src_len ≠ 0) (hl : frameLen (buf st.src) ≠ 0)
    (hcap : frameLen (buf st.src) ≤ st.dst_len) :
    codecAt (frameCodec enc) true buf st = (⟨QZ_OK, 1, enc (buf st.src)⟩, st.sess + 1) := by
  unfold codecAt
  rw [if_pos rfl]
  show (if st.src_len = 0 then _ else if frameLen (buf (st.src + 0)) = 0 then _
    else if st.dst_len < frameLen (buf (st.src + 0)) then _ else _) = _
  rw [if_neg hn, Nat.add_zero, if_neg hl, if_neg (by omega)]
  rfl

theorem frame_body (enc : UInt8 → List UInt8) (buf : Nat → UInt8) (v : Nat)
    (st : BufState Nat) (hn : st.src_len ≠ 0) (hl : frameLen (buf st.src) ≠ 0)
    (hcap : frameLen (buf st.src) ≤ st.dst_len) (m : Nat) (hm : st.buf_remaining = m + 1)
    (hlt : m + 1 < U32) :
    doProcessBufferBody (frameCodec enc) true buf v st =
      (decide (m = 0),
        { sess := st.sess + 2
          ret := QZ_OK
          buf_processed := (st.buf_processed + 1) % U32
          buf_remaining := m
          src := st.src + 1
          src_len := m
          dst_len := v
          time_list := st.time_list ++ [⟨⟨0, st.sess⟩, ⟨0, st.sess + 1⟩⟩]
          dst_file := st.dst_file ++ enc (buf st.src)
          dst_file_size := (st.dst_file_size + (enc (buf st.src)).length) % U32
          calls := st.calls ++ [⟨st.src, st.src_len, st.dst_len, ⟨QZ_OK, 1, enc (buf st.src)⟩⟩] }) := by
  have hca := frame_codecAt enc buf st hn hl hcap
  have hnf : ¬ fatalStatus (codecAt (frameCodec enc) true buf st).1.ret := by
    rw [hca]; exact fun h => h.1 rfl
  have hrem : (st.buf_remaining + U32 - 1 % U32) % U32 = m := by
    have hU : U32 = 4294967296 := rfl
    rw [hm]; rw [hU] at hlt ⊢; omega
  rw [body_nonfatal (frameCodec enc) true buf v st hnf, hca]
  simp only [Bool.not_true, Bool.false_and, Bool.false_or, hrem]
  rfl

theorem sumUsDiff_append (l₁ l₂ : List RunTimeList_T) :
    sumUsDiff (l₁ ++ l₂) = sumUsDiff l₁ + sumUsDiff l₂ := by
  induction l₁ with
  | nil => simp [sumUsDiff]
  | cons e l ih => rw [List.cons_append, sumUsDiff, sumUsDiff, ih, Nat.add_assoc]

theorem sumUsDiff_tick (s : Nat) : sumUsDiff [⟨⟨0, s⟩, ⟨0, s + 1⟩⟩] = 1 := by
  have hU : U64 = 18446744073709551616 := rfl
  simp only [sumUsDiff, usOf]
  rw [hU]
  omega

theorem frame_loop (enc : UInt8 → List UInt8) (buf : Nat → UInt8) (cap : Nat) :
    ∀ (bs : List UInt8) (b : UInt8) (fuel : Nat) (st : BufState Nat),
      (b :: bs).length ≤ fuel → st.buf_remaining = (b :: bs).length →
      st.src_len = (b :: bs).length → st.dst_len = cap →
      (∀ i, i < (b :: bs).length → buf (st.src + i) = (b :: bs).getD i 0) →
      (∀ x ∈ b :: bs, frameLen x ≠ 0 ∧ frameLen x ≤ cap) → (b :: bs).length < U32 →
      ∃ r, doProcessBufferLoop (frameCodec enc) true buf cap fuel st = some r ∧
        r.ret = QZ_OK ∧
        r.buf_processed = (st.buf_processed + (b :: bs).length) % U32 ∧
        r.dst_file = st.dst_file ++ (b :: bs).flatMap enc ∧
        r.dst_file_size = (st.dst_file_size + ((b :: bs).flatMap enc).length) % U32 ∧
        sumUsDiff r.time_list = sumUsDiff st.time_list + (b :: bs).length := by
  have hU : U32 = 4294967296 := rfl
  intro bs
  induction bs with
  | nil =>
    intro b fuel st hfuel hrem hlen hcap hbuf hval hlt
    obtain ⟨k, rfl⟩ : ∃ k, fuel = k + 1 := ⟨fuel - 1, by simp at hfuel; omega⟩
    have hb : buf st.src = b := by
      have := hbuf 0 (by simp)
      rwa [Nat.add_zero] at this
    have hv := hval b (List.mem_cons_self _ _)
    have hB := frame_body enc buf cap st (by rw [hlen]; simp) (by rw [hb]; exact hv.1)
      (by rw [hb, hcap]; exact hv.2) 0 (by rw [hrem]; rfl) (by rw [hU]; omega)
    rw [loop_succ, hB]
    refine ⟨_, if_pos (by simp), rfl, rfl, ?_, ?_, ?_⟩
    · simp only [hb, List.flatMap_cons, List.flatMap_nil, List.append_nil]
    · simp only [hb, List.flatMap_cons, List.flatMap_nil, List.append_nil]
    · simp only [sumUsDiff_append, sumUsDiff_tick, List.length_singleton]
  | cons c bs ih =>
    intro b fuel st hfuel hrem hlen hcap hbuf hval hlt
    obtain ⟨k, rfl⟩ : ∃ k, fuel = k + 1 := ⟨fuel - 1, by simp at hfuel; omega⟩
    have hb : buf st.src = b := by
      have := hbuf 0 (by simp)
      rwa [Nat.add_zero] at this
    have hv := hval b (List.mem_cons_self _ _)
    have hB := frame_body enc buf cap st (by rw [hlen]; simp) (by rw [hb]; exact hv.1)
      (by rw [hb, hcap]; exact hv.2) (c :: bs).length (by rw [hrem]; rfl)
      (by simpa using hlt)
    have hflag : ¬ (decide ((c :: bs).length = 0) = true) := by simp
    obtain ⟨r, h1, h2, h3, h4, h5, h6⟩ := ih c k
      (doProcessBufferBody (frameCodec enc) true buf cap st).2
      (by simp only [List.length_cons] at hfuel ⊢; omega) (by rw [hB]) (by rw [hB])
      (by rw [hB])
      (by
        intro i hi
        rw [hB]
        have := hbuf (i + 1) (by simp only [List.length_cons] at hi ⊢; omega)
        rw [List.getD_cons_succ] at this
        rw [← this]
        show buf (st.src + 1 + i) = _
        rw [Nat.add_assoc, Nat.add_comm 1 i])
      (fun x hx => hval x (List.mem_cons_of_mem _ hx))
      (by simp only [List.length_cons] at hlt ⊢; omega)
    rw [hB] at h1 h3 h4 h5 h6
    simp only at h1 h3 h4 h5 h6
    rw [loop_succ, hB, if_neg hflag]
    refine ⟨r, h1, h2, ?_, ?_, ?_, ?_⟩
    · rw [h3]
      simp only [List.length_cons]
      rw [hU]; omega
    · rw [h4, hb, List.flatMap_cons b, List.append_assoc]
    · rw [h5, hb, List.flatMap_cons b, List.length_append]
      rw [hU]; omega
    · rw [h6, sumUsDiff_append, sumUsDiff_tick]
      simp only [List.length_cons]
      omega

theorem doProcessFile_of_loop {σ : Type} (env : Env σ) (fuel : Nat) (g_keep : Bool) (sess : σ)
    (src_file_name dst_file_name : String) (f : SrcFile) (is_compress : Bool)
    (st : FileState σ) (s : Stats) (hsz : ¬ f.st_size > UINT_MAX)
    (hloop : doProcessFileLoop env f (srcBufferSize (GET_LOWER_32BITS f.st_size))
      (dstBufferSize env is_compress (srcBufferSize (GET_LOWER_32BITS f.st_size))) is_compress
      fuel fuel
      (doProcessFileInit env (env.gettimeofday sess).2 (env.gettimeofday sess).1 src_file_name
        dst_file_name (GET_LOWER_32BITS f.st_size) is_compress) = some (false, st))
    (hstats : displayStats st.time_list (GET_LOWER_32BITS f.st_size) st.dst_file_size
      is_compress = some s) :
    doProcessFile env fuel g_keep sess src_file_name dst_file_name (some f) is_compress =
      some (doProcessFileExit src_file_name g_keep
        { st with events := st.events ++
            [Event.displayStats (GET_LOWER_32BITS f.st_size) st.dst_file_size] } (some s)) := by
  unfold doProcessFile
  simp only [if_neg hsz, hloop, hstats]

theorem displayStats_isSome (time_list : List RunTimeList_T) (insize outsize : Nat)
    (is_compress : Bool) (h1 : sumUsDiff time_list ≠ 0) (h2 : insize ≠ 0) (h3 : outsize ≠ 0) :
    ∃ s, displayStats time_list insize outsize is_compress = some s := by
  unfold displayStats
  simp only [if_neg h1, if_neg h2, if_neg h3]
  exact ⟨_, rfl⟩

theorem fileLoop_done {σ : Type} (env : Env σ) (f : SrcFile) (B D : Nat) (is_compress : Bool)
    (bfuel fuel : Nat) (st : FileState σ) (h : st.file_remaining = 0) :
    doProcessFileLoop env f B D is_compress bfuel fuel st = some (false, st) := by
  cases fuel with
  | zero => simp only [doProcessFileLoop, if_pos h]
  | succ k => simp only [doProcessFileLoop, if_pos h]

theorem fileLoop_next {σ : Type} (env : Env σ) (f : SrcFile) (B D : Nat) (is_compress : Bool)
    (bfuel fuel : Nat) (st st1 : FileState σ) (h : ¬ st.file_remaining = 0)
    (hs : doProcessFileStep env f B D is_compress bfuel st = some (false, st1)) :
    doProcessFileLoop env f B D is_compress bfuel (fuel + 1) st =
      doProcessFileLoop env f B D is_compress bfuel fuel st1 := by
  simp only [doProcessFileLoop, if_neg h, hs]

theorem fread_ofList (i : Nat) (hi : i < ([2, 1] : List UInt8).length + 1) :
    (fread (SrcFile.ofList [1, 2, 1]) 0 (fun _ => 0) 3).2
      ((bufInit 1 3 1610612736 [⟨⟨0, 0⟩, ⟨0, 0⟩⟩] [] 0 : BufState Nat).src + i) =
      ([1, 2, 1] : List UInt8).getD i 0 := by
  have hi3 : i < 3 := hi
  simp only [fread, bufInit, SrcFile.ofList, Nat.zero_add, List.length_cons, List.length_nil,
    Nat.sub_zero, Nat.min_self]
  rw [if_pos hi3]

theorem frame_compress_run (enc : UInt8 → List UInt8) (h1 : (enc 1).length = 536870912)
    (h2 : (enc 2).length = 268435456) :
    ∃ res, doProcessFile (frameCodec enc) 3 true 0 "a" "a.gz" (some (SrcFile.ofList [1, 2, 1]))
        true = some res ∧
      res.outcome = Outcome.returned ∧ res.dst_file = some ([1, 2, 1].flatMap enc) := by
  have hU : U32 = 4294967296 := rfl
  obtain ⟨r, hr1, hr2, hr3, hr4, hr5, hr6⟩ := frame_loop enc
    (fread (SrcFile.ofList [1, 2, 1]) 0 (fun _ => 0) 3).2 1610612736 [2, 1] 1 3
    (bufInit 1 3 1610612736 [⟨⟨0, 0⟩, ⟨0, 0⟩⟩] [] 0) (by decide) rfl rfl rfl
    (fun i hi => fread_ofList i hi)
    (by decide) (by decide)
  have hlen : (([1, 2, 1] : List UInt8).flatMap enc).length = 1342177280 := by
    simp only [List.flatMap_cons, List.flatMap_nil, List.length_append, List.length_nil, h1, h2]
  have hbuf : doProcessBuffer (frameCodec enc) 3 1
      (fread (SrcFile.ofList [1, 2, 1]) 0 (fun _ => 0) 3).2 3 1610612736 [⟨⟨0, 0⟩, ⟨0, 0⟩⟩] [] 0
      true = some ⟨r.ret, r.buf_processed, r.sess, r.time_list, r.dst_file, r.dst_file_size,
        r.calls⟩ := by
    show (doProcessBufferLoop _ _ _ _ 3 (bufInit 1 3 1610612736 [⟨⟨0, 0⟩, ⟨0, 0⟩⟩] [] 0)).map _
      = _
    rw [hr1]
    rfl
  obtain ⟨flag, st1, hs, -, g2, g3, g4, -, -, g7⟩ := fileStep_spec (frameCodec enc) true
    (SrcFile.ofList [1, 2, 1]) 3 1610612736 3
    (doProcessFileInit (frameCodec enc) 1 ⟨0, 0⟩ "a" "a.gz" 3 true) _ hbuf
  have hnd : r.ret ≠ QZ_DATA_ERROR := by rw [hr2]; decide
  rcases g7 with g | g | g | g | ⟨-, gflag, gret, -, -, grem, -⟩
  · exact absurd g.1 hnd
  · exact absurd g.1 hnd
  · exact absurd g.1 hnd
  · exact absurd hr2 g.2.1
  · subst gflag
    simp only at g2 g3 g4 gret grem
    have hrem : st1.file_remaining = 0 := by
      rw [grem, hr3]
      show (3 + U32 - (0 + 3) % U32 % U32) % U32 = 0
      decide
    have hloop : doProcessFileLoop (frameCodec enc) (SrcFile.ofList [1, 2, 1]) 3 1610612736 true
        3 3 (doProcessFileInit (frameCodec enc) 1 ⟨0, 0⟩ "a" "a.gz" 3 true) =
        some (false, st1) :=
      (fileLoop_next (frameCodec enc) (SrcFile.ofList [1, 2, 1]) 3 1610612736 true 3 2
        (doProcessFileInit (frameCodec enc) 1 ⟨0, 0⟩ "a" "a.gz" 3 true) st1
        (by show ¬ (3 : Nat) = 0; decide) hs).trans
        (fileLoop_done (frameCodec enc) (SrcFile.ofList [1, 2, 1]) 3 1610612736 true 3 2 st1
          hrem)
    obtain ⟨s, hstats⟩ := displayStats_isSome st1.time_list 3 st1.dst_file_size true
      (by rw [g2, hr6]; decide)
      (by decide)
      (by
        rw [g4, hr5, hlen]
        decide)
    refine ⟨_, doProcessFile_of_loop (frameCodec enc) 3 true 0 "a" "a.gz"
      (SrcFile.ofList [1, 2, 1]) true st1 s (by decide) hloop hstats, ?_, ?_⟩
    · simp only [doProcessFileExit, gret, hr2]
      decide
    · simp only [doProcessFileExit, g3, hr4]
      rfl

/-! ## Output names and paths -/

theorem SUFFIX_length : SUFFIX.length = 3 := rfl

theorem drop_eq_SUFFIX_iff (n : List Char) :
    n.drop (n.length - SFXLEN) = SUFFIX ↔ SUFFIX <:+ n := by
  rw [List.suffix_iff_eq_drop, SUFFIX_length]
  exact eq_comm

/-- The guard of `mkPath` lets through a pair whose path is one character too long. -/
theorem mkPath_cut (d f : List Char) (c : Char) (h : d.length + f.length = 1022) :
    mkPath d (f ++ [c]) = some (d ++ "/".toList ++ f) := by
  have hM : MAX_PATH_LEN = 1024 := rfl
  unfold mkPath snprintf
  simp only [List.length_append, List.length_singleton, hM]
  rw [if_pos (by omega)]
  congr 1
  rw [← List.append_assoc]
  apply List.take_left'
  simp only [List.length_append, String.toList, List.length_singleton, List.length_cons,
    List.length_nil]
  omega

/-! # Statistics, buffers, names and paths -/

/-- C11: `displayStats` is a function of the ledger, the two sizes and the direction.
For a ledger each of whose entries ends no earlier than it starts, with an elapsed time
other than zero and two sizes other than zero (the three assertions of the function), it
computes over exact rationals: the elapsed time as the sum over the entries of end minus
start, in microseconds; the throughput as `8 * size / elapsed`, where `size` is `insize`
when compressing and `outsize` when decompressing; the compression ratio as
`insize / outsize`; the space savings as `1 - outsize / insize`. For the ledger with the
entries 0 to 100 ms and 100 to 300 ms and the sizes 1000 and 400, compressing, it gives
300000 microseconds, throughput 8000 / 300000, ratio 5 / 2 and space savings 60 / 100. -/
theorem C11_stats_formulas (ledger : List RunTimeList_T) (insize outsize : Nat)
    (is_compress : Bool)
    (hord : ∀ e ∈ ledger, usOf e.time_s ≤ usOf e.time_e)
    (helapsed : (ledger.map (fun e => usOf e.time_e - usOf e.time_s)).sum ≠ 0)
    (hin : insize ≠ 0) (hout : outsize ≠ 0) :
    displayStats ledger insize outsize is_compress =
      some
        { us_diff := (ledger.map (fun e => usOf e.time_e - usOf e.time_s)).sum
          throughput :=
            (8 * (if is_compress then (insize : ℚ) else (outsize : ℚ))) /
              ((ledger.map (fun e => usOf e.time_e - usOf e.time_s)).sum : ℚ)
          compressionRatio := (insize : ℚ) / (outsize : ℚ)
          spaceSavings := 1 - (outsize : ℚ) / (insize : ℚ) } ∧
    displayStats ledger300 1000 400 true =
      some
        { us_diff := 300000
          throughput := 8000 / 300000
          compressionRatio := 5 / 2
          spaceSavings := 60 / 100 } := by
  have gen : ∀ (l : List RunTimeList_T) (i o : Nat) (c : Bool),
      (∀ e ∈ l, usOf e.time_s ≤ usOf e.time_e) →
      (l.map (fun e => usOf e.time_e - usOf e.time_s)).sum ≠ 0 → i ≠ 0 → o ≠ 0 →
      displayStats l i o c =
        some
          { us_diff := (l.map (fun e => usOf e.time_e - usOf e.time_s)).sum
            throughput :=
              (8 * (if c then (i : ℚ) else (o : ℚ))) /
                ((l.map (fun e => usOf e.time_e - usOf e.time_s)).sum : ℚ)
            compressionRatio := (i : ℚ) / (o : ℚ)
            spaceSavings := 1 - (o : ℚ) / (i : ℚ) } := by
    intro l i o c h1 h2 h3 h4
    unfold displayStats
    simp only [sumUsDiff_eq l h1, if_neg h2, if_neg h3, if_neg h4]
    congr 2
    show ((if c = true then (i : ℚ) else (o : ℚ)) * ((CHAR_BIT : Nat) : ℚ)) / _ = _
    rw [show ((CHAR_BIT : Nat) : ℚ) = 8 by unfold CHAR_BIT; norm_num, mul_comm]
  refine ⟨gen ledger insize outsize is_compress hord helapsed hin hout, ?_⟩
  have hsum : (ledger300.map (fun e => usOf e.time_e - usOf e.time_s)).sum = 300000 := by
    decide
  rw [gen ledger300 1000 400 true (by decide) (by rw [hsum]; decide) (by decide) (by decide),
    hsum]
  congr 2 <;> norm_num

theorem C11_stats_formulas_witness :
    (∀ e ∈ ledger300, usOf e.time_s ≤ usOf e.time_e) ∧
    (ledger300.map (fun e => usOf e.time_e - usOf e.time_s)).sum ≠ 0 ∧
    (1000 : Nat) ≠ 0 ∧ (400 : Nat) ≠ 0 ∧
    displayStats ledger300 1000 400 false =
      some
        { us_diff := (ledger300.map (fun e => usOf e.time_e - usOf e.time_s)).sum
          throughput :=
            (8 * (if false then ((1000 : Nat) : ℚ) else ((400 : Nat) : ℚ))) /
              ((ledger300.map (fun e => usOf e.time_e - usOf e.time_s)).sum : ℚ)
          compressionRatio := ((1000 : Nat) : ℚ) / ((400 : Nat) : ℚ)
          spaceSavings := 1 - ((400 : Nat) : ℚ) / ((1000 : Nat) : ℚ) } :=
  ⟨by decide, by decide, by decide, by decide,
    (C11_stats_formulas ledger300 1000 400 false (by decide) (by decide) (by decide)
      (by decide)).1⟩

/-- C12: in every run of `doProcessBuffer` the destination stream at the end is the
stream at the start followed by the outputs, in call order, of the codec calls that
returned `QZ_OK`, `QZ_BUF_ERROR` or `QZ_DATA_ERROR`, and `*dst_file_size` at the end is
its value at the start plus the number of those bytes, modulo `2^32`. One pass of the loop
makes one codec call and appends the whole output of that call (nothing for another
status) before the next pass, hence before the next call. -/
theorem C12_output_is_concatenation {σ : Type} (env : Env σ) (fuel : Nat) (sess : σ)
    (src : Nat → UInt8) (n dst_len : Nat) (time_list : List RunTimeList_T)
    (dst_file : List UInt8) (dst_file_size : Nat) (is_compress : Bool) (r : BufResult σ)
    (st : BufState σ)
    (hrun : doProcessBuffer env fuel sess src n dst_len time_list dst_file dst_file_size
      is_compress = some r)
    (hsize : dst_file_size < U32) :
    r.dst_file = dst_file ++
      (r.calls.filter (fun c => writtenStatus c.resp.ret)).flatMap (·.resp.dst) ∧
    r.dst_file_size = (dst_file_size +
      ((r.calls.filter (fun c => writtenStatus c.resp.ret)).flatMap (·.resp.dst)).length) % U32 ∧
    (doProcessBufferBody env is_compress src dst_len st).2.calls =
      st.calls ++ [⟨st.src, st.src_len, st.dst_len, (codecAt env is_compress src st).1⟩] ∧
    (doProcessBufferBody env is_compress src dst_len st).2.dst_file =
      st.dst_file ++
        (if writtenStatus (codecAt env is_compress src st).1.ret then
          (codecAt env is_compress src st).1.dst else []) := by
  obtain ⟨l, c, g1, -, -, g4, -, g6⟩ := doProcessBuffer_trace env fuel sess src n dst_len
    time_list dst_file dst_file_size is_compress r hrun
  rw [← g1, writtenOf_eq_filter] at g4 g6
  exact ⟨g4, g6 hsize, body_calls env is_compress src dst_len st,
    body_dst_file env is_compress src dst_len st⟩

theorem C12_output_is_concatenation_witness :
    (0 : Nat) < U32 ∧
    ∃ r : BufResult ScriptState,
      doProcessBuffer (scriptEnv fun _ => 0) 3
        ⟨[⟨QZ_BUF_ERROR, 2, [1]⟩, ⟨QZ_OK, 2, [2, 3]⟩, ⟨QZ_FAIL, 1, [9]⟩], 0⟩ (fun _ => 0) 5 69
        [] [7] 0 true = some r ∧
      r.dst_file = [7, 1, 2, 3] ∧
      r.dst_file = [7] ++
        (r.calls.filter (fun c => writtenStatus c.resp.ret)).flatMap (·.resp.dst) ∧
      r.dst_file_size = (0 +
        ((r.calls.filter (fun c => writtenStatus c.resp.ret)).flatMap (·.resp.dst)).length) %
          U32 :=
  ⟨by decide, _, rfl, by decide,
    (C12_output_is_concatenation (scriptEnv fun _ => 0) 3
      ⟨[⟨QZ_BUF_ERROR, 2, [1]⟩, ⟨QZ_OK, 2, [2, 3]⟩, ⟨QZ_FAIL, 1, [9]⟩], 0⟩ (fun _ => 0) 5 69
      [] [7] 0 true _ (bufState5 []) rfl (by decide)).1,
    (C12_output_is_concatenation (scriptEnv fun _ => 0) 3
      ⟨[⟨QZ_BUF_ERROR, 2, [1]⟩, ⟨QZ_OK, 2, [2, 3]⟩, ⟨QZ_FAIL, 1, [9]⟩], 0⟩ (fun _ => 0) 5 69
      [] [7] 0 true _ (bufState5 []) rfl (by decide)).2.1⟩

/-- C13: for a source file of size `S ≤ 2^32 - 1`, the source buffer size of
`doProcessFile` is `min S (512 MiB)`, and when decompressing the destination buffer size,
computed modulo `2^32`, is `5 * min S (512 MiB)`, which is below `2^32`; every run records
these two sizes as its first two allocations. -/
theorem C13_buffer_sizes {σ : Type} (env : Env σ) (fuel : Nat) (g_keep : Bool) (sess : σ)
    (src_file_name dst_file_name : String) (f : SrcFile) (hS : f.st_size ≤ UINT_MAX) :
    srcBufferSize (GET_LOWER_32BITS f.st_size) = min f.st_size SRC_BUFF_LEN ∧
    dstBufferSize env false (srcBufferSize (GET_LOWER_32BITS f.st_size)) =
      DECOMP_BUFSZ_EXPANSION * min f.st_size SRC_BUFF_LEN ∧
    DECOMP_BUFSZ_EXPANSION * min f.st_size SRC_BUFF_LEN < U32 ∧
    ∀ res,
      doProcessFile env fuel g_keep sess src_file_name dst_file_name (some f) false =
        some res →
      ∃ rest, res.events =
        Event.malloc (min f.st_size SRC_BUFF_LEN) ::
          Event.malloc (DECOMP_BUFSZ_EXPANSION * min f.st_size SRC_BUFF_LEN) :: rest := by
  have hU : U32 = 4294967296 := rfl
  have hM : UINT_MAX = 4294967295 := rfl
  have hB : SRC_BUFF_LEN = 536870912 := rfl
  have hD : DECOMP_BUFSZ_EXPANSION = 5 := rfl
  have hg : GET_LOWER_32BITS f.st_size = f.st_size := by
    unfold GET_LOWER_32BITS; rw [hU]; omega
  have h1 : srcBufferSize (GET_LOWER_32BITS f.st_size) = min f.st_size SRC_BUFF_LEN := by
    rw [hg]; unfold srcBufferSize; split <;> omega
  have h3 : DECOMP_BUFSZ_EXPANSION * min f.st_size SRC_BUFF_LEN < U32 := by
    rw [hD, hB, hU]; omega
  have h2 : dstBufferSize env false (srcBufferSize (GET_LOWER_32BITS f.st_size)) =
      DECOMP_BUFSZ_EXPANSION * min f.st_size SRC_BUFF_LEN := by
    rw [h1]
    unfold dstBufferSize
    simp only [Bool.false_eq_true, if_false]
    rw [Nat.mul_comm, Nat.mod_eq_of_lt h3]
  refine ⟨h1, h2, h3, ?_⟩
  intro res hrun
  rcases doProcessFile_events env fuel g_keep sess src_file_name dst_file_name (some f)
    false res hrun with ⟨-, h | ⟨f', h, h'⟩⟩ | ⟨f', new, tail, g1, -, g3, -⟩
  · exact absurd h (by simp)
  · injection h with h; subst h; omega
  · injection g1 with g1; subst g1
    refine ⟨[Event.fopen src_file_name "r", Event.fopen dst_file_name "w"] ++ new ++ tail, ?_⟩
    rw [g3]
    simp only [doProcessFileInit, List.cons_append, List.nil_append, List.append_assoc]
    rw [h2, h1]

theorem C13_buffer_sizes_witness :
    bigFile.st_size ≤ UINT_MAX ∧
    srcBufferSize (GET_LOWER_32BITS bigFile.st_size) = min bigFile.st_size SRC_BUFF_LEN ∧
    dstBufferSize greedyEnv false (srcBufferSize (GET_LOWER_32BITS bigFile.st_size)) =
      DECOMP_BUFSZ_EXPANSION * min bigFile.st_size SRC_BUFF_LEN ∧
    DECOMP_BUFSZ_EXPANSION * min bigFile.st_size SRC_BUFF_LEN < U32 ∧
    min bigFile.st_size SRC_BUFF_LEN = 536870912 :=
  ⟨by decide, (C13_buffer_sizes greedyEnv 2 false 0 "a" "b" bigFile (by decide)).1,
    (C13_buffer_sizes greedyEnv 2 false 0 "a" "b" bigFile (by decide)).2.1,
    (C13_buffer_sizes greedyEnv 2 false 0 "a" "b" bigFile (by decide)).2.2.1, by decide⟩

/-- C14: the code at a failing input. The codec of whole frames inverts its own
compression: `qzCompress`, given at least one byte `b` that has a frame and room for it,
consumes that byte and produces the frame `frameEnc b`, of `frameLen b` bytes, and
`qzDecompress`, given at least `frameLen b` bytes that start with `b`, consumes the frame
and gives back `b`. Compressing the file of the three bytes 1, 2, 1 with `doProcessFile`
returns normally and writes the three frames, 1280 MiB in all. Decompressing that file
with `doProcessFile` does not give the three bytes back: the first slice of 512 MiB ends
with `QZ_OK`, the second ends with `QZ_DATA_ERROR` after 256 MiB, inside the third frame;
the file is then repositioned at offset 256 MiB, not at 768 MiB, the third slice starts
inside the second frame, and the run ends with `exit(ERROR)` after writing the bytes 1, 2
only. -/
theorem C14_round_trip_loses_bytes :
    (∀ (b : UInt8) (t : Nat) (src : Nat → UInt8) (n cap : Nat),
      frameEnv.qzCompress t (fun i => if i = 0 then b else src i) (n + 1) (frameLen b + cap) =
        if frameLen b = 0 then (⟨QZ_FAIL, 0, []⟩, t) else (⟨QZ_OK, 1, frameEnc b⟩, t)) ∧
    (∀ (b : UInt8) (t : Nat) (src : Nat → UInt8) (n cap : Nat),
      frameEnv.qzDecompress t (fun i => if i = 0 then b else src i) (frameLen b + n) cap =
        if frameLen b = 0 then (⟨QZ_DATA_ERROR, 0, []⟩, t)
        else (⟨QZ_OK, frameLen b, [b]⟩, t)) ∧
    (∀ b : UInt8, frameLen b ≠ 0 → (frameEnc b).length = frameLen b) ∧
    (∃ res,
      doProcessFile frameEnv 3 true 0 "a" "a.gz" (some (SrcFile.ofList [1, 2, 1])) true =
        some res ∧
      res.outcome = Outcome.returned ∧
      res.dst_file = some ([1, 2, 1].flatMap frameEnc)) ∧
    (doProcessFile frameEnv 3 true 0 "a.gz" "a"
        (some (SrcFile.ofList ([1, 2, 1].flatMap frameEnc))) false).map
        (fun r => (r.outcome, r.dst_file, r.events.filter loopEvent)) =
      some (Outcome.exited ERROR, some [1, 2],
        [Event.fread 0 536870912,
          Event.processBuffer [⟨0, 536870912, 2684354560, ⟨QZ_OK, 536870912, [1]⟩⟩] QZ_OK
            536870912,
          Event.fread 536870912 536870912,
          Event.processBuffer
            [⟨0, 536870912, 2684354560, ⟨QZ_OK, 268435456, [2]⟩⟩,
              ⟨268435456, 268435456, 2684354560, ⟨QZ_DATA_ERROR, 0, []⟩⟩]
            QZ_DATA_ERROR 268435456,
          Event.fseek 268435456 0,
          Event.fread 268435456 536870912,
          Event.processBuffer [⟨0, 536870912, 2684354560, ⟨QZ_DATA_ERROR, 0, []⟩⟩]
            QZ_DATA_ERROR 0]) ∧
    ([1, 2] : List UInt8) ≠ [1, 2, 1] := by
  refine ⟨frame_qzCompress, frame_qzDecompress, frameEnc_length,
    frame_compress_run frameEnc frameEnc_one_length frameEnc_two_length, ?_, by decide⟩
  rw [ofList_frames]
  decide

/-- C15: in every run of `doProcessBuffer` each codec call, the first and the later ones,
is given the destination capacity `dst_len` that the function was called with; and from
any state of the loop, a pass whose codec call is not fatal (so that its output is
written) leaves `dst_len` equal to that original capacity, whatever count the codec
stored in it. -/
theorem C15_capacity_restored {σ : Type} (env : Env σ) (fuel : Nat) (sess : σ)
    (src : Nat → UInt8) (n dst_len : Nat) (time_list : List RunTimeList_T)
    (dst_file : List UInt8) (dst_file_size : Nat) (is_compress : Bool) (r : BufResult σ)
    (st : BufState σ)
    (hrun : doProcessBuffer env fuel sess src n dst_len time_list dst_file dst_file_size
      is_compress = some r)
    (hnf : ¬ fatalStatus (codecAt env is_compress src st).1.ret) :
    (∀ c ∈ r.calls, c.dst_len = dst_len) ∧
    (doProcessBufferBody env is_compress src dst_len st).2.dst_len = dst_len := by
  constructor
  · unfold doProcessBuffer at hrun
    simp only [Option.map_eq_some'] at hrun
    obtain ⟨fin, hfin, rfl⟩ := hrun
    exact loop_dst_len env is_compress src dst_len fuel _ fin hfin rfl (by simp)
  · rw [body_nonfatal env is_compress src dst_len st hnf]

theorem C15_capacity_restored_witness :
    ∃ r : BufResult ScriptState,
      doProcessBuffer (scriptEnv fun _ => 0) 3
        ⟨[⟨QZ_BUF_ERROR, 2, [1]⟩, ⟨QZ_OK, 3, [2, 3]⟩], 0⟩ (fun _ => 0) 5 69 [] [] 0 true =
        some r ∧
      ¬ fatalStatus (codecAt (scriptEnv fun _ => 0) true (fun _ => 0) (bufState5 rs5)).1.ret ∧
      r.calls.length = 2 ∧
      (∀ c ∈ r.calls, c.dst_len = 69) ∧
      (doProcessBufferBody (scriptEnv fun _ => 0) true (fun _ => 0) 69 (bufState5 rs5)).2.dst_len
        = 69 :=
  ⟨_, rfl, by decide, by decide,
    C15_capacity_restored (scriptEnv fun _ => 0) 3
      ⟨[⟨QZ_BUF_ERROR, 2, [1]⟩, ⟨QZ_OK, 3, [2, 3]⟩], 0⟩ (fun _ => 0) 5 69 [] [] 0 true _
      (bufState5 rs5) rfl (by decide)⟩

/-- C16: after every run of `doProcessBuffer` the ledger is the ledger it was given
followed by new entries, as many as codec calls were made; one pass of the loop appends
exactly one entry, whose start is the time read just before the codec call, and makes
exactly one codec call. -/
theorem C16_ledger_append_only {σ : Type} (env : Env σ) (fuel : Nat) (sess : σ)
    (src : Nat → UInt8) (n dst_len : Nat) (time_list : List RunTimeList_T)
    (dst_file : List UInt8) (dst_file_size : Nat) (is_compress : Bool) (r : BufResult σ)
    (st : BufState σ)
    (hrun : doProcessBuffer env fuel sess src n dst_len time_list dst_file dst_file_size
      is_compress = some r) :
    (∃ new, r.time_list = time_list ++ new ∧ new.length = r.calls.length) ∧
    (∃ e, (doProcessBufferBody env is_compress src dst_len st).2.time_list =
        st.time_list ++ [e] ∧ e.time_s = (env.gettimeofday st.sess).1) ∧
    (doProcessBufferBody env is_compress src dst_len st).2.calls =
      st.calls ++ [⟨st.src, st.src_len, st.dst_len, (codecAt env is_compress src st).1⟩] := by
  refine ⟨?_, body_time_list env is_compress src dst_len st,
    body_calls env is_compress src dst_len st⟩
  unfold doProcessBuffer at hrun
  simp only [Option.map_eq_some'] at hrun
  obtain ⟨fin, hfin, rfl⟩ := hrun
  obtain ⟨new, l, h1, h2, h3⟩ := loop_time_list env is_compress src dst_len fuel _ fin hfin
  simp only [List.nil_append] at h2
  exact ⟨new, h1, by rw [h3, h2]⟩

theorem C16_ledger_append_only_witness :
    ∃ r : BufResult ScriptState,
      doProcessBuffer (scriptEnv fun _ => 0) 3
        ⟨[⟨QZ_BUF_ERROR, 2, [1]⟩, ⟨QZ_OK, 3, [2, 3]⟩], 0⟩ (fun _ => 0) 5 69
        [⟨⟨0, 7⟩, ⟨0, 9⟩⟩] [] 0 true = some r ∧
      r.calls.length = 2 ∧
      r.time_list = [⟨⟨0, 7⟩, ⟨0, 9⟩⟩, ⟨⟨0, 0⟩, ⟨0, 1⟩⟩, ⟨⟨0, 2⟩, ⟨0, 3⟩⟩] ∧
      ∃ new, r.time_list = [⟨⟨0, 7⟩, ⟨0, 9⟩⟩] ++ new ∧ new.length = r.calls.length :=
  ⟨_, rfl, by decide, by decide,
    (C16_ledger_append_only (scriptEnv fun _ => 0) 3
      ⟨[⟨QZ_BUF_ERROR, 2, [1]⟩, ⟨QZ_OK, 3, [2, 3]⟩], 0⟩ (fun _ => 0) 5 69
      [⟨⟨0, 7⟩, ⟨0, 9⟩⟩] [] 0 true _ (bufState5 []) rfl).1⟩

/-- C17, amended: for every slice length `n < 2^32` and every codec in which each call
that does not end the loop consumes at least one byte and at most the bytes it was given,
the loop of `doProcessBuffer` ends within `max 1 n` passes: `doProcessBuffer` returns,
after at least one and at most `max 1 n` codec calls. Every call but the last consumed at
least one byte and at most the bytes remaining; and when the last call, too, consumed at
most the bytes remaining, the remaining-bytes counter never wrapped: processed plus
remaining is `n` at the end. -/
theorem C17_loop_terminates {σ : Type} (env : Env σ) (is_compress : Bool)
    (src : Nat → UInt8) (n dst_len fuel : Nat) (sess : σ) (time_list : List RunTimeList_T)
    (dst_file : List UInt8) (dst_file_size : Nat)
    (hn : n < U32) (hp : progresses env is_compress) (hfuel : max 1 n ≤ fuel) :
    ∃ r,
      doProcessBufferLoop env is_compress src dst_len fuel
        (bufInit sess n dst_len time_list dst_file dst_file_size) = some r ∧
      doProcessBuffer env fuel sess src n dst_len time_list dst_file dst_file_size
          is_compress =
        some ⟨r.ret, r.buf_processed, r.sess, r.time_list, r.dst_file, r.dst_file_size,
          r.calls⟩ ∧
      1 ≤ r.calls.length ∧ r.calls.length ≤ max 1 n ∧
      (∀ c ∈ r.calls.dropLast, 1 ≤ c.resp.src_len ∧ c.resp.src_len ≤ c.src_len) ∧
      ((∀ c, r.calls.getLast? = some c → c.resp.src_len ≤ c.src_len) →
        r.buf_processed + r.buf_remaining = n) := by
  obtain ⟨r, l, h1, h2, h3, h4, h5, h6⟩ := loop_progress env is_compress src dst_len hp fuel
    (bufInit sess n dst_len time_list dst_file dst_file_size) rfl
    (by simpa [bufInit] using hn) hfuel
  have h2' : r.calls = l := by simpa [bufInit] using h2
  refine ⟨r, h1, ?_, by rw [h2']; exact h3, by rw [h2']; exact h4, by rw [h2']; exact h5, ?_⟩
  · unfold doProcessBuffer
    have h1' := h1
    unfold bufInit at h1'
    simp only [h1']
    rfl
  · intro hl
    rw [h2'] at hl
    have := h6 hl
    simpa [bufInit] using this

theorem C17_loop_terminates_witness :
    (3 : Nat) < U32 ∧ progresses unitEnv true ∧ max 1 3 ≤ 3 ∧
    ∃ r : BufState Nat,
      doProcessBufferLoop unitEnv true (fun _ => 0) 67 3 (bufInit 0 3 67 [] [] 0) = some r ∧
      doProcessBuffer unitEnv 3 0 (fun _ => 0) 3 67 [] [] 0 true =
        some ⟨r.ret, r.buf_processed, r.sess, r.time_list, r.dst_file, r.dst_file_size,
          r.calls⟩ ∧
      1 ≤ r.calls.length ∧ r.calls.length ≤ max 1 3 ∧
      (∀ c ∈ r.calls.dropLast, 1 ≤ c.resp.src_len ∧ c.resp.src_len ≤ c.src_len) ∧
      ((∀ c, r.calls.getLast? = some c → c.resp.src_len ≤ c.src_len) →
        r.buf_processed + r.buf_remaining = 3) :=
  ⟨by decide, unitEnv_progresses true, by decide,
    C17_loop_terminates unitEnv true (fun _ => 0) 3 67 3 0 [] [] 0 (by decide)
      (unitEnv_progresses true) (by decide)⟩

/-- C17, counterexample: the codec that answers `QZ_DATA_ERROR` with a consumed count of
seven bytes satisfies the hypothesis when decompressing (its only call ends the loop),
and on a slice of five bytes the remaining-bytes counter wraps below zero, to
`2^32 - 2`. -/
theorem C17_counterexample :
    progresses dataErrorEnv false ∧ (5 : Nat) < U32 ∧
    ∃ r : BufState Nat,
      doProcessBufferLoop dataErrorEnv false (fun _ => 0) 25 5 (bufInit 0 5 25 [] [] 0) =
        some r ∧
      r.calls = [⟨0, 5, 25, ⟨QZ_DATA_ERROR, 7, []⟩⟩] ∧
      r.buf_remaining = 4294967294 ∧ ¬ (r.buf_remaining ≤ 5) :=
  ⟨dataErrorEnv_progresses, by decide, _, rfl, rfl, rfl, by decide⟩

/-- C18: in decompress mode `hasSuffix` accepts the two-character name `ab`, which does
not end in `.gz`: `makeOutName` returns 0, copies the name and writes the terminator at
index `strlen(in_name) - 3 = 2^64 - 1` of `out_name`, outside its 1024 bytes. For the
three-character name `abc`, which does not end in `.gz` either, it returns 0 with the
empty output name. -/
theorem C18_short_name_accepted :
    hasSuffix "ab".toList false = true ∧
    makeOutName "ab".toList false =
      ⟨0, some "ab".toList, some 18446744073709551615⟩ ∧
    ¬ (18446744073709551615 < MAX_PATH_LEN) ∧
    makeOutName "abc".toList false = ⟨0, some [], some 0⟩ ∧
    ¬ (SUFFIX <:+ "ab".toList) ∧ ¬ (SUFFIX <:+ "abc".toList) := by
  refine ⟨by decide, by decide, by decide, by decide, ?_, ?_⟩
  · rw [← drop_eq_SUFFIX_iff]; decide
  · rw [← drop_eq_SUFFIX_iff]; decide

/-- C19: for every name `n` of fewer than 1021 characters that does not end in `.gz`,
`makeOutName` in compress mode returns 0 with the output name `n` followed by `.gz`, and
`makeOutName` in decompress mode on that output returns 0 with the output name `n`, the
terminator being written at index `strlen n`, inside `out_name`; for every name that ends
in `.gz`, `makeOutName` in compress mode returns -1 and writes nothing. -/
theorem C19_out_name_round_trip (n : List Char) :
    (n.length < 1021 → ¬ SUFFIX <:+ n →
      makeOutName n true = ⟨0, some (n ++ SUFFIX), none⟩ ∧
      makeOutName (n ++ SUFFIX) false = ⟨0, some n, some n.length⟩ ∧
      n.length < MAX_PATH_LEN) ∧
    (SUFFIX <:+ n → makeOutName n true = ⟨-1, none, none⟩) := by
  have hU : U64 = 18446744073709551616 := rfl
  have hM : MAX_PATH_LEN = 1024 := rfl
  have hS : SFXLEN = 3 := rfl
  constructor
  · intro hlen hns
    have h1 : hasSuffix n true = false := by
      unfold hasSuffix
      simp only [if_true]
      split
      · rfl
      · rw [decide_eq_false_iff_not, drop_eq_SUFFIX_iff]; exact hns
    have h2 : hasSuffix (n ++ SUFFIX) false = true := by
      unfold hasSuffix
      simp only [Bool.false_eq_true, if_false, Bool.or_eq_true, decide_eq_true_eq]
      right
      rw [drop_eq_SUFFIX_iff]
      exact List.suffix_append _ _
    have h3 : (n ++ SUFFIX).length = n.length + 3 := by
      rw [List.length_append, SUFFIX_length]
    refine ⟨?_, ?_, by omega⟩
    · unfold makeOutName
      simp only [if_true, h1, Bool.false_eq_true, if_false, snprintf]
      rw [List.take_of_length_le (by rw [h3, hM]; omega)]
    · unfold makeOutName
      simp only [Bool.false_eq_true, if_false, h2, Bool.not_true, snprintf]
      have hi : ((n ++ SUFFIX).length + U64 - SFXLEN) % U64 = n.length := by
        rw [h3, hU, hS]; omega
      have ht : List.take (MAX_PATH_LEN - 1) (n ++ SUFFIX) = n ++ SUFFIX :=
        List.take_of_length_le (by rw [h3, hM]; omega)
      rw [hi, if_pos (by rw [hM]; omega), ht, List.take_left]
  · intro hs
    have h1 : hasSuffix n true = true := by
      unfold hasSuffix
      simp only [if_true]
      have hl : ¬ n.length < SFXLEN := by
        have := List.IsSuffix.length_le hs
        rw [SUFFIX_length] at this
        rw [hS]; omega
      rw [if_neg hl, decide_eq_true_iff, drop_eq_SUFFIX_iff]
      exact hs
    unfold makeOutName
    simp only [if_true, h1]

theorem C19_out_name_round_trip_witness :
    ("data".toList.length < 1021 ∧ ¬ SUFFIX <:+ "data".toList ∧
      makeOutName "data".toList true = ⟨0, some ("data".toList ++ SUFFIX), none⟩ ∧
      makeOutName ("data".toList ++ SUFFIX) false =
        ⟨0, some "data".toList, some "data".toList.length⟩ ∧
      "data".toList.length < MAX_PATH_LEN) ∧
    (SUFFIX <:+ "data.gz".toList ∧ makeOutName "data.gz".toList true = ⟨-1, none, none⟩) :=
  ⟨⟨by decide, by rw [← drop_eq_SUFFIX_iff]; decide,
      (C19_out_name_round_trip "data".toList).1 (by decide)
        (by rw [← drop_eq_SUFFIX_iff]; decide)⟩,
    ⟨by rw [← drop_eq_SUFFIX_iff]; decide,
      (C19_out_name_round_trip "data.gz".toList).2 (by rw [← drop_eq_SUFFIX_iff]; decide)⟩⟩

/-- C20: the directory name of 1000 characters and the file name of 23 characters pass
the length guard of `mkPath` (`1000 < 1024` and `23 < 1024 - 1000`); the complete path,
with its separator, has 1024 characters, and the path written is cut to 1023 characters:
the last character of the file name is lost. -/
theorem C20_guard_admits_truncated_path :
    (List.replicate 1000 'a').length < MAX_PATH_LEN ∧
    (List.replicate 22 'b' ++ ['b']).length <
      MAX_PATH_LEN - (List.replicate 1000 'a').length ∧
    (List.replicate 1000 'a' ++ "/".toList ++ (List.replicate 22 'b' ++ ['b'])).length = 1024 ∧
    mkPath (List.replicate 1000 'a') (List.replicate 22 'b' ++ ['b']) =
      some (List.replicate 1000 'a' ++ "/".toList ++ List.replicate 22 'b') ∧
    mkPath (List.replicate 1000 'a') (List.replicate 22 'b' ++ ['b']) ≠
      some (List.replicate 1000 'a' ++ "/".toList ++ (List.replicate 22 'b' ++ ['b'])) := by
  have hM : MAX_PATH_LEN = 1024 := rfl
  have hmk := mkPath_cut (List.replicate 1000 'a') (List.replicate 22 'b') 'b'
    (by rw [List.length_replicate, List.length_replicate])
  refine ⟨?_, ?_, ?_, hmk, ?_⟩
  · rw [List.length_replicate, hM]; omega
  · rw [List.length_append, List.length_replicate, List.length_replicate, hM]; decide
  · rw [List.length_append, List.length_append, List.length_append, List.length_replicate,
      List.length_replicate]; rfl
  · rw [hmk]
    intro h
    have h2 := congrArg (fun o => o.map List.length) h
    simp only [Option.map_some', List.length_append, List.length_replicate, Option.some.injEq,
      List.length_singleton] at h2
    omega

end Qzip
